import Mathlib

/-!
Verification of the cue-parser library (CUE sheet parser / serializer).

This file gives a shallow embedding of the library's core:
  - JS string primitives used by the code (`trim`, `split`, `parseInt`,
    `padStart`, `toUpperCase`, quote escaping), modelled over `List Char`
    and `String`;
  - the time layer `parseMSFTime` / `parseHMSTime` / `formatHMSTime`
    (src/utils.ts);
  - the line parser `CueParser` (src/parser.ts) with its per-command
    handlers, modelled as a fold over the lines of the input, where a
    thrown JS exception is modelled by the `Option String` component of a
    handler's result (the `parse` loop catches it and records an error
    diagnostic);
  - the serializer `serializeCueSheet` / `formatCueSheet` /
    `createMinimalCueSheet` (src/serializer.ts).

Note on the time triple: the parser stores values produced by
`parseMSFTime` (fields `minutes`/`seconds`/`frames`), while the serializer
formats the very same stored triple with `formatHMSTime` (declared over
`hour`/`minute`/`second`).  The three numeric fields flow through
positionally; `fmtTrackTime` below makes that structural reinterpretation
explicit.

The `Track.srcLine` field is a ghost field (no runtime counterpart): it
records the 1-based line number of the `TRACK` command that created the
track object, and is used to express JS object identity (a track object
created once cannot appear twice) in the claims about track commitment.
No executable path reads it.
-/

set_option maxHeartbeats 1000000
set_option maxRecDepth 4000

namespace Cue

/-! ## JS string primitives -/

/-- Whitespace as matched by JS `trim` and `\s` (ASCII part). -/
def jsWs (c : Char) : Bool :=
  c = ' ' || c = '\t' || c = '\n' || c = '\r' || c = '\x0b' || c = '\x0c'

/-- Trim on char lists (both ends). -/
def trimL (l : List Char) : List Char :=
  ((l.dropWhile jsWs).reverse.dropWhile jsWs).reverse

/-- Model of `String.prototype.trim`. -/
def jsTrim (s : String) : String :=
  String.mk (trimL s.data)

/-- Model of JS `split(c)` for a single-character separator: keeps empty
pieces, `"" ↦ [""]`. -/
def splitCh (c : Char) : List Char → List (List Char)
  | [] => [[]]
  | x :: xs =>
    match splitCh c xs with
    | [] => [[]]
    | r :: rs => if x = c then [] :: r :: rs else (x :: r) :: rs

/-- Model of JS `split(/\s+/)`: splits on maximal whitespace runs, keeping
an empty piece at an end that touches whitespace, `"" ↦ [""]`. -/
def splitWs : List Char → List (List Char)
  | [] => [[]]
  | x :: xs =>
    let r := splitWs xs
    if jsWs x then
      match xs with
      | [] => [] :: r
      | y :: _ => if jsWs y then r else [] :: r
    else
      match r with
      | [] => [[]]
      | h :: t => (x :: h) :: t

/-- Model of JS `Array.prototype.join(sep)`. -/
def joinSep (sep : String) : List String → String
  | [] => ""
  | [x] => x
  | x :: y :: xs => x ++ sep ++ joinSep sep (y :: xs)

/-- Concat-map over lists (used to assemble serializer output). -/
def cmapl (f : α → List β) : List α → List β
  | [] => []
  | x :: xs => f x ++ cmapl f xs

/-- Decimal digit character (used to model JS `Number.prototype.toString`
for the natural numbers occurring in documents). -/
def dChar : Nat → Char
  | 0 => '0'
  | 1 => '1'
  | 2 => '2'
  | 3 => '3'
  | 4 => '4'
  | 5 => '5'
  | 6 => '6'
  | 7 => '7'
  | 8 => '8'
  | 9 => '9'
  | _ + 10 => '?'

/-- Fuelled helper for `natToDec` (structural recursion so that the
kernel can evaluate it; the fuel is never exhausted when `n ≤ fuel`). -/
def natToDecAux : Nat → Nat → List Char
  | 0, n => [dChar n]
  | fuel + 1, n =>
    if n < 10 then [dChar n] else natToDecAux fuel (n / 10) ++ [dChar (n % 10)]

/-- Decimal digit list of a natural number (no leading zeros; `0 ↦ "0"`). -/
def natToDec (n : Nat) : List Char :=
  natToDecAux n n

/-- Model of JS `Number.prototype.toString` on naturals. -/
def natToString (n : Nat) : String :=
  String.mk (natToDec n)

/-- Model of JS `padStart(2, "0")`. -/
def padStart2 (s : String) : String :=
  match s.data with
  | [] => "00"
  | [c] => String.mk ['0', c]
  | _ => s

/-- Numeric value of a digit character. -/
def dVal (c : Char) : Nat := c.toNat - 48

/-- Value of a list of decimal digit characters. -/
def decVal (l : List Char) : Nat :=
  l.foldl (fun a c => a * 10 + dVal c) 0

/-- Model of JS `parseInt(str, 10)`: skip leading whitespace, optional
sign, then the longest digit run; `none` models `NaN`.  Characters after
the digit run are ignored. -/
def parseIntL (l : List Char) : Option Int :=
  match l.dropWhile jsWs with
  | '-' :: rest =>
    if rest.takeWhile Char.isDigit = [] then none
    else some (-(decVal (rest.takeWhile Char.isDigit) : Int))
  | '+' :: rest =>
    if rest.takeWhile Char.isDigit = [] then none
    else some (decVal (rest.takeWhile Char.isDigit) : Int)
  | other =>
    if other.takeWhile Char.isDigit = [] then none
    else some (decVal (other.takeWhile Char.isDigit) : Int)

/-- `parseInt` on strings. -/
def jsParseInt (s : String) : Option Int := parseIntL s.data

/-- ASCII upper-casing of a char list (JS `toUpperCase` on the ASCII
command/mode/flag tokens the code compares against). -/
def upperL (l : List Char) : List Char := l.map Char.toUpper

/-- `toUpperCase` on strings. -/
def jsUpper (s : String) : String := String.mk (upperL s.data)

/-- Model of JS `String.prototype.startsWith`. -/
def jsStartsWith (s pre : String) : Bool := pre.data.isPrefixOf s.data

/-- `a` contains `b` as a substring (JS `includes`). -/
def containsSub (s pat : String) : Prop := pat.data <:+: s.data

instance (s pat : String) : Decidable (containsSub s pat) :=
  inferInstanceAs (Decidable (pat.data <:+: s.data))

/-! ## Data model (src/types.ts) -/

/-- Time triple as returned by `parseMSFTime` (minutes:seconds:frames). -/
structure MSFTime where
  minutes : Nat
  seconds : Nat
  frames : Nat
deriving DecidableEq, Repr

/-- Time triple as used by the HMS utilities (hours:minutes:seconds). -/
structure HMSTime where
  hour : Nat
  minute : Nat
  second : Nat
deriving DecidableEq, Repr

inductive TrackFlag
  | pre | dcp | fourCh | scms
deriving DecidableEq, Repr

def TrackFlag.str : TrackFlag → String
  | .pre => "PRE"
  | .dcp => "DCP"
  | .fourCh => "4CH"
  | .scms => "SCMS"

/-- Membership test against `validFlags = ['PRE','DCP','4CH','SCMS']`. -/
def trackFlagOf? (s : String) : Option TrackFlag :=
  if s = "PRE" then some .pre
  else if s = "DCP" then some .dcp
  else if s = "4CH" then some .fourCh
  else if s = "SCMS" then some .scms
  else none

inductive TrackMode
  | audio | cdg | mode1_2048 | mode1_2352 | mode2_2336 | mode2_2352 | cdi_2336 | cdi_2352
deriving DecidableEq, Repr

def TrackMode.str : TrackMode → String
  | .audio => "AUDIO"
  | .cdg => "CDG"
  | .mode1_2048 => "MODE1/2048"
  | .mode1_2352 => "MODE1/2352"
  | .mode2_2336 => "MODE2/2336"
  | .mode2_2352 => "MODE2/2352"
  | .cdi_2336 => "CDI/2336"
  | .cdi_2352 => "CDI/2352"

/-- Membership test against the `validModes` array. -/
def trackModeOf? (s : String) : Option TrackMode :=
  if s = "AUDIO" then some .audio
  else if s = "CDG" then some .cdg
  else if s = "MODE1/2048" then some .mode1_2048
  else if s = "MODE1/2352" then some .mode1_2352
  else if s = "MODE2/2336" then some .mode2_2336
  else if s = "MODE2/2352" then some .mode2_2352
  else if s = "CDI/2336" then some .cdi_2336
  else if s = "CDI/2352" then some .cdi_2352
  else none

inductive FileFormat
  | binary | motorola | aiff | wave | mp3
deriving DecidableEq, Repr

def FileFormat.str : FileFormat → String
  | .binary => "BINARY"
  | .motorola => "MOTOROLA"
  | .aiff => "AIFF"
  | .wave => "WAVE"
  | .mp3 => "MP3"

/-- Membership test against the `validFormats` array. -/
def fileFormatOf? (s : String) : Option FileFormat :=
  if s = "BINARY" then some .binary
  else if s = "MOTOROLA" then some .motorola
  else if s = "AIFF" then some .aiff
  else if s = "WAVE" then some .wave
  else if s = "MP3" then some .mp3
  else none

structure FileInfo where
  filename : String
  format : Option FileFormat
deriving DecidableEq, Repr

structure TrackIndex where
  number : Nat
  time : MSFTime
deriving DecidableEq, Repr

/-- Track record (field order as in src/types.ts; the unused `cdtext`
field is omitted; `srcLine` is the ghost creation-line field, see the
file header). -/
structure Track where
  number : Nat
  mode : TrackMode
  file : Option FileInfo
  title : Option String
  performer : Option String
  songwriter : Option String
  composer : Option String
  arranger : Option String
  message : Option String
  isrc : Option String
  flags : Option (List TrackFlag)
  indexes : Option (List TrackIndex)
  pregap : Option MSFTime
  postgap : Option MSFTime
  remarks : Option (List String)
  srcLine : Nat
deriving DecidableEq, Repr

/-- Global record (field order as in src/types.ts; unused `cdtext`
omitted). -/
structure CueGlobal where
  catalog : Option String
  cdTextFile : Option String
  file : Option FileInfo
  title : Option String
  performer : Option String
  songwriter : Option String
  composer : Option String
  arranger : Option String
  message : Option String
  discId : Option String
  genre : Option String
  upcEan : Option String
  remarks : Option (List String)
deriving DecidableEq, Repr

structure CueSheet where
  global : CueGlobal
  tracks : List Track
deriving DecidableEq, Repr

structure ParseError where
  line : Nat
  message : String
  rawLine : String
deriving DecidableEq, Repr

structure ParseResult where
  cueSheet : Option CueSheet
  errors : List ParseError
  warnings : List ParseError
deriving DecidableEq, Repr

def emptyGlobal : CueGlobal :=
  ⟨none, none, none, none, none, none, none, none, none, none, none, none, none⟩

/-- A fresh track as created by `handleTrack` (only number and mode are
set); `ln` is the ghost creation line. -/
def blankTrack (n : Nat) (m : TrackMode) (ln : Nat) : Track :=
  ⟨n, m, none, none, none, none, none, none, none, none, none, none, none, none, none, ln⟩

/-! ## Time utilities (src/utils.ts) -/

/-- `parseMSFTime` from src/utils.ts.  A thrown `Error` is modelled as
`Except.error` carrying the message. -/
def parseMSFTime (timeString : String) : Except String MSFTime :=
  match splitCh ':' (jsTrim timeString).data with
  | [p1, p2, p3] =>
    if p1 = [] || p2 = [] || p3 = [] then
      .error ("Invalid MSF time format: \"" ++ timeString ++ "\". Missing time components.")
    else
      match parseIntL p1, parseIntL p2, parseIntL p3 with
      | some m, some s, some f =>
        if m < 0 || s < 0 || f < 0 then
          .error ("Invalid MSF time format: \"" ++ timeString ++ "\". All parts must be non-negative.")
        else if 60 ≤ s then
          .error ("Invalid MSF time format: \"" ++ timeString ++ "\". Seconds must be less than 60.")
        else if 75 ≤ f then
          .error ("Invalid MSF time format: \"" ++ timeString ++ "\". Frames must be less than 75.")
        else
          .ok ⟨m.toNat, s.toNat, f.toNat⟩
      | _, _, _ =>
        .error ("Invalid MSF time format: \"" ++ timeString ++ "\". All parts must be numbers.")
  | _ =>
    .error ("Invalid MSF time format: \"" ++ timeString ++ "\". Expected format: \"m:s:f\"")

/-- `parseHMSTime` from src/utils.ts (additionally bounds minutes). -/
def parseHMSTime (timeString : String) : Except String HMSTime :=
  match splitCh ':' (jsTrim timeString).data with
  | [p1, p2, p3] =>
    if p1 = [] || p2 = [] || p3 = [] then
      .error ("Invalid time format: \"" ++ timeString ++ "\". Missing time components.")
    else
      match parseIntL p1, parseIntL p2, parseIntL p3 with
      | some h, some m, some s =>
        if h < 0 || m < 0 || s < 0 then
          .error ("Invalid time format: \"" ++ timeString ++ "\". All parts must be non-negative.")
        else if 60 ≤ m then
          .error ("Invalid time format: \"" ++ timeString ++ "\". Minutes must be less than 60.")
        else if 60 ≤ s then
          .error ("Invalid time format: \"" ++ timeString ++ "\". Seconds must be less than 60.")
        else
          .ok ⟨h.toNat, m.toNat, s.toNat⟩
      | _, _, _ =>
        .error ("Invalid time format: \"" ++ timeString ++ "\". All parts must be numbers.")
  | _ =>
    .error ("Invalid time format: \"" ++ timeString ++ "\". Expected format: \"h:m:s\"")

/-- `formatHMSTime` from src/utils.ts. -/
def formatHMSTime (time : HMSTime) (zeroPad : Bool) : String :=
  if zeroPad then
    padStart2 (natToString time.hour) ++ ":" ++ padStart2 (natToString time.minute) ++ ":" ++
      padStart2 (natToString time.second)
  else
    natToString time.hour ++ ":" ++ natToString time.minute ++ ":" ++ natToString time.second

/-- The serializer passes the stored track time triple (produced by
`parseMSFTime`) to `formatHMSTime`; the three numeric fields flow through
positionally.  This definition makes that explicit. -/
def fmtTrackTime (t : MSFTime) : String :=
  formatHMSTime ⟨t.minutes, t.seconds, t.frames⟩ true

/-! ## Parser (src/parser.ts, class CueParser)

The mutable instance fields of the class form `PState`.  A handler returns
its final state together with `Option String`: `some msg` models a thrown
`Error` (the mutations performed before the throw persist, exactly as in
JS — relevant only for `handleTrack`, which commits the open track before
validating its arguments). -/

/-- The mutable fields of a `CueParser` instance. -/
structure PState where
  currentTrack : Option Track
  global : CueGlobal
  tracks : List Track
  errors : List ParseError
  warnings : List ParseError
deriving DecidableEq, Repr

def initState : PState := ⟨none, emptyGlobal, [], [], []⟩

namespace CueParser

/-- `parseCommand`: split the (re-trimmed) line at the first space
character; the args part is trimmed. -/
def parseCommand (line : String) : String × String :=
  let trimmed := (jsTrim line).data
  match trimmed.span (fun c => c != ' ') with
  | (cmd, []) => (String.mk cmd, "")
  | (cmd, _ :: rest) => (String.mk cmd, String.mk (trimL rest))

/-- `parseQuotedString`: strip one pair of outer double quotes from the
trimmed input (when present and length ≥ 2); the interior is returned
verbatim — no un-escaping of doubled quotes. -/
def parseQuotedString (input : String) : String :=
  let t := (jsTrim input).data
  if 2 ≤ t.length ∧ t.head? = some '"' ∧ t.getLast? = some '"' then
    String.mk (t.drop 1).dropLast
  else
    String.mk t

def handleRemark (s : PState) (args : String) : PState :=
  match s.currentTrack with
  | some t => { s with currentTrack := some { t with remarks := some (t.remarks.getD [] ++ [args]) } }
  | none => { s with global := { s.global with remarks := some (s.global.remarks.getD [] ++ [args]) } }

/-- Test of `/^\d{13}$/`. -/
def is13Digits (c : String) : Bool :=
  c.data.length = 13 && c.data.all Char.isDigit

def handleCatalog (s : PState) (args : String) : PState × Option String :=
  if is13Digits (jsTrim args) then
    ({ s with global := { s.global with catalog := some (jsTrim args) } }, none)
  else
    (s, some ("CATALOG must be exactly 13 digits, got: " ++ jsTrim args))

def handleCdTextFile (s : PState) (args : String) : PState :=
  { s with global := { s.global with cdTextFile := some (parseQuotedString args) } }

def parseFileFormat (formatStr : String) : Except String FileFormat :=
  match fileFormatOf? (jsUpper formatStr) with
  | some f => .ok f
  | none => .error ("Invalid file format: " ++ formatStr)

/-- `parseFileArgs`: an optionally quoted filename followed by an optional
format token. -/
def parseFileArgs (args : String) : Except String (String × Option FileFormat) :=
  let trimmed := (jsTrim args).data
  match trimmed with
  | '"' :: rest =>
    match rest.span (fun c => c != '"') with
    | (_, []) => .error "Unterminated quoted filename"
    | (fn, _ :: after) =>
      if String.mk (trimL after) = "" then .ok (String.mk fn, none)
      else
        match parseFileFormat (String.mk (trimL after)) with
        | .error e => .error e
        | .ok f => .ok (String.mk fn, some f)
  | _ =>
    match splitWs trimmed with
    | [] => .ok ("", none)
    | p0 :: rest =>
      match rest with
      | [] => .ok (String.mk p0, none)
      | p1 :: _ =>
        if p1 = [] then .ok (String.mk p0, none)
        else
          match parseFileFormat (String.mk p1) with
          | .error e => .error e
          | .ok f => .ok (String.mk p0, some f)

def handleFile (s : PState) (args : String) (lineNumber : Nat) : PState × Option String :=
  match parseFileArgs args with
  | .error e => (s, some e)
  | .ok (filename, format) =>
    match s.currentTrack with
    | some t =>
      ({ s with currentTrack :=
            some { t with file := some ⟨String.mk ((splitCh '/' filename.data).getLastD []),
                                        format⟩ } },
        none)
    | none =>
      ({ s with warnings := s.warnings ++
          [⟨lineNumber, "Global FILE commands are not recommended. Each TRACK should have its own FILE.",
            "FILE " ++ args⟩] }, none)

/-- Commit the open track by appending it to the track list (the
`if (this.currentTrack) this.tracks.push(this.currentTrack)` step, shared
by `handleTrack` and the end of `parse`). -/
def commitCurrent (s : PState) : PState :=
  match s.currentTrack with
  | some t => { s with tracks := s.tracks ++ [t] }
  | none => s

/-- `handleTrack`: note that the currently open track is pushed to the
track list before the arguments are validated, so a malformed TRACK line
still commits the previous track (and leaves it as the open track). -/
def handleTrack (s : PState) (args : String) (lineNumber : Nat) : PState × Option String :=
  match splitWs (jsTrim args).data with
  | p0 :: p1 :: _ =>
    match parseIntL p0 with
    | none =>
      (commitCurrent s,
        some ("Invalid track number: " ++ String.mk p0 ++ ". Must be between 1 and 99."))
    | some tn =>
      if tn < 1 || 99 < tn then
        (commitCurrent s,
          some ("Invalid track number: " ++ String.mk p0 ++ ". Must be between 1 and 99."))
      else
        match trackModeOf? (String.mk (upperL p1)) with
        | none => (commitCurrent s, some ("Invalid track mode: " ++ String.mk p1))
        | some mode =>
          ({ commitCurrent s with currentTrack := some (blankTrack tn.toNat mode lineNumber) },
            none)
  | _ => (commitCurrent s, some "TRACK command requires track number and mode")

def handleIndex (s : PState) (args : String) : PState × Option String :=
  match s.currentTrack with
  | none => (s, some "INDEX command must be inside a TRACK")
  | some t =>
    match splitWs (jsTrim args).data with
    | p0 :: p1 :: _ =>
      match parseIntL p0 with
      | none =>
        (s, some ("Invalid index number: " ++ String.mk p0 ++ ". Must be between 0 and 99."))
      | some idx =>
        if idx < 0 || 99 < idx then
          (s, some ("Invalid index number: " ++ String.mk p0 ++ ". Must be between 0 and 99."))
        else
          match parseMSFTime (String.mk p1) with
          | .error e => (s, some e)
          | .ok time =>
            ({ s with currentTrack :=
                  some { t with indexes := some (t.indexes.getD [] ++ [⟨idx.toNat, time⟩]) } },
              none)
    | _ => (s, some "INDEX command requires index number and time")

def handlePregap (s : PState) (args : String) : PState × Option String :=
  match s.currentTrack with
  | none => (s, some "PREGAP command must be inside a TRACK")
  | some t =>
    match parseMSFTime (jsTrim args) with
    | .error e => (s, some e)
    | .ok time => ({ s with currentTrack := some { t with pregap := some time } }, none)

def handlePostgap (s : PState) (args : String) : PState × Option String :=
  match s.currentTrack with
  | none => (s, some "POSTGAP command must be inside a TRACK")
  | some t =>
    match parseMSFTime (jsTrim args) with
    | .error e => (s, some e)
    | .ok time => ({ s with currentTrack := some { t with postgap := some time } }, none)

/-- The flag-validation loop of `handleFlags`: first invalid token wins. -/
def parseFlags : List (List Char) → Except String (List TrackFlag)
  | [] => .ok []
  | f :: fs =>
    match trackFlagOf? (String.mk (upperL f)) with
    | none => .error ("Invalid flag: " ++ String.mk f)
    | some fl =>
      match parseFlags fs with
      | .error e => .error e
      | .ok rest => .ok (fl :: rest)

def handleFlags (s : PState) (args : String) : PState × Option String :=
  match s.currentTrack with
  | none => (s, some "FLAGS command must be inside a TRACK")
  | some t =>
    match parseFlags (splitWs (jsTrim args).data) with
    | .error e => (s, some e)
    | .ok flags => ({ s with currentTrack := some { t with flags := some flags } }, none)

/-- Test of `/^[A-Z0-9]{12}$/`. -/
def isIsrcShape (s : String) : Bool :=
  s.data.length = 12 && s.data.all (fun c => ('A' ≤ c && c ≤ 'Z') || ('0' ≤ c && c ≤ '9'))

def handleIsrc (s : PState) (args : String) (lineNumber : Nat) : PState × Option String :=
  match s.currentTrack with
  | none => (s, some "ISRC command must be inside a TRACK")
  | some t =>
    if isIsrcShape (jsTrim args) then
      ({ s with currentTrack := some { t with isrc := some (jsTrim args) } }, none)
    else
      ({ s with currentTrack := some { t with isrc := some (jsTrim args) },
                warnings := s.warnings ++
                  [⟨lineNumber,
                    "ISRC format may be invalid: " ++ jsTrim args ++
                      ". Expected format: CCOOOOYYSSSSS",
                    "ISRC " ++ args⟩] }, none)

def handleTitle (s : PState) (args : String) : PState :=
  match s.currentTrack with
  | some t => { s with currentTrack := some { t with title := some (parseQuotedString args) } }
  | none => { s with global := { s.global with title := some (parseQuotedString args) } }

def handlePerformer (s : PState) (args : String) : PState :=
  match s.currentTrack with
  | some t => { s with currentTrack := some { t with performer := some (parseQuotedString args) } }
  | none => { s with global := { s.global with performer := some (parseQuotedString args) } }

def handleSongwriter (s : PState) (args : String) : PState :=
  match s.currentTrack with
  | some t => { s with currentTrack := some { t with songwriter := some (parseQuotedString args) } }
  | none => { s with global := { s.global with songwriter := some (parseQuotedString args) } }

def handleComposer (s : PState) (args : String) : PState :=
  match s.currentTrack with
  | some t => { s with currentTrack := some { t with composer := some (parseQuotedString args) } }
  | none => { s with global := { s.global with composer := some (parseQuotedString args) } }

def handleArranger (s : PState) (args : String) : PState :=
  match s.currentTrack with
  | some t => { s with currentTrack := some { t with arranger := some (parseQuotedString args) } }
  | none => { s with global := { s.global with arranger := some (parseQuotedString args) } }

def handleMessage (s : PState) (args : String) : PState :=
  match s.currentTrack with
  | some t => { s with currentTrack := some { t with message := some (parseQuotedString args) } }
  | none => { s with global := { s.global with message := some (parseQuotedString args) } }

def handleDiscId (s : PState) (args : String) : PState :=
  { s with global := { s.global with discId := some (parseQuotedString args) } }

def handleGenre (s : PState) (args : String) : PState :=
  { s with global := { s.global with genre := some (parseQuotedString args) } }

def handleUpcEan (s : PState) (args : String) : PState :=
  { s with global := { s.global with upcEan := some (parseQuotedString args) } }

/-- The `switch (command.toUpperCase())` dispatch of `parseLine`,
written as the equivalent chain of string comparisons. -/
def dispatch (s : PState) (command args line : String) (lineNumber : Nat) :
    PState × Option String :=
  if command = "" then (s, none)
  else if jsUpper command = "REM" then (handleRemark s args, none)
  else if jsUpper command = "CATALOG" then handleCatalog s args
  else if jsUpper command = "CDTEXTFILE" then (handleCdTextFile s args, none)
  else if jsUpper command = "FILE" then handleFile s args lineNumber
  else if jsUpper command = "TRACK" then handleTrack s args lineNumber
  else if jsUpper command = "INDEX" then handleIndex s args
  else if jsUpper command = "PREGAP" then handlePregap s args
  else if jsUpper command = "POSTGAP" then handlePostgap s args
  else if jsUpper command = "FLAGS" then handleFlags s args
  else if jsUpper command = "ISRC" then handleIsrc s args lineNumber
  else if jsUpper command = "TITLE" then (handleTitle s args, none)
  else if jsUpper command = "PERFORMER" then (handlePerformer s args, none)
  else if jsUpper command = "SONGWRITER" then (handleSongwriter s args, none)
  else if jsUpper command = "COMPOSER" then (handleComposer s args, none)
  else if jsUpper command = "ARRANGER" then (handleArranger s args, none)
  else if jsUpper command = "MESSAGE" then (handleMessage s args, none)
  else if jsUpper command = "DISC_ID" then (handleDiscId s args, none)
  else if jsUpper command = "GENRE" then (handleGenre s args, none)
  else if jsUpper command = "UPC_EAN" then (handleUpcEan s args, none)
  else
    ({ s with warnings := s.warnings ++ [⟨lineNumber, "Unknown command: " ++ command, line⟩] },
      none)

/-- `parseLine` without the catch: the `Option String` result is a thrown
message.  Blank lines are skipped. -/
def parseLineRaw (s : PState) (line : String) (lineNumber : Nat) : PState × Option String :=
  if jsTrim line = "" then (s, none)
  else
    dispatch s (parseCommand (jsTrim line)).1 (parseCommand (jsTrim line)).2 line lineNumber

/-- One loop iteration of `parse`: run `parseLine` and catch a thrown
error as a diagnostic carrying the original line text. -/
def step (s : PState) (line : String) (lineNumber : Nat) : PState :=
  match parseLineRaw s line lineNumber with
  | (s1, none) => s1
  | (s1, some msg) => { s1 with errors := s1.errors ++ [⟨lineNumber, msg, line⟩] }

/-- The `for` loop of `parse` over the remaining lines, with `n` the
1-based number of the first of them. -/
def runFrom (s : PState) (n : Nat) : List String → PState
  | [] => s
  | l :: ls => runFrom (step s l n) (n + 1) ls

/-- Commit the still-open track at end of input. -/
def finalize (s : PState) : PState :=
  commitCurrent s

/-- Assemble the `ParseResult` from the final state. -/
def mkResult (s : PState) : ParseResult :=
  if s.errors.length = 0 then ⟨some ⟨s.global, s.tracks⟩, s.errors, s.warnings⟩
  else ⟨none, s.errors, s.warnings⟩

/-- The lines of the input (`content.split('\n')`). -/
def linesOf (content : String) : List String :=
  (splitCh '\n' content.data).map String.mk

/-- `CueParser.parse`, as invoked on a fresh instance. -/
def parse (content : String) : ParseResult :=
  mkResult (finalize (runFrom initState 1 (linesOf content)))

/-- The `parse` method on an instance whose mutable fields currently hold
`p`: it resets all five fields first, so `p` is discarded; the returned
post-state holds the fields as the method leaves them (the final track
commit pushes into `tracks` but leaves `currentTrack` set). -/
def instanceParse (_p : PState) (content : String) : ParseResult × PState :=
  let s := runFrom initState 1 (linesOf content)
  let s2 := finalize s
  (mkResult s2, { s2 with currentTrack := s.currentTrack })

end CueParser

/-- Convenience wrapper `parseCueSheet` (fresh parser instance). -/
def parseCueSheet (content : String) : ParseResult :=
  CueParser.parse content

/-! ## Serializer (src/serializer.ts) -/

/-- `escapeString`: double every double quote. -/
def escL : List Char → List Char
  | [] => []
  | c :: cs => if c = '"' then '"' :: '"' :: escL cs else c :: escL cs

def escapeString (str : String) : String := String.mk (escL str.data)

/-- Lines contributed by an optional field: none when the field is
absent. -/
def oLines (o : Option α) (f : α → List String) : List String :=
  match o with
  | some x => f x
  | none => []

/-- One quoted CD-TEXT line `CMD "escaped"`, emitted only when the field
is present and truthy (JS: the empty string is falsy). -/
def qLine (cmd : String) (o : Option String) : List String :=
  oLines o (fun v => if v = "" then [] else [cmd ++ " \"" ++ escapeString v ++ "\""])

/-- Lines of `serializeGlobal`. -/
def serializeGlobal (global : CueGlobal) : List String :=
  oLines global.remarks
    (fun rs => if rs.length > 0 then rs.map (fun r => "REM " ++ r) else []) ++
  oLines global.catalog (fun c => if c = "" then [] else ["CATALOG " ++ c]) ++
  oLines global.cdTextFile (fun f => if f = "" then [] else ["CDTEXTFILE \"" ++ f ++ "\""]) ++
  qLine "TITLE" global.title ++
  qLine "PERFORMER" global.performer ++
  qLine "SONGWRITER" global.songwriter ++
  qLine "COMPOSER" global.composer ++
  qLine "ARRANGER" global.arranger ++
  qLine "MESSAGE" global.message ++
  qLine "DISC_ID" global.discId ++
  qLine "GENRE" global.genre ++
  qLine "UPC_EAN" global.upcEan

/-- Does the filename force the quoted form (`includes(' ') ||
includes('"')`)? -/
def needsQuotes (s : String) : Bool :=
  s.data.any (fun c => c = ' ' || c = '"')

/-- Format suffix `" FMT"` or `""`. -/
def fmtSuffix (o : Option FileFormat) : String :=
  match o with
  | some f => " " ++ f.str
  | none => ""

/-- The top-level `FILE` line emitted by `serializeTracksOptimized`. -/
def topFileLine (f : FileInfo) : String :=
  if needsQuotes f.filename then
    "FILE \"" ++ escapeString f.filename ++ "\"" ++ fmtSuffix f.format
  else
    "FILE " ++ f.filename ++ fmtSuffix f.format

/-- The in-track `FILE` line emitted by `serializeTrackContent`. -/
def contentFileLine (f : FileInfo) : String :=
  if needsQuotes f.filename then
    "\t\t\tFILE \"" ++ escapeString f.filename ++ "\"" ++ fmtSuffix f.format
  else
    "\t\t\tFILE " ++ f.filename ++ fmtSuffix f.format

/-- Stable ascending insertion by index number, modelling
`[...indexes].sort((a, b) => a.number - b.number)` (ES2019 sort is
stable). -/
def insIdx (x : TrackIndex) : List TrackIndex → List TrackIndex
  | [] => [x]
  | y :: ys => if x.number ≤ y.number then x :: y :: ys else y :: insIdx x ys

def sortIdx : List TrackIndex → List TrackIndex
  | [] => []
  | x :: xs => insIdx x (sortIdx xs)

/-- Lines of `serializeTrackContent` (TRACK line, CD-TEXT, ISRC, FILE,
FLAGS, PREGAP, sorted INDEX lines, POSTGAP, track remarks). -/
def serializeTrackContent (track : Track) : List String :=
  ["\t\tTRACK " ++ padStart2 (natToString track.number) ++ " " ++ track.mode.str] ++
  qLine "\t\t\tTITLE" track.title ++
  qLine "\t\t\tPERFORMER" track.performer ++
  qLine "\t\t\tSONGWRITER" track.songwriter ++
  qLine "\t\t\tCOMPOSER" track.composer ++
  qLine "\t\t\tARRANGER" track.arranger ++
  qLine "\t\t\tMESSAGE" track.message ++
  oLines track.isrc (fun i => if i = "" then [] else ["\t\t\tISRC " ++ i]) ++
  oLines track.file (fun f => [contentFileLine f]) ++
  oLines track.flags
    (fun fl =>
      if fl.length > 0 then ["\t\t\tFLAGS " ++ joinSep " " (fl.map TrackFlag.str)] else []) ++
  oLines track.pregap (fun t => ["\t\t\tPREGAP " ++ fmtTrackTime t]) ++
  oLines track.indexes
    (fun idxs =>
      if idxs.length > 0 then
        (sortIdx idxs).map
          (fun i =>
            "\t\t\tINDEX " ++ padStart2 (natToString i.number) ++ " " ++ fmtTrackTime i.time)
      else []) ++
  oLines track.postgap (fun t => ["\t\t\tPOSTGAP " ++ fmtTrackTime t]) ++
  oLines track.remarks
    (fun rs => if rs.length > 0 then rs.map (fun r => "\t\t\tREM " ++ r) else [])

/-- The fold of `serializeTracksOptimized`, carrying the most recently
emitted filename. -/
def serializeTracksGo (lastFile : Option String) : List Track → List String
  | [] => []
  | track :: ts =>
    match track.file with
    | some f =>
      if some f.filename ≠ lastFile then
        [topFileLine f] ++ serializeTrackContent track ++ serializeTracksGo (some f.filename) ts
      else
        serializeTrackContent track ++ serializeTracksGo lastFile ts
    | none => serializeTrackContent track ++ serializeTracksGo lastFile ts

def serializeTracksOptimized (tracks : List Track) : List String :=
  serializeTracksGo none tracks

/-- The full line list of `serializeCueSheet`. -/
def serializeLines (cueSheet : CueSheet) : List String :=
  serializeGlobal cueSheet.global ++ serializeTracksOptimized cueSheet.tracks

/-- `serializeCueSheet`: `lines.join('\n') + '\n'`. -/
def serializeCueSheet (cueSheet : CueSheet) : String :=
  joinSep "\n" (serializeLines cueSheet) ++ "\n"

/-- Re-indentation step of `formatCueSheet` (replace a two- or three-tab
prefix by the custom indent unit). -/
def reindentLine (indent : String) (l : String) : String :=
  if jsStartsWith l "\t\t\t" then indent ++ indent ++ indent ++ String.mk (l.data.drop 3)
  else if jsStartsWith l "\t\t" then indent ++ indent ++ String.mk (l.data.drop 2)
  else l

/-- Track part of `formatCueSheet`: a blank separator line before every
track except the first (when `trackSpacing`), then the re-indented track
content. -/
def formatTracksGo (indent : String) (trackSpacing : Bool) (first : Bool) : List Track → List String
  | [] => []
  | t :: ts =>
    (if !first && trackSpacing then [""] else []) ++
    (serializeTrackContent t).map (reindentLine indent) ++
    formatTracksGo indent trackSpacing false ts

/-- The effective indent unit: JS `options.indent || '\t'` (absent or
empty falls back to a tab). -/
def effIndent (indentOpt : Option String) : String :=
  match indentOpt with
  | some i => if i = "" then "\t" else i
  | none => "\t"

/-- The effective track spacing: JS `options.trackSpacing ?? true`. -/
def effSpacing (trackSpacingOpt : Option Bool) : Bool :=
  trackSpacingOpt.getD true

/-- The full line list of `formatCueSheet`: the global block, a blank
separator line after it when it is nonempty and spacing is on, then the
re-indented tracks. -/
def formatLines (cueSheet : CueSheet) (indentOpt : Option String) (trackSpacingOpt : Option Bool) :
    List String :=
  (if (serializeGlobal cueSheet.global).length > 0 && effSpacing trackSpacingOpt then
    serializeGlobal cueSheet.global ++ [""]
  else serializeGlobal cueSheet.global) ++
  formatTracksGo (effIndent indentOpt) (effSpacing trackSpacingOpt) true cueSheet.tracks

/-- `formatCueSheet`. -/
def formatCueSheet (cueSheet : CueSheet) (indentOpt : Option String)
    (trackSpacingOpt : Option Bool) : String :=
  joinSep "\n" (formatLines cueSheet indentOpt trackSpacingOpt) ++ "\n"

/-- Per-track lines of `createMinimalCueSheet`: TRACK line, title, FILE
(always quoted here), and the first index numbered exactly 1. -/
def minimalTrackLines (track : Track) : List String :=
  ["\t\tTRACK " ++ padStart2 (natToString track.number) ++ " " ++ track.mode.str] ++
  qLine "\t\t\tTITLE" track.title ++
  oLines track.file
    (fun f => ["\t\t\tFILE \"" ++ escapeString f.filename ++ "\"" ++ fmtSuffix f.format]) ++
  oLines track.indexes
    (fun idxs =>
      oLines (idxs.find? (fun i => i.number = 1))
        (fun mi => ["\t\t\tINDEX 01 " ++ fmtTrackTime mi.time]))

/-- The full line list of `createMinimalCueSheet`. -/
def minimalLines (cueSheet : CueSheet) : List String :=
  qLine "TITLE" cueSheet.global.title ++
  qLine "PERFORMER" cueSheet.global.performer ++
  cmapl minimalTrackLines cueSheet.tracks

/-- `createMinimalCueSheet`. -/
def createMinimalCueSheet (cueSheet : CueSheet) : String :=
  joinSep "\n" (minimalLines cueSheet) ++ "\n"

/-! ## Derived notions used by the claims -/

/-- Acceptance condition of `parseMSFTime`: the trimmed input splits at
colons into exactly three nonempty fields, each field has a parseable
integer prefix in the sense of JS `parseInt` (trailing non-numeric
characters are ignored), all three values are non-negative, seconds < 60
and frames < 75. -/
def msfAccept (s : String) (t : MSFTime) : Prop :=
  ∃ p1 p2 p3 : List Char,
    splitCh ':' (jsTrim s).data = [p1, p2, p3] ∧ p1 ≠ [] ∧ p2 ≠ [] ∧ p3 ≠ [] ∧
    ∃ m sec f : Int,
      parseIntL p1 = some m ∧ parseIntL p2 = some sec ∧ parseIntL p3 = some f ∧
      0 ≤ m ∧ 0 ≤ sec ∧ 0 ≤ f ∧ sec < 60 ∧ f < 75 ∧ t = ⟨m.toNat, sec.toNat, f.toNat⟩

/-- Acceptance condition of `parseHMSTime`: as for MSF but with the bound
minutes < 60 (and seconds < 60; hours unbounded). -/
def hmsAccept (s : String) (t : HMSTime) : Prop :=
  ∃ p1 p2 p3 : List Char,
    splitCh ':' (jsTrim s).data = [p1, p2, p3] ∧ p1 ≠ [] ∧ p2 ≠ [] ∧ p3 ≠ [] ∧
    ∃ h m sec : Int,
      parseIntL p1 = some h ∧ parseIntL p2 = some m ∧ parseIntL p3 = some sec ∧
      0 ≤ h ∧ 0 ≤ m ∧ 0 ≤ sec ∧ m < 60 ∧ sec < 60 ∧ t = ⟨h.toNat, m.toNat, sec.toNat⟩

/-- The file associations of the tracks, in document order. -/
def trackFiles (tracks : List Track) : List FileInfo :=
  tracks.filterMap Track.file

/-- Adjacent de-duplication by filename with a carried "last emitted
filename", mirroring the `lastFile` fold of `serializeTracksOptimized`. -/
def dedupFiles (lastFile : Option String) : List FileInfo → List FileInfo
  | [] => []
  | f :: fs =>
    if some f.filename ≠ lastFile then f :: dedupFiles (some f.filename) fs
    else dedupFiles lastFile fs

/-- The message thrown by the five track-only handlers when no track is
open. -/
def noTrackMsg (cmd : String) : String := cmd ++ " command must be inside a TRACK"

/-- The ghost creation lines of all track objects held by the parser
state: the committed tracks followed by the open track, if any. -/
def tagsOf (s : PState) : List Nat :=
  (s.tracks ++ s.currentTrack.toList).map Track.srcLine

/-- A top-level (un-indented) `FILE` command line. -/
def isTopFileLine (l : String) : Bool := jsStartsWith l "FILE"

/-- A tab-indented in-track `FILE` command line. -/
def isContentFileLine (l : String) : Bool := jsStartsWith l "\t\t\tFILE"

/-- The string ends with exactly one `'\n'`: nonempty, last char is a
newline, and the char before it (if any) is not. -/
def endsOneNL (s : String) : Prop :=
  match s.data.reverse with
  | [] => False
  | c :: rest => c = '\n' ∧ ∀ d, rest.head? = some d → d ≠ '\n'

instance (s : String) : Decidable (endsOneNL s) := by
  unfold endsOneNL
  match s.data.reverse with
  | [] => exact inferInstanceAs (Decidable False)
  | c :: rest => exact inferInstanceAs (Decidable (_ ∧ _))

/-- No newline character occurs in the string. -/
def noNL (s : String) : Prop := '\n' ∉ s.data

instance (s : String) : Decidable (noNL s) := inferInstanceAs (Decidable ('\n' ∉ s.data))

def noNLo (o : Option String) : Prop := ∀ v, o = some v → noNL v

def noNLlist (o : Option (List String)) : Prop := ∀ l, o = some l → ∀ v ∈ l, noNL v

/-- All strings embedded in the global record are newline-free. -/
def noNLGlobal (g : CueGlobal) : Prop :=
  noNLo g.catalog ∧ noNLo g.cdTextFile ∧ (∀ f, g.file = some f → noNL f.filename) ∧
  noNLo g.title ∧ noNLo g.performer ∧ noNLo g.songwriter ∧ noNLo g.composer ∧
  noNLo g.arranger ∧ noNLo g.message ∧ noNLo g.discId ∧ noNLo g.genre ∧ noNLo g.upcEan ∧
  noNLlist g.remarks

/-- All strings embedded in a track are newline-free. -/
def noNLTrack (t : Track) : Prop :=
  (∀ f, t.file = some f → noNL f.filename) ∧
  noNLo t.title ∧ noNLo t.performer ∧ noNLo t.songwriter ∧ noNLo t.composer ∧
  noNLo t.arranger ∧ noNLo t.message ∧ noNLo t.isrc ∧ noNLlist t.remarks

/-- All strings embedded in a document are newline-free (true of every
document a parse can produce, since the input is split at newlines
first). -/
def noNLDoc (d : CueSheet) : Prop :=
  noNLGlobal d.global ∧ ∀ t ∈ d.tracks, noNLTrack t


/-! ## Claim C1: invariants and relations for the serialize/parse round trip -/

/-- Bounds on a stored time triple guaranteed by `parseMSFTime`. -/
def GoodTime (m : MSFTime) : Prop := m.seconds < 60 ∧ m.frames < 75

/-- Bounds on a stored index entry guaranteed by `handleIndex`. -/
def GoodIdx (i : TrackIndex) : Prop := i.number ≤ 99 ∧ GoodTime i.time

/-- Structural facts true of every track a parse can produce: number in
1..99, newline-free strings, nonempty bounded index lists, bounded
gaps. -/
def GoodTrack (t : Track) : Prop :=
  1 ≤ t.number ∧ t.number ≤ 99 ∧ noNLTrack t ∧
  (∀ l, t.indexes = some l → l ≠ [] ∧ ∀ i ∈ l, GoodIdx i) ∧
  (∀ p, t.pregap = some p → GoodTime p) ∧
  (∀ p, t.postgap = some p → GoodTime p)

/-- Structural facts true of every global record a parse can produce. -/
def GoodGlobal (g : CueGlobal) : Prop :=
  noNLGlobal g ∧ ∀ c, g.catalog = some c → CueParser.is13Digits c = true

/-- The parser-state invariant behind `GoodDoc`. -/
def GoodState (s : PState) : Prop :=
  GoodGlobal s.global ∧ (∀ t ∈ s.tracks, GoodTrack t) ∧
  ∀ t, s.currentTrack = some t → GoodTrack t

/-- Structural facts true of every parsed document. -/
def GoodDoc (d : CueSheet) : Prop :=
  GoodGlobal d.global ∧ ∀ t ∈ d.tracks, GoodTrack t

/-- The extra conditions on a document's tracks under which the
serialize/parse round trip preserves the compared fields: titles and
performers, when present, are nonempty and free of double quotes, and
filenames contain no double quote and no whitespace other than plain
spaces. -/
def RTHyp (t : Track) : Prop :=
  (∀ v, t.title = some v → v ≠ "" ∧ ∀ c ∈ v.data, c ≠ '"') ∧
  (∀ v, t.performer = some v → v ≠ "" ∧ ∀ c ∈ v.data, c ≠ '"') ∧
  ∀ f, t.file = some f → ∀ c ∈ f.filename.data, c ≠ '"' ∧ (jsWs c = true → c = ' ')

/-- Correspondence between an original track and its reparse: same
number, title and performer; the index list is the original one sorted
ascending by index number (which is how the serializer emits it). -/
def RTSim (t u : Track) : Prop :=
  u.number = t.number ∧ u.title = t.title ∧ u.performer = t.performer ∧
  u.indexes = Option.map sortIdx t.indexes

/-- `u2` agrees with `u` on the four compared fields. -/
def sameKey (u u2 : Track) : Prop :=
  u2.number = u.number ∧ u2.title = u.title ∧ u2.performer = u.performer ∧
  u2.indexes = u.indexes

/-- A line whose reparse cannot throw and leaves tracks, errors, the
global record and the compared fields of the open track unchanged. -/
def TStep (l : String) : Prop :=
  ∀ (s : PState) (u : Track) (n : Nat), s.currentTrack = some u →
    ∃ u2 w, CueParser.step s l n = ⟨some u2, s.global, s.tracks, s.errors, w⟩ ∧ sameKey u u2

/-- A line whose reparse, with no open track, cannot throw and changes at
most the global record and the warnings. -/
def GStep (l : String) : Prop :=
  ∀ (s : PState) (n : Nat), s.currentTrack = none →
    ∃ g w, CueParser.step s l n = ⟨none, g, s.tracks, s.errors, w⟩

/-! ## Basic lemmas about the string primitives -/

theorem trimL_of_ends (c : Char) (x : List Char) (d : Char)
    (hc : jsWs c = false) (hd : jsWs d = false) :
    trimL (c :: (x ++ [d])) = c :: (x ++ [d]) := by
  unfold trimL
  rw [List.dropWhile_cons_of_neg (by simp [hc])]
  have h1 : (c :: (x ++ [d])).reverse = d :: (x.reverse ++ [c]) := by
    simp
  rw [h1, List.dropWhile_cons_of_neg (by simp [hd])]
  simp

theorem containsSub_wrap (a b s : String) : containsSub (a ++ s ++ b) s :=
  ⟨a.data, b.data, by simp [String.data_append]⟩

theorem natToDecAux_congr : ∀ f g n : Nat, n ≤ f → n ≤ g → natToDecAux f n = natToDecAux g n := by
  intro f
  induction f with
  | zero =>
    intro g n hf _
    interval_cases n
    cases g with
    | zero => rfl
    | succ g => simp [natToDecAux]
  | succ f ih =>
    intro g n hf hg
    cases g with
    | zero =>
      interval_cases n
      simp [natToDecAux]
    | succ g =>
      simp only [natToDecAux]
      by_cases hn : n < 10
      · rw [if_pos hn, if_pos hn]
      · rw [if_neg hn, if_neg hn, ih g (n / 10) (by omega) (by omega)]

theorem natToDec_eq (n : Nat) :
    natToDec n = if n < 10 then [dChar n] else natToDec (n / 10) ++ [dChar (n % 10)] := by
  unfold natToDec
  cases n with
  | zero => simp [natToDecAux]
  | succ m =>
    simp only [natToDecAux]
    by_cases hn : m + 1 < 10
    · rw [if_pos hn, if_pos hn]
    · rw [if_neg hn, if_neg hn,
        natToDecAux_congr m ((m + 1) / 10) ((m + 1) / 10) (by omega) (by omega)]

theorem mk_data_eq (s : String) : String.mk s.data = s := rfl

theorem str_eq_empty_iff (s : String) : s = "" ↔ s.data = [] := by
  constructor
  · rintro rfl
    rfl
  · intro h
    cases s with
    | mk d => cases h; rfl

theorem noNL_append (a b : String) : noNL (a ++ b) ↔ noNL a ∧ noNL b := by
  unfold noNL
  rw [String.data_append]
  simp [not_or]

theorem append_ne_empty_left (a b : String) (h : a ≠ "") : a ++ b ≠ "" := by
  intro hc
  have hd := (str_eq_empty_iff _).mp hc
  rw [String.data_append] at hd
  exact h ((str_eq_empty_iff a).mpr (List.append_eq_nil.mp hd).1)

theorem append_ne_empty_right (a b : String) (h : b ≠ "") : a ++ b ≠ "" := by
  intro hc
  have hd := (str_eq_empty_iff _).mp hc
  rw [String.data_append] at hd
  exact h ((str_eq_empty_iff b).mpr (List.append_eq_nil.mp hd).2)

theorem dChar_isDigit (d : Nat) (h : d < 10) : (dChar d).isDigit = true := by
  interval_cases d <;> decide

theorem natToDec_digits (n : Nat) : ∀ c ∈ natToDec n, c.isDigit = true := by
  induction n using Nat.strong_induction_on with
  | _ n ih =>
    rw [natToDec_eq]
    by_cases h : n < 10
    · rw [if_pos h]
      intro c hc
      rw [List.mem_singleton] at hc
      subst hc
      exact dChar_isDigit n h
    · rw [if_neg h]
      intro c hc
      rcases List.mem_append.mp hc with h1 | h2
      · exact ih (n / 10) (by omega) c h1
      · rw [List.mem_singleton] at h2
        subst h2
        exact dChar_isDigit (n % 10) (by omega)

theorem noNL_natToString (n : Nat) : noNL (natToString n) := by
  unfold noNL natToString
  intro hc
  have := natToDec_digits n _ hc
  simp [Char.isDigit] at this

theorem noNL_padStart2 (s : String) (h : noNL s) : noNL (padStart2 s) := by
  rcases hs : s.data with - | ⟨c, - | ⟨c2, rest⟩⟩
  · have he : padStart2 s = "00" := by
      unfold padStart2
      rw [hs]
    rw [he]
    decide
  · have he : padStart2 s = String.mk ['0', c] := by
      unfold padStart2
      rw [hs]
    rw [he]
    unfold noNL at h ⊢
    intro hc
    rw [hs] at h
    rcases List.mem_cons.mp hc with hc1 | hc1
    · simp at hc1
    · rw [List.mem_singleton] at hc1
      exact h (by rw [← hc1]; exact List.mem_singleton.mpr rfl)
  · have he : padStart2 s = s := by
      unfold padStart2
      rw [hs]
    rw [he]
    exact h

theorem noNL_fmtTrackTime (t : MSFTime) : noNL (fmtTrackTime t) := by
  unfold fmtTrackTime formatHMSTime
  rw [if_pos rfl]
  rw [noNL_append, noNL_append, noNL_append, noNL_append]
  refine ⟨⟨⟨⟨noNL_padStart2 _ (noNL_natToString _), by decide⟩,
    noNL_padStart2 _ (noNL_natToString _)⟩, by decide⟩,
    noNL_padStart2 _ (noNL_natToString _)⟩

theorem escL_mem (l : List Char) (c : Char) (h : c ∈ escL l) : c ∈ l ∨ c = '"' := by
  induction l with
  | nil => exact absurd h (by simp [escL])
  | cons x xs ih =>
    unfold escL at h
    by_cases hx : x = '"'
    · rw [if_pos hx] at h
      rcases List.mem_cons.mp h with h1 | h1
      · right; exact h1
      · rcases List.mem_cons.mp h1 with h2 | h2
        · right; exact h2
        · rcases ih h2 with h3 | h3
          · left; exact List.mem_cons_of_mem _ h3
          · right; exact h3
    · rw [if_neg hx] at h
      rcases List.mem_cons.mp h with h1 | h1
      · left
        rw [h1]
        exact List.mem_cons_self _ _
      · rcases ih h1 with h3 | h3
        · left; exact List.mem_cons_of_mem _ h3
        · right; exact h3

theorem noNL_escape (v : String) (h : noNL v) : noNL (escapeString v) := by
  unfold noNL escapeString
  intro hc
  rcases escL_mem _ _ hc with h1 | h1
  · exact h h1
  · simp at h1

theorem noNL_joinSep_space (l : List String) (h : ∀ x ∈ l, noNL x) :
    noNL (joinSep " " l) := by
  induction l with
  | nil => decide
  | cons x xs ih =>
    cases xs with
    | nil => exact h x (by simp)
    | cons y ys =>
      show noNL (x ++ " " ++ joinSep " " (y :: ys))
      rw [noNL_append, noNL_append]
      exact ⟨⟨h x (by simp), by decide⟩, ih (fun z hz => h z (List.mem_cons_of_mem _ hz))⟩

theorem noNL_modeStr (m : TrackMode) : noNL m.str := by
  cases m <;> decide

theorem noNL_flagStr (f : TrackFlag) : noNL f.str := by
  cases f <;> decide

theorem noNL_fmtSuffix (o : Option FileFormat) : noNL (fmtSuffix o) := by
  rcases o with - | f
  · decide
  · cases f <;> decide

/-! ## Claim C2: a document is present iff the error list is empty -/

theorem mkResult_isSome_iff (s : PState) :
    (CueParser.mkResult s).cueSheet.isSome = true ↔ (CueParser.mkResult s).errors = [] := by
  unfold CueParser.mkResult
  by_cases h : s.errors.length = 0
  · simp [h, List.length_eq_zero.mp h]
  · simp only [if_neg h]
    simp only [Option.isSome_none, Bool.false_eq_true, false_iff]
    intro he
    exact h (by simp [he])

/-- C2.  For every input, the `ParseResult` of `CueParser.parse` carries a
`cueSheet` document iff its error list is empty; warnings play no role in
this condition. -/
theorem claim_C2_document_iff_no_errors (content : String) :
    ((CueParser.parse content).cueSheet).isSome = true ↔
      (CueParser.parse content).errors = [] :=
  mkResult_isSome_iff _

/-! ## Claim C9: a reused parser instance is reset on every call -/

/-- C9.  `CueParser.parse` resets all five mutable instance fields on
entry, so the result of a call depends only on the argument string: the
result is the same whatever state `p` the instance fields were left in,
and in particular a second sequential call on the same instance with the
same input returns the same result. -/
theorem claim_C9_parse_pure (p q : PState) (content : String) :
    (CueParser.instanceParse p content).1 = (CueParser.instanceParse q content).1 ∧
      (CueParser.instanceParse (CueParser.instanceParse p content).2 content).1 =
        (CueParser.instanceParse p content).1 :=
  ⟨rfl, rfl⟩

/-! ## Claim C5: quoted-string handling of the parser -/

/-- C5 counterexample.  The claim says internal doubled quotes are
un-escaped (`""` → `"`), so `"a""b"` should be stored as `a"b`; the
library parser strips only the outer quotes and keeps the interior
verbatim, storing `a""b`. -/
theorem claim_C5_counterexample :
    CueParser.parseQuotedString "\"a\"\"b\"" = "a\"\"b" ∧ ("a\"\"b" : String) ≠ "a\"b" := by
  constructor
  · rfl
  · decide

/-- C5 as amended.  If the trimmed argument is wrapped in double quotes
(and has length ≥ 2) the parser strips the outer quotes and stores the
interior verbatim — doubled internal quotes are NOT un-escaped; otherwise
it stores the trimmed argument verbatim. -/
theorem claim_C5_amended :
    (∀ x : String, CueParser.parseQuotedString ("\"" ++ x ++ "\"") = x) ∧
      (∀ s : String,
        ¬(2 ≤ (jsTrim s).data.length ∧ (jsTrim s).data.head? = some '"' ∧
            (jsTrim s).data.getLast? = some '"') →
        CueParser.parseQuotedString s = jsTrim s) := by
  constructor
  · intro x
    have hd : ("\"" ++ x ++ "\"").data = '"' :: (x.data ++ ['"']) := by
      simp [String.data_append]
    unfold CueParser.parseQuotedString
    have ht : (jsTrim ("\"" ++ x ++ "\"")).data = '"' :: (x.data ++ ['"']) := by
      unfold jsTrim
      rw [hd, trimL_of_ends '"' x.data '"' (by decide) (by decide)]
    rw [ht]
    rw [if_pos]
    · simp
    · refine ⟨by simp, rfl, ?_⟩
      have : '"' :: (x.data ++ ['"']) = ('"' :: x.data) ++ ['"'] := by simp
      rw [this, List.getLast?_concat]
  · intro s h
    unfold CueParser.parseQuotedString
    rw [if_neg h]

/-- Witness for C5: the amended statement applied at the quoted input
`"xyz"` and at the unquoted input `abc`. -/
theorem claim_C5_witness :
    CueParser.parseQuotedString ("\"" ++ "xyz" ++ "\"") = "xyz" ∧
      CueParser.parseQuotedString "abc" = jsTrim "abc" :=
  ⟨claim_C5_amended.1 "xyz", claim_C5_amended.2 "abc" (by decide)⟩

/-! ## Claim C7: the time-parsing contract -/

/-- C7 counterexample.  `"1:2x:3"` does not consist of three integer
fields, yet `parseMSFTime` accepts it (JS `parseInt` ignores trailing
garbage); and `"0:60:0"` is three integer fields with seconds `0 < 60`,
yet `parseHMSTime` rejects it because it also bounds the minutes field,
which the claim does not mention. -/
theorem claim_C7_counterexample :
    parseMSFTime "1:2x:3" = Except.ok ⟨1, 2, 3⟩ ∧
      parseHMSTime "0:60:0" =
        Except.error "Invalid time format: \"0:60:0\". Minutes must be less than 60." :=
  ⟨rfl, rfl⟩

theorem parseMSFTime_ok_iff (s : String) (t : MSFTime) :
    parseMSFTime s = Except.ok t ↔ msfAccept s t := by
  constructor
  · intro h
    unfold parseMSFTime at h
    split at h
    case _ p1 p2 p3 heq =>
      split at h
      · exact absurd h (by simp)
      case _ hcond =>
        split at h
        case _ m sec f hm hs hf =>
          split at h
          · exact absurd h (by simp)
          case _ hneg =>
            split at h
            · exact absurd h (by simp)
            case _ hsec =>
              split at h
              · exact absurd h (by simp)
              case _ hfr =>
                simp only [Except.ok.injEq] at h
                simp only [Bool.or_eq_true, decide_eq_true_eq, not_or] at hcond hneg
                refine ⟨p1, p2, p3, heq, hcond.1.1, hcond.1.2, hcond.2, m, sec, f, hm, hs, hf,
                  ?_, ?_, ?_, ?_, ?_, h.symm⟩ <;> omega
        · exact absurd h (by simp)
    · exact absurd h (by simp)
  · rintro ⟨p1, p2, p3, heq, h1, h2, h3, m, sec, f, hm, hs, hf, hm0, hs0, hf0, hs60, hf75, ht⟩
    unfold parseMSFTime
    rw [heq]
    simp only [hm, hs, hf]
    rw [if_neg (by simp [h1, h2, h3])]
    rw [if_neg (by simp; omega)]
    rw [if_neg (by simp; omega)]
    rw [if_neg (by simp; omega)]
    rw [ht]

theorem parseHMSTime_ok_iff (s : String) (t : HMSTime) :
    parseHMSTime s = Except.ok t ↔ hmsAccept s t := by
  constructor
  · intro h
    unfold parseHMSTime at h
    split at h
    case _ p1 p2 p3 heq =>
      split at h
      · exact absurd h (by simp)
      case _ hcond =>
        split at h
        case _ hh hm hs hhh hmm hss =>
          split at h
          · exact absurd h (by simp)
          case _ hneg =>
            split at h
            · exact absurd h (by simp)
            case _ hmin =>
              split at h
              · exact absurd h (by simp)
              case _ hsec =>
                simp only [Except.ok.injEq] at h
                simp only [Bool.or_eq_true, decide_eq_true_eq, not_or] at hcond hneg
                refine ⟨p1, p2, p3, heq, hcond.1.1, hcond.1.2, hcond.2, hh, hm, hs, hhh, hmm, hss,
                  ?_, ?_, ?_, ?_, ?_, h.symm⟩ <;> omega
        · exact absurd h (by simp)
    · exact absurd h (by simp)
  · rintro ⟨p1, p2, p3, heq, h1, h2, h3, hh, hm, hs, hp1, hp2, hp3, hh0, hm0, hs0, hm60, hs60, ht⟩
    unfold parseHMSTime
    rw [heq]
    simp only [hp1, hp2, hp3]
    rw [if_neg (by simp [h1, h2, h3])]
    rw [if_neg (by simp; omega)]
    rw [if_neg (by simp; omega)]
    rw [if_neg (by simp; omega)]
    rw [ht]

theorem parseMSFTime_error_mentions (s e : String) (h : parseMSFTime s = Except.error e) :
    containsSub e s := by
  unfold parseMSFTime at h
  split at h
  · split at h
    · injection h with h
      subst h
      exact containsSub_wrap _ _ s
    · split at h
      · split at h
        · injection h with h
          subst h
          exact containsSub_wrap _ _ s
        · split at h
          · injection h with h
            subst h
            exact containsSub_wrap _ _ s
          · split at h
            · injection h with h
              subst h
              exact containsSub_wrap _ _ s
            · simp at h
      · injection h with h
        subst h
        exact containsSub_wrap _ _ s
  · injection h with h
    subst h
    exact containsSub_wrap _ _ s

theorem parseHMSTime_error_mentions (s e : String) (h : parseHMSTime s = Except.error e) :
    containsSub e s := by
  unfold parseHMSTime at h
  split at h
  · split at h
    · injection h with h
      subst h
      exact containsSub_wrap _ _ s
    · split at h
      · split at h
        · injection h with h
          subst h
          exact containsSub_wrap _ _ s
        · split at h
          · injection h with h
            subst h
            exact containsSub_wrap _ _ s
          · split at h
            · injection h with h
              subst h
              exact containsSub_wrap _ _ s
            · simp at h
      · injection h with h
        subst h
        exact containsSub_wrap _ _ s
  · injection h with h
    subst h
    exact containsSub_wrap _ _ s

/-- C7 as amended.  Both time parsers reject any input whose trimmed form
does not split at colons into exactly three nonempty fields, any input
with a field lacking a parseable integer prefix, any negative field,
seconds ≥ 60 and (MSF) frames ≥ 75 — and `parseHMSTime` additionally
rejects minutes ≥ 60; every rejection is an `Error` whose message carries
the offending string.  But a field is "an integer" only in the JS
`parseInt` sense: trailing non-numeric characters after a leading integer
are ignored rather than rejected.  The two iff-characterizations below
state the exact acceptance boundary; the error conjuncts state that every
rejection mentions the input. -/
theorem claim_C7_amended :
    (∀ s t, parseMSFTime s = Except.ok t ↔ msfAccept s t) ∧
      (∀ s t, parseHMSTime s = Except.ok t ↔ hmsAccept s t) ∧
      (∀ s e, parseMSFTime s = Except.error e → containsSub e s) ∧
      (∀ s e, parseHMSTime s = Except.error e → containsSub e s) :=
  ⟨parseMSFTime_ok_iff, parseHMSTime_ok_iff, parseMSFTime_error_mentions,
    parseHMSTime_error_mentions⟩

/-- Witness for C7: the characterization applied at accepted input
`"01:02:03"` and the error-message conjunct applied at rejected input
`"bad"`. -/
theorem claim_C7_witness :
    msfAccept "01:02:03" ⟨1, 2, 3⟩ ∧
      containsSub "Invalid MSF time format: \"bad\". Expected format: \"m:s:f\"" "bad" :=
  ⟨(claim_C7_amended.1 "01:02:03" ⟨1, 2, 3⟩).mp rfl,
    claim_C7_amended.2.2.1 "bad" _ rfl⟩

/-! ## Claim C4: FILE lines in full serialization -/

theorem jsStartsWith_append_false (p lit x : String) (m : Nat)
    (h1 : m ≤ lit.data.length) (h2 : m ≤ p.data.length)
    (h3 : p.data.take m ≠ lit.data.take m) :
    jsStartsWith (lit ++ x) p = false := by
  unfold jsStartsWith
  by_contra hne
  rw [Bool.not_eq_false] at hne
  obtain ⟨t, ht⟩ := List.isPrefixOf_iff_prefix.mp hne
  apply h3
  have hx : (p.data ++ t).take m = ((lit ++ x).data).take m := by rw [ht]
  rw [List.take_append_of_le_length h2, String.data_append,
    List.take_append_of_le_length h1] at hx
  exact hx

theorem jsStartsWith_append_true (p lit x : String) (h : p.data <+: lit.data) :
    jsStartsWith (lit ++ x) p = true := by
  unfold jsStartsWith
  rw [List.isPrefixOf_iff_prefix, String.data_append]
  exact h.trans (List.prefix_append _ _)

theorem filter_oLines (p : String → Bool) (o : Option α) (f : α → List String) :
    (oLines o f).filter p = oLines o (fun x => (f x).filter p) := by
  cases o <;> rfl

theorem oLines_eq_nil {o : Option α} {f : α → List String} (h : ∀ x, f x = []) :
    oLines o f = [] := by
  cases o with
  | none => rfl
  | some x => exact h x

theorem mem_oLines {o : Option α} {f : α → List String} {a : String} (h : a ∈ oLines o f) :
    ∃ x, o = some x ∧ a ∈ f x := by
  cases o with
  | none => exact absurd h (by simp [oLines])
  | some x => exact ⟨x, rfl, h⟩

theorem filter_qLine_nil (p : String → Bool) (cmd : String) (o : Option String)
    (h : ∀ y, p (cmd ++ y) = false) :
    (qLine cmd o).filter p = [] := by
  unfold qLine
  rw [filter_oLines]
  apply oLines_eq_nil
  intro v
  by_cases hv : v = ""
  · simp [hv]
  · simp only [if_neg hv, List.filter_eq_nil_iff, List.mem_singleton]
    rintro a rfl
    rw [String.append_assoc, String.append_assoc, h]
    simp

/-- Filtering the lines of `serializeTrackContent`: if the predicate
refuses every non-FILE line shape, only a FILE line can survive. -/
theorem serializeTrackContent_filter (p : String → Bool) (t : Track)
    (h1 : ∀ y, p ("\t\tTRACK " ++ y) = false)
    (h2 : ∀ y, p ("\t\t\tTITLE" ++ y) = false)
    (h3 : ∀ y, p ("\t\t\tPERFORMER" ++ y) = false)
    (h4 : ∀ y, p ("\t\t\tSONGWRITER" ++ y) = false)
    (h5 : ∀ y, p ("\t\t\tCOMPOSER" ++ y) = false)
    (h6 : ∀ y, p ("\t\t\tARRANGER" ++ y) = false)
    (h7 : ∀ y, p ("\t\t\tMESSAGE" ++ y) = false)
    (h8 : ∀ y, p ("\t\t\tISRC " ++ y) = false)
    (h9 : ∀ y, p ("\t\t\tFLAGS " ++ y) = false)
    (h10 : ∀ y, p ("\t\t\tPREGAP " ++ y) = false)
    (h11 : ∀ y, p ("\t\t\tINDEX " ++ y) = false)
    (h12 : ∀ y, p ("\t\t\tPOSTGAP " ++ y) = false)
    (h13 : ∀ y, p ("\t\t\tREM " ++ y) = false) :
    (serializeTrackContent t).filter p =
      (oLines t.file (fun f => [contentFileLine f])).filter p := by
  unfold serializeTrackContent
  simp only [List.filter_append]
  rw [filter_qLine_nil p _ t.title h2, filter_qLine_nil p _ t.performer h3,
    filter_qLine_nil p _ t.songwriter h4, filter_qLine_nil p _ t.composer h5,
    filter_qLine_nil p _ t.arranger h6, filter_qLine_nil p _ t.message h7]
  have hTrackLine :
      List.filter p ["\t\tTRACK " ++ padStart2 (natToString t.number) ++ " " ++ t.mode.str]
        = [] := by
    simp only [List.filter_eq_nil_iff, List.mem_singleton]
    rintro a rfl
    rw [String.append_assoc, String.append_assoc, h1]
    simp
  rw [hTrackLine]
  have hIsrc :
      (oLines t.isrc (fun i => if i = "" then [] else ["\t\t\tISRC " ++ i])).filter p = [] := by
    rw [filter_oLines]
    apply oLines_eq_nil
    intro i
    by_cases hi : i = ""
    · simp [hi]
    · simp only [if_neg hi, List.filter_eq_nil_iff, List.mem_singleton]
      rintro a rfl
      rw [h8]
      simp
  rw [hIsrc]
  have hFlags :
      (oLines t.flags
        (fun fl =>
          if fl.length > 0 then ["\t\t\tFLAGS " ++ joinSep " " (fl.map TrackFlag.str)]
          else [])).filter p = [] := by
    rw [filter_oLines]
    apply oLines_eq_nil
    intro fl
    by_cases hl : fl.length > 0
    · simp only [if_pos hl, List.filter_eq_nil_iff, List.mem_singleton]
      rintro a rfl
      rw [h9]
      simp
    · simp [if_neg hl]
  rw [hFlags]
  have hPregap :
      (oLines t.pregap (fun tm => ["\t\t\tPREGAP " ++ fmtTrackTime tm])).filter p = [] := by
    rw [filter_oLines]
    apply oLines_eq_nil
    intro tm
    simp only [List.filter_eq_nil_iff, List.mem_singleton]
    rintro a rfl
    rw [h10]
    simp
  rw [hPregap]
  have hIdx :
      (oLines t.indexes
        (fun idxs =>
          if idxs.length > 0 then
            (sortIdx idxs).map
              (fun i => "\t\t\tINDEX " ++ padStart2 (natToString i.number) ++ " " ++
                fmtTrackTime i.time)
          else [])).filter p = [] := by
    rw [filter_oLines]
    apply oLines_eq_nil
    intro idxs
    by_cases hl : idxs.length > 0
    · simp only [if_pos hl, List.filter_eq_nil_iff, List.mem_map]
      rintro a ⟨i, _, rfl⟩
      rw [String.append_assoc, String.append_assoc, h11]
      simp
    · simp [if_neg hl]
  rw [hIdx]
  have hPostgap :
      (oLines t.postgap (fun tm => ["\t\t\tPOSTGAP " ++ fmtTrackTime tm])).filter p = [] := by
    rw [filter_oLines]
    apply oLines_eq_nil
    intro tm
    simp only [List.filter_eq_nil_iff, List.mem_singleton]
    rintro a rfl
    rw [h12]
    simp
  rw [hPostgap]
  have hRem :
      (oLines t.remarks
        (fun rs => if rs.length > 0 then rs.map (fun r => "\t\t\tREM " ++ r) else [])).filter p
        = [] := by
    rw [filter_oLines]
    apply oLines_eq_nil
    intro rs
    by_cases hl : rs.length > 0
    · simp only [if_pos hl, List.filter_eq_nil_iff, List.mem_map]
      rintro a ⟨r, _, rfl⟩
      rw [h13]
      simp
    · simp [if_neg hl]
  rw [hRem]
  simp

theorem serializeTrackContent_filter_top (t : Track) :
    (serializeTrackContent t).filter isTopFileLine = [] := by
  rw [serializeTrackContent_filter isTopFileLine t
    (fun y => jsStartsWith_append_false _ _ y 1 (by decide) (by decide) (by decide))
    (fun y => jsStartsWith_append_false _ _ y 1 (by decide) (by decide) (by decide))
    (fun y => jsStartsWith_append_false _ _ y 1 (by decide) (by decide) (by decide))
    (fun y => jsStartsWith_append_false _ _ y 1 (by decide) (by decide) (by decide))
    (fun y => jsStartsWith_append_false _ _ y 1 (by decide) (by decide) (by decide))
    (fun y => jsStartsWith_append_false _ _ y 1 (by decide) (by decide) (by decide))
    (fun y => jsStartsWith_append_false _ _ y 1 (by decide) (by decide) (by decide))
    (fun y => jsStartsWith_append_false _ _ y 1 (by decide) (by decide) (by decide))
    (fun y => jsStartsWith_append_false _ _ y 1 (by decide) (by decide) (by decide))
    (fun y => jsStartsWith_append_false _ _ y 1 (by decide) (by decide) (by decide))
    (fun y => jsStartsWith_append_false _ _ y 1 (by decide) (by decide) (by decide))
    (fun y => jsStartsWith_append_false _ _ y 1 (by decide) (by decide) (by decide))
    (fun y => jsStartsWith_append_false _ _ y 1 (by decide) (by decide) (by decide))]
  rw [filter_oLines]
  apply oLines_eq_nil
  intro f
  simp only [List.filter_eq_nil_iff, List.mem_singleton]
  rintro a rfl
  unfold contentFileLine isTopFileLine
  by_cases hq : needsQuotes f.filename
  · simp only [if_pos hq]
    rw [String.append_assoc, String.append_assoc,
      jsStartsWith_append_false "FILE" "\t\t\tFILE \"" _ 1 (by decide) (by decide) (by decide)]
    simp
  · simp only [if_neg hq]
    rw [String.append_assoc,
      jsStartsWith_append_false "FILE" "\t\t\tFILE " _ 1 (by decide) (by decide) (by decide)]
    simp

theorem serializeTrackContent_filter_con (t : Track) :
    (serializeTrackContent t).filter isContentFileLine =
      oLines t.file (fun f => [contentFileLine f]) := by
  rw [serializeTrackContent_filter isContentFileLine t
    (fun y => jsStartsWith_append_false _ _ y 3 (by decide) (by decide) (by decide))
    (fun y => jsStartsWith_append_false _ _ y 4 (by decide) (by decide) (by decide))
    (fun y => jsStartsWith_append_false _ _ y 4 (by decide) (by decide) (by decide))
    (fun y => jsStartsWith_append_false _ _ y 4 (by decide) (by decide) (by decide))
    (fun y => jsStartsWith_append_false _ _ y 4 (by decide) (by decide) (by decide))
    (fun y => jsStartsWith_append_false _ _ y 4 (by decide) (by decide) (by decide))
    (fun y => jsStartsWith_append_false _ _ y 4 (by decide) (by decide) (by decide))
    (fun y => jsStartsWith_append_false _ _ y 4 (by decide) (by decide) (by decide))
    (fun y => jsStartsWith_append_false _ _ y 5 (by decide) (by decide) (by decide))
    (fun y => jsStartsWith_append_false _ _ y 4 (by decide) (by decide) (by decide))
    (fun y => jsStartsWith_append_false _ _ y 4 (by decide) (by decide) (by decide))
    (fun y => jsStartsWith_append_false _ _ y 4 (by decide) (by decide) (by decide))
    (fun y => jsStartsWith_append_false _ _ y 4 (by decide) (by decide) (by decide))]
  rw [filter_oLines]
  cases t.file with
  | none => rfl
  | some f =>
    simp only [oLines, List.filter]
    have hp : isContentFileLine (contentFileLine f) = true := by
      unfold contentFileLine isContentFileLine
      by_cases hq : needsQuotes f.filename
      · simp only [if_pos hq]
        rw [String.append_assoc, String.append_assoc]
        exact jsStartsWith_append_true _ "\t\t\tFILE \"" _ (by decide)
      · simp only [if_neg hq]
        rw [String.append_assoc]
        exact jsStartsWith_append_true _ "\t\t\tFILE " _ (by decide)
    rw [hp]

theorem topFileLine_is_top (f : FileInfo) : isTopFileLine (topFileLine f) = true := by
  unfold topFileLine isTopFileLine
  by_cases hq : needsQuotes f.filename
  · simp only [if_pos hq]
    rw [String.append_assoc, String.append_assoc]
    exact jsStartsWith_append_true _ "FILE \"" _ (by decide)
  · simp only [if_neg hq]
    rw [String.append_assoc]
    exact jsStartsWith_append_true _ "FILE " _ (by decide)

theorem topFileLine_not_con (f : FileInfo) : isContentFileLine (topFileLine f) = false := by
  unfold topFileLine isContentFileLine
  by_cases hq : needsQuotes f.filename
  · simp only [if_pos hq]
    rw [String.append_assoc, String.append_assoc]
    exact jsStartsWith_append_false _ "FILE \"" _ 1 (by decide) (by decide) (by decide)
  · simp only [if_neg hq]
    rw [String.append_assoc]
    exact jsStartsWith_append_false _ "FILE " _ 1 (by decide) (by decide) (by decide)

theorem serializeTracksGo_filter_top (ts : List Track) :
    ∀ lastFile, (serializeTracksGo lastFile ts).filter isTopFileLine =
      (dedupFiles lastFile (trackFiles ts)).map topFileLine := by
  induction ts with
  | nil => intro lastFile; rfl
  | cons t ts ih =>
    intro lastFile
    cases hf : t.file with
    | none =>
      simp only [serializeTracksGo, hf]
      rw [List.filter_append, serializeTrackContent_filter_top, List.nil_append]
      have : trackFiles (t :: ts) = trackFiles ts := by
        unfold trackFiles
        rw [List.filterMap_cons]
        simp [hf]
      rw [this, ih]
    | some f =>
      have htf : trackFiles (t :: ts) = f :: trackFiles ts := by
        unfold trackFiles
        rw [List.filterMap_cons]
        simp [hf]
      simp only [serializeTracksGo, hf]
      by_cases hd : some f.filename ≠ lastFile
      · rw [if_pos hd]
        simp only [List.append_assoc, List.filter_append, List.filter_cons, List.filter_nil,
          topFileLine_is_top]
        rw [serializeTrackContent_filter_top, ih, htf]
        simp only [dedupFiles]
        rw [if_pos hd]
        simp
      · rw [if_neg hd]
        rw [List.filter_append, serializeTrackContent_filter_top, List.nil_append, ih, htf]
        simp only [dedupFiles]
        rw [if_neg hd]

theorem serializeTracksGo_filter_con (ts : List Track) :
    ∀ lastFile, (serializeTracksGo lastFile ts).filter isContentFileLine =
      (trackFiles ts).map contentFileLine := by
  induction ts with
  | nil => intro lastFile; rfl
  | cons t ts ih =>
    intro lastFile
    cases hf : t.file with
    | none =>
      simp only [serializeTracksGo, hf]
      rw [List.filter_append, serializeTrackContent_filter_con, hf]
      simp only [oLines, List.nil_append]
      have : trackFiles (t :: ts) = trackFiles ts := by
        unfold trackFiles
        rw [List.filterMap_cons]
        simp [hf]
      rw [this, ih]
    | some f =>
      have htf : trackFiles (t :: ts) = f :: trackFiles ts := by
        unfold trackFiles
        rw [List.filterMap_cons]
        simp [hf]
      simp only [serializeTracksGo, hf]
      by_cases hd : some f.filename ≠ lastFile
      · rw [if_pos hd]
        simp only [List.append_assoc, List.filter_append, List.filter_cons, List.filter_nil,
          topFileLine_not_con]
        rw [serializeTrackContent_filter_con, hf, ih, htf]
        simp [oLines]
      · rw [if_neg hd]
        rw [List.filter_append, serializeTrackContent_filter_con, hf, ih, htf]
        simp [oLines]

/-- C4 counterexample.  A document with two consecutive tracks sharing the
filename `a.wav`: the serialized output contains three FILE command lines
(one de-duplicated top-level line plus one indented line inside each
track), not exactly one as claimed. -/
theorem claim_C4_counterexample :
    ((serializeLines
        ⟨emptyGlobal,
          [{ blankTrack 1 .audio 0 with file := some ⟨"a.wav", some .wave⟩ },
            { blankTrack 2 .audio 0 with file := some ⟨"a.wav", some .wave⟩ }]⟩).filter
      (fun l => jsStartsWith (jsTrim l) "FILE")).length = 3 := by
  rfl

/-- C4 as amended.  In `serializeTracksOptimized`, the *top-level*
(un-indented) FILE lines are exactly one per run of consecutive
file-carrying tracks whose filename differs from the most recently
emitted filename (the `dedupFiles` fold); but in addition
`serializeTrackContent` emits one tab-indented FILE line inside every
track that has a file, so a run of n tracks sharing one filename
contributes one top-level FILE line plus n indented FILE lines, not
exactly one FILE line in total. -/
theorem claim_C4_amended (tracks : List Track) :
    (serializeTracksOptimized tracks).filter isTopFileLine =
      (dedupFiles none (trackFiles tracks)).map topFileLine ∧
    (serializeTracksOptimized tracks).filter isContentFileLine =
      (trackFiles tracks).map contentFileLine :=
  ⟨serializeTracksGo_filter_top tracks none, serializeTracksGo_filter_con tracks none⟩

/-! ## Claim C8: minimal serialization and PREGAP / INDEX 00 -/

theorem qLine_mem (cmd : String) (o : Option String) (a : String) (h : a ∈ qLine cmd o) :
    ∃ y, a = cmd ++ y := by
  unfold qLine at h
  obtain ⟨v, -, hv⟩ := mem_oLines h
  by_cases he : v = ""
  · exact absurd hv (by simp [he])
  · simp only [if_neg he, List.mem_singleton] at hv
    exact ⟨" \"" ++ (escapeString v ++ "\""), by
      rw [hv, String.append_assoc, String.append_assoc]⟩

theorem cmapl_mem {f : α → List β} {l : List α} {a : β} (h : a ∈ cmapl f l) :
    ∃ x ∈ l, a ∈ f x := by
  induction l with
  | nil => exact absurd h (by simp [cmapl])
  | cons x xs ih =>
    unfold cmapl at h
    rcases List.mem_append.mp h with h1 | h2
    · exact ⟨x, by simp, h1⟩
    · obtain ⟨y, hy, ha⟩ := ih h2
      exact ⟨y, by simp [hy], ha⟩

/-- C8 counterexample.  The claim quantifies over every document; a
document whose global title is the text `PREGAP` makes the minimal
output contain the substring `PREGAP` (inside the quoted TITLE line). -/
theorem claim_C8_counterexample :
    containsSub
      (createMinimalCueSheet ⟨{ emptyGlobal with title := some "PREGAP" }, []⟩) "PREGAP" := by
  decide

/-- C8 as amended.  `createMinimalCueSheet` never *emits* a PREGAP
command line nor an INDEX 00 command line: no line of its output begins
with `\t\t\tPREGAP` or with `\t\t\tINDEX 00`, even when tracks carry
pregap fields or index entries numbered 0.  (The raw substrings can still
occur inside quoted text fields such as titles or filenames, which is
what falsifies the claim as stated.) -/
theorem claim_C8_amended (d : CueSheet) (line : String) (h : line ∈ minimalLines d) :
    jsStartsWith line "\t\t\tPREGAP" = false ∧ jsStartsWith line "\t\t\tINDEX 00" = false := by
  unfold minimalLines at h
  rcases List.mem_append.mp h with h1 | h2
  · rcases List.mem_append.mp h1 with ht | hp
    · obtain ⟨y, rfl⟩ := qLine_mem _ _ _ ht
      exact ⟨jsStartsWith_append_false _ "TITLE" y 1 (by decide) (by decide) (by decide),
        jsStartsWith_append_false _ "TITLE" y 1 (by decide) (by decide) (by decide)⟩
    · obtain ⟨y, rfl⟩ := qLine_mem _ _ _ hp
      exact ⟨jsStartsWith_append_false _ "PERFORMER" y 1 (by decide) (by decide) (by decide),
        jsStartsWith_append_false _ "PERFORMER" y 1 (by decide) (by decide) (by decide)⟩
  · obtain ⟨t, _, hline⟩ := cmapl_mem h2
    unfold minimalTrackLines at hline
    rcases List.mem_append.mp hline with h3 | hIdx
    · rcases List.mem_append.mp h3 with h4 | hFile
      · rcases List.mem_append.mp h4 with hTr | hTi
        · simp only [List.mem_singleton] at hTr
          subst hTr
          rw [String.append_assoc, String.append_assoc]
          exact ⟨jsStartsWith_append_false _ "\t\tTRACK " _ 3 (by decide) (by decide) (by decide),
            jsStartsWith_append_false _ "\t\tTRACK " _ 3 (by decide) (by decide) (by decide)⟩
        · obtain ⟨y, rfl⟩ := qLine_mem _ _ _ hTi
          exact
            ⟨jsStartsWith_append_false _ "\t\t\tTITLE" y 4 (by decide) (by decide) (by decide),
              jsStartsWith_append_false _ "\t\t\tTITLE" y 4 (by decide) (by decide) (by decide)⟩
      · obtain ⟨f, -, hFile2⟩ := mem_oLines hFile
        simp only [List.mem_singleton] at hFile2
        subst hFile2
        rw [String.append_assoc, String.append_assoc]
        exact
          ⟨jsStartsWith_append_false _ "\t\t\tFILE \"" _ 4 (by decide) (by decide) (by decide),
            jsStartsWith_append_false _ "\t\t\tFILE \"" _ 4 (by decide) (by decide) (by decide)⟩
    · obtain ⟨idxs, -, hIdx2⟩ := mem_oLines hIdx
      obtain ⟨mi, -, hIdx3⟩ := mem_oLines hIdx2
      simp only [List.mem_singleton] at hIdx3
      subst hIdx3
      exact
        ⟨jsStartsWith_append_false _ "\t\t\tINDEX 01 " _ 4 (by decide) (by decide) (by decide),
          jsStartsWith_append_false _ "\t\t\tINDEX 01 " _ 11 (by decide) (by decide)
            (by decide)⟩

/-- Witness for C8: the amended statement applied at a concrete document
and line. -/
theorem claim_C8_witness :
    jsStartsWith "TITLE \"T\"" "\t\t\tPREGAP" = false ∧
      jsStartsWith "TITLE \"T\"" "\t\t\tINDEX 00" = false :=
  claim_C8_amended ⟨{ emptyGlobal with title := some "T" }, []⟩ "TITLE \"T\"" (by decide)

/-! ## Claim C10: trailing newlines of the three serializers -/

theorem qLine_all (cmd : String) (o : Option String) (hc : noNL cmd) (ho : noNLo o) :
    ∀ x ∈ qLine cmd o, noNL x ∧ x ≠ "" := by
  intro x hx
  unfold qLine at hx
  obtain ⟨v, hv, hx2⟩ := mem_oLines hx
  by_cases he : v = ""
  · exact absurd hx2 (by simp [he])
  · simp only [if_neg he, List.mem_singleton] at hx2
    subst hx2
    constructor
    · rw [noNL_append, noNL_append, noNL_append]
      exact ⟨⟨⟨hc, by decide⟩, noNL_escape v (ho v hv)⟩, by decide⟩
    · exact append_ne_empty_right _ _ (by decide)

theorem contentFileLine_all (f : FileInfo) (h : noNL f.filename) :
    noNL (contentFileLine f) ∧ contentFileLine f ≠ "" := by
  unfold contentFileLine
  by_cases hq : needsQuotes f.filename
  · rw [if_pos hq]
    constructor
    · rw [noNL_append, noNL_append, noNL_append]
      exact ⟨⟨⟨by decide, noNL_escape _ h⟩, by decide⟩, noNL_fmtSuffix _⟩
    · exact append_ne_empty_left _ _
        (append_ne_empty_left _ _ (append_ne_empty_left _ _ (by decide)))
  · rw [if_neg hq]
    constructor
    · rw [noNL_append, noNL_append]
      exact ⟨⟨by decide, h⟩, noNL_fmtSuffix _⟩
    · exact append_ne_empty_left _ _ (append_ne_empty_left _ _ (by decide))

theorem topFileLine_all (f : FileInfo) (h : noNL f.filename) :
    noNL (topFileLine f) ∧ topFileLine f ≠ "" := by
  unfold topFileLine
  by_cases hq : needsQuotes f.filename
  · rw [if_pos hq]
    constructor
    · rw [noNL_append, noNL_append, noNL_append]
      exact ⟨⟨⟨by decide, noNL_escape _ h⟩, by decide⟩, noNL_fmtSuffix _⟩
    · exact append_ne_empty_left _ _
        (append_ne_empty_left _ _ (append_ne_empty_left _ _ (by decide)))
  · rw [if_neg hq]
    constructor
    · rw [noNL_append, noNL_append]
      exact ⟨⟨by decide, h⟩, noNL_fmtSuffix _⟩
    · exact append_ne_empty_left _ _ (append_ne_empty_left _ _ (by decide))

theorem serializeGlobal_all (g : CueGlobal) (hg : noNLGlobal g) :
    ∀ x ∈ serializeGlobal g, noNL x ∧ x ≠ "" := by
  obtain ⟨hcat, hcdt, hfile, hti, hpe, hso, hco, har, hme, hdi, hge, hup, hrem⟩ := hg
  unfold serializeGlobal
  simp only [List.forall_mem_append, and_assoc]
  refine ⟨?_, ?_, ?_, qLine_all _ _ (by decide) hti, qLine_all _ _ (by decide) hpe,
    qLine_all _ _ (by decide) hso, qLine_all _ _ (by decide) hco,
    qLine_all _ _ (by decide) har, qLine_all _ _ (by decide) hme,
    qLine_all _ _ (by decide) hdi, qLine_all _ _ (by decide) hge,
    qLine_all _ _ (by decide) hup⟩
  · intro x hx
    obtain ⟨rs, hrs, hx2⟩ := mem_oLines hx
    by_cases hl : rs.length > 0
    · rw [if_pos hl] at hx2
      obtain ⟨r, hr, rfl⟩ := List.mem_map.mp hx2
      constructor
      · rw [noNL_append]
        exact ⟨by decide, hrem rs hrs r hr⟩
      · exact append_ne_empty_left _ _ (by decide)
    · exact absurd hx2 (by simp [if_neg hl])
  · intro x hx
    obtain ⟨c, hcs, hx2⟩ := mem_oLines hx
    by_cases he : c = ""
    · exact absurd hx2 (by simp [he])
    · rw [if_neg he] at hx2
      rw [List.mem_singleton] at hx2
      subst hx2
      constructor
      · rw [noNL_append]
        exact ⟨by decide, hcat c hcs⟩
      · exact append_ne_empty_left _ _ (by decide)
  · intro x hx
    obtain ⟨c, hcs, hx2⟩ := mem_oLines hx
    by_cases he : c = ""
    · exact absurd hx2 (by simp [he])
    · rw [if_neg he] at hx2
      rw [List.mem_singleton] at hx2
      subst hx2
      constructor
      · rw [noNL_append, noNL_append]
        exact ⟨⟨by decide, hcdt c hcs⟩, by decide⟩
      · exact append_ne_empty_left _ _ (append_ne_empty_left "CDTEXTFILE \"" _ (by decide))

theorem serializeTrackContent_all (t : Track) (ht : noNLTrack t) :
    ∀ x ∈ serializeTrackContent t, noNL x ∧ x ≠ "" := by
  obtain ⟨hfile, hti, hpe, hso, hco, har, hme, hisrc, hrem⟩ := ht
  unfold serializeTrackContent
  simp only [List.forall_mem_append, and_assoc]
  refine ⟨?_, qLine_all _ _ (by decide) hti, qLine_all _ _ (by decide) hpe,
    qLine_all _ _ (by decide) hso, qLine_all _ _ (by decide) hco,
    qLine_all _ _ (by decide) har, qLine_all _ _ (by decide) hme,
    ?_, ?_, ?_, ?_, ?_, ?_, ?_⟩
  · intro x hx
    rw [List.mem_singleton] at hx
    subst hx
    constructor
    · rw [noNL_append, noNL_append, noNL_append]
      exact ⟨⟨⟨by decide, noNL_padStart2 _ (noNL_natToString _)⟩, by decide⟩, noNL_modeStr _⟩
    · exact append_ne_empty_left _ _
        (append_ne_empty_left _ _ (append_ne_empty_left "\t\tTRACK " _ (by decide)))
  · intro x hx
    obtain ⟨i, hi, hx2⟩ := mem_oLines hx
    by_cases he : i = ""
    · exact absurd hx2 (by simp [he])
    · rw [if_neg he] at hx2
      rw [List.mem_singleton] at hx2
      subst hx2
      constructor
      · rw [noNL_append]
        exact ⟨by decide, hisrc i hi⟩
      · exact append_ne_empty_left _ _ (by decide)
  · intro x hx
    obtain ⟨f, hf, hx2⟩ := mem_oLines hx
    rw [List.mem_singleton] at hx2
    subst hx2
    exact contentFileLine_all f (hfile f hf)
  · intro x hx
    obtain ⟨fl, -, hx2⟩ := mem_oLines hx
    by_cases hl : fl.length > 0
    · rw [if_pos hl] at hx2
      rw [List.mem_singleton] at hx2
      subst hx2
      constructor
      · rw [noNL_append]
        refine ⟨by decide, noNL_joinSep_space _ ?_⟩
        intro z hz
        obtain ⟨fg, -, rfl⟩ := List.mem_map.mp hz
        exact noNL_flagStr fg
      · exact append_ne_empty_left _ _ (by decide)
    · exact absurd hx2 (by simp [if_neg hl])
  · intro x hx
    obtain ⟨tm, -, hx2⟩ := mem_oLines hx
    rw [List.mem_singleton] at hx2
    subst hx2
    constructor
    · rw [noNL_append]
      exact ⟨by decide, noNL_fmtTrackTime _⟩
    · exact append_ne_empty_left _ _ (by decide)
  · intro x hx
    obtain ⟨idxs, -, hx2⟩ := mem_oLines hx
    by_cases hl : idxs.length > 0
    · rw [if_pos hl] at hx2
      obtain ⟨i, -, rfl⟩ := List.mem_map.mp hx2
      constructor
      · rw [noNL_append, noNL_append, noNL_append]
        exact ⟨⟨⟨by decide, noNL_padStart2 _ (noNL_natToString _)⟩, by decide⟩,
          noNL_fmtTrackTime _⟩
      · exact append_ne_empty_left _ _
          (append_ne_empty_left _ _ (append_ne_empty_left "\t\t\tINDEX " _ (by decide)))
    · exact absurd hx2 (by simp [if_neg hl])
  · intro x hx
    obtain ⟨tm, -, hx2⟩ := mem_oLines hx
    rw [List.mem_singleton] at hx2
    subst hx2
    constructor
    · rw [noNL_append]
      exact ⟨by decide, noNL_fmtTrackTime _⟩
    · exact append_ne_empty_left _ _ (by decide)
  · intro x hx
    obtain ⟨rs, hrs, hx2⟩ := mem_oLines hx
    by_cases hl : rs.length > 0
    · rw [if_pos hl] at hx2
      obtain ⟨r, hr, rfl⟩ := List.mem_map.mp hx2
      constructor
      · rw [noNL_append]
        exact ⟨by decide, hrem rs hrs r hr⟩
      · exact append_ne_empty_left _ _ (by decide)
    · exact absurd hx2 (by simp [if_neg hl])

theorem serializeTracksGo_all (ts : List Track) (h : ∀ t ∈ ts, noNLTrack t) :
    ∀ lastFile, ∀ x ∈ serializeTracksGo lastFile ts, noNL x ∧ x ≠ "" := by
  induction ts with
  | nil => intro lastFile x hx; exact absurd hx (by simp [serializeTracksGo])
  | cons t ts ih =>
    intro lastFile x hx
    have ht : noNLTrack t := h t (by simp)
    have hts : ∀ u ∈ ts, noNLTrack u := fun u hu => h u (List.mem_cons_of_mem _ hu)
    cases hf : t.file with
    | none =>
      simp only [serializeTracksGo, hf] at hx
      rcases List.mem_append.mp hx with h1 | h1
      · exact serializeTrackContent_all t ht x h1
      · exact ih hts lastFile x h1
    | some f =>
      simp only [serializeTracksGo, hf] at hx
      by_cases hd : some f.filename ≠ lastFile
      · rw [if_pos hd] at hx
        rcases List.mem_append.mp hx with h1 | h1
        · rcases List.mem_append.mp h1 with h2 | h2
          · rw [List.mem_singleton] at h2
            subst h2
            exact topFileLine_all f (ht.1 f hf)
          · exact serializeTrackContent_all t ht x h2
        · exact ih hts (some f.filename) x h1
      · rw [if_neg hd] at hx
        rcases List.mem_append.mp hx with h1 | h1
        · exact serializeTrackContent_all t ht x h1
        · exact ih hts lastFile x h1

theorem serializeLines_all (d : CueSheet) (hd : noNLDoc d) :
    ∀ x ∈ serializeLines d, noNL x ∧ x ≠ "" := by
  intro x hx
  rcases List.mem_append.mp hx with h1 | h1
  · exact serializeGlobal_all d.global hd.1 x h1
  · exact serializeTracksGo_all d.tracks hd.2 none x h1

theorem minimalTrackLines_all (t : Track) (ht : noNLTrack t) :
    ∀ x ∈ minimalTrackLines t, noNL x ∧ x ≠ "" := by
  unfold minimalTrackLines
  simp only [List.forall_mem_append, and_assoc]
  refine ⟨?_, qLine_all _ _ (by decide) ht.2.1, ?_, ?_⟩
  · intro x hx
    rw [List.mem_singleton] at hx
    subst hx
    constructor
    · rw [noNL_append, noNL_append, noNL_append]
      exact ⟨⟨⟨by decide, noNL_padStart2 _ (noNL_natToString _)⟩, by decide⟩, noNL_modeStr _⟩
    · exact append_ne_empty_left _ _
        (append_ne_empty_left _ _ (append_ne_empty_left "\t\tTRACK " _ (by decide)))
  · intro x hx
    obtain ⟨f, hf, hx2⟩ := mem_oLines hx
    rw [List.mem_singleton] at hx2
    subst hx2
    constructor
    · rw [noNL_append, noNL_append, noNL_append]
      exact ⟨⟨⟨by decide, noNL_escape _ (ht.1 f hf)⟩, by decide⟩, noNL_fmtSuffix _⟩
    · exact append_ne_empty_left _ _
        (append_ne_empty_left _ _ (append_ne_empty_left _ _ (by decide)))
  · intro x hx
    obtain ⟨idxs, -, hx2⟩ := mem_oLines hx
    obtain ⟨mi, -, hx3⟩ := mem_oLines hx2
    rw [List.mem_singleton] at hx3
    subst hx3
    constructor
    · rw [noNL_append]
      exact ⟨by decide, noNL_fmtTrackTime _⟩
    · exact append_ne_empty_left _ _ (by decide)

theorem minimalLines_all (d : CueSheet) (hd : noNLDoc d) :
    ∀ x ∈ minimalLines d, noNL x ∧ x ≠ "" := by
  intro x hx
  unfold minimalLines at hx
  rcases List.mem_append.mp hx with h1 | h1
  · rcases List.mem_append.mp h1 with h2 | h2
    · exact qLine_all _ _ (by decide) hd.1.2.2.2.1 x h2
    · exact qLine_all _ _ (by decide) hd.1.2.2.2.2.1 x h2
  · obtain ⟨t, ht, hx2⟩ := cmapl_mem h1
    exact minimalTrackLines_all t (hd.2 t ht) x hx2

theorem joinSep_getLast (lines : List String) (hnl : ∀ x ∈ lines, noNL x)
    (hlast : ∀ z, lines.getLast? = some z → z ≠ "") :
    ∀ c, (joinSep "\n" lines).data.getLast? = some c → c ≠ '\n' := by
  induction lines with
  | nil =>
    intro c hc
    simp [joinSep] at hc
  | cons x xs ih =>
    cases xs with
    | nil =>
      intro c hc
      have hm : c ∈ x.data := List.mem_of_mem_getLast? hc
      intro hcn
      subst hcn
      exact hnl x (by simp) hm
    | cons y ys =>
      intro c hc
      have hx : joinSep "\n" (x :: y :: ys) = x ++ "\n" ++ joinSep "\n" (y :: ys) := rfl
      rw [hx, String.data_append, String.data_append] at hc
      by_cases hrest : (joinSep "\n" (y :: ys)).data = []
      · exfalso
        cases ys with
        | nil =>
          have hy : y = "" := (str_eq_empty_iff y).mpr hrest
          exact hlast y (by simp) hy
        | cons z zs =>
          have hz : joinSep "\n" (y :: z :: zs) = y ++ "\n" ++ joinSep "\n" (z :: zs) := rfl
          rw [hz, String.data_append, String.data_append] at hrest
          rcases List.append_eq_nil.mp hrest with ⟨h1, -⟩
          rcases List.append_eq_nil.mp h1 with ⟨-, h3⟩
          simp at h3
      · rw [List.append_assoc, List.getLast?_append_of_ne_nil _ (by simp),
          List.getLast?_append_of_ne_nil _ hrest] at hc
        exact ih (fun z hz => hnl z (List.mem_cons_of_mem _ hz))
          (fun z hz => hlast z (by rw [List.getLast?_cons_cons]; exact hz)) c hc

theorem endsOneNL_append_nl (s : String) (h : ∀ c, s.data.getLast? = some c → c ≠ '\n') :
    endsOneNL (s ++ "\n") := by
  unfold endsOneNL
  rw [String.data_append]
  have hrev : (s.data ++ ("\n" : String).data).reverse = '\n' :: s.data.reverse := by
    simp
  rw [hrev]
  refine ⟨rfl, fun d hd => ?_⟩
  rw [List.head?_reverse] at hd
  exact fun hdn => h d hd (by rw [← hdn])

theorem endsOneNL_join (lines : List String) (hnl : ∀ x ∈ lines, noNL x)
    (hlast : ∀ z, lines.getLast? = some z → z ≠ "") :
    endsOneNL (joinSep "\n" lines ++ "\n") :=
  endsOneNL_append_nl _ (joinSep_getLast lines hnl hlast)

theorem reindent_noNL (indent x : String) (hi : noNL indent) (hx : noNL x) :
    noNL (reindentLine indent x) := by
  unfold reindentLine
  by_cases h1 : jsStartsWith x "\t\t\t"
  · rw [if_pos h1]
    rw [noNL_append, noNL_append, noNL_append]
    refine ⟨⟨⟨hi, hi⟩, hi⟩, ?_⟩
    intro hc
    exact hx (List.drop_subset 3 x.data hc)
  · rw [if_neg h1]
    by_cases h2 : jsStartsWith x "\t\t"
    · rw [if_pos h2]
      rw [noNL_append, noNL_append]
      refine ⟨⟨hi, hi⟩, ?_⟩
      intro hc
      exact hx (List.drop_subset 2 x.data hc)
    · rw [if_neg h2]
      exact hx

theorem reindent_ne (indent x : String) (hi : indent ≠ "") (hx : x ≠ "") :
    reindentLine indent x ≠ "" := by
  unfold reindentLine
  by_cases h1 : jsStartsWith x "\t\t\t"
  · rw [if_pos h1]
    exact append_ne_empty_left _ _ (append_ne_empty_left _ _ (append_ne_empty_left _ _ hi))
  · rw [if_neg h1]
    by_cases h2 : jsStartsWith x "\t\t"
    · rw [if_pos h2]
      exact append_ne_empty_left _ _ (append_ne_empty_left _ _ hi)
    · rw [if_neg h2]
      exact hx

theorem formatTracksGo_all (indent : String) (sp : Bool) (ts : List Track)
    (hi : noNL indent) (h : ∀ t ∈ ts, noNLTrack t) :
    ∀ first, ∀ x ∈ formatTracksGo indent sp first ts, noNL x := by
  induction ts with
  | nil => intro first x hx; exact absurd hx (by simp [formatTracksGo])
  | cons t ts ih =>
    intro first x hx
    unfold formatTracksGo at hx
    rcases List.mem_append.mp hx with h1 | h1
    · rcases List.mem_append.mp h1 with h2 | h2
      · by_cases hb : !first && sp
        · rw [if_pos hb] at h2
          rw [List.mem_singleton] at h2
          subst h2
          decide
        · rw [if_neg hb] at h2
          exact absurd h2 (by simp)
      · obtain ⟨y, hy, rfl⟩ := List.mem_map.mp h2
        exact reindent_noNL _ _ hi (serializeTrackContent_all t (h t (by simp)) y hy).1
    · exact ih (fun u hu => h u (List.mem_cons_of_mem _ hu)) false x h1

theorem formatTracksGo_ne_nil (indent : String) (sp first : Bool) (t : Track) (ts : List Track) :
    formatTracksGo indent sp first (t :: ts) ≠ [] := by
  unfold formatTracksGo
  intro hc
  rcases List.append_eq_nil.mp hc with ⟨h1, -⟩
  rcases List.append_eq_nil.mp h1 with ⟨-, h2⟩
  unfold serializeTrackContent at h2
  simp at h2

theorem formatTracksGo_getLast (indent : String) (sp : Bool)
    (hie : indent ≠ "") :
    ∀ (ts : List Track) (t : Track) (first : Bool), (∀ u ∈ t :: ts, noNLTrack u) →
      ∀ z, (formatTracksGo indent sp first (t :: ts)).getLast? = some z → z ≠ "" := by
  intro ts
  induction ts with
  | nil =>
    intro t first h z hz
    unfold formatTracksGo at hz
    rw [show formatTracksGo indent sp false ([] : List Track) = [] from rfl,
      List.append_nil] at hz
    rw [List.getLast?_append_of_ne_nil _ (by
      intro hc
      rw [List.map_eq_nil_iff] at hc
      unfold serializeTrackContent at hc
      simp at hc)] at hz
    have hm := List.mem_of_mem_getLast? hz
    obtain ⟨y, hy, rfl⟩ := List.mem_map.mp hm
    exact reindent_ne _ _ hie (serializeTrackContent_all t (h t (by simp)) y hy).2
  | cons t2 ts2 ih =>
    intro t first h z hz
    unfold formatTracksGo at hz
    rw [List.getLast?_append_of_ne_nil _ (formatTracksGo_ne_nil indent sp false t2 ts2)] at hz
    exact ih t2 false (fun u hu => h u (List.mem_cons_of_mem _ hu)) z hz

theorem noNL_effIndent (indentOpt : Option String) (h : ∀ i, indentOpt = some i → noNL i) :
    noNL (effIndent indentOpt) := by
  cases indentOpt with
  | none => decide
  | some i =>
    simp only [effIndent]
    by_cases he : i = ""
    · rw [if_pos he]; decide
    · rw [if_neg he]; exact h i rfl

theorem effIndent_ne (indentOpt : Option String) : effIndent indentOpt ≠ "" := by
  cases indentOpt with
  | none => decide
  | some i =>
    simp only [effIndent]
    by_cases he : i = ""
    · rw [if_pos he]; decide
    · rw [if_neg he]; exact he

/-- C10 counterexample.  For a document with a global title and no
tracks, `formatCueSheet` (default options) pushes a blank separator line
after the global block and then joins, yielding TWO trailing newline
characters, not exactly one. -/
theorem claim_C10_counterexample :
    formatCueSheet ⟨{ emptyGlobal with title := some "A" }, []⟩ none none = "TITLE \"A\"\n\n" ∧
      ¬ endsOneNL (formatCueSheet ⟨{ emptyGlobal with title := some "A" }, []⟩ none none) := by
  constructor
  · rfl
  · decide

/-- C10 as amended.  For every document whose embedded strings are
newline-free (true of all parsed documents), `serializeCueSheet` and
`createMinimalCueSheet` return a string ending in exactly one trailing
newline (a single `"\n"` for the empty document).  `formatCueSheet` does
too — provided the indent unit is newline-free — except in the case of a
nonempty global block, track spacing enabled (the default) and zero
tracks, where the blank separator line after the global block produces
two trailing newlines (the counterexample). -/
theorem claim_C10_amended :
    (∀ d, noNLDoc d → endsOneNL (serializeCueSheet d)) ∧
      (∀ d, noNLDoc d → endsOneNL (createMinimalCueSheet d)) ∧
      (∀ d indentOpt trackSpacingOpt, noNLDoc d →
        (∀ i, indentOpt = some i → noNL i) →
        (d.tracks ≠ [] ∨ serializeGlobal d.global = [] ∨ trackSpacingOpt = some false) →
        endsOneNL (formatCueSheet d indentOpt trackSpacingOpt)) ∧
      serializeCueSheet ⟨emptyGlobal, []⟩ = "\n" ∧
      createMinimalCueSheet ⟨emptyGlobal, []⟩ = "\n" := by
  refine ⟨?_, ?_, ?_, rfl, rfl⟩
  · intro d hd
    exact endsOneNL_join _ (fun x hx => (serializeLines_all d hd x hx).1)
      (fun z hz => (serializeLines_all d hd z (List.mem_of_mem_getLast? hz)).2)
  · intro d hd
    exact endsOneNL_join _ (fun x hx => (minimalLines_all d hd x hx).1)
      (fun z hz => (minimalLines_all d hd z (List.mem_of_mem_getLast? hz)).2)
  · intro d indentOpt trackSpacingOpt hd hio hcond
    apply endsOneNL_join
    · intro x hx
      unfold formatLines at hx
      rcases List.mem_append.mp hx with h1 | h1
      · by_cases hb : (serializeGlobal d.global).length > 0 && effSpacing trackSpacingOpt
        · rw [if_pos hb] at h1
          rcases List.mem_append.mp h1 with h2 | h2
          · exact (serializeGlobal_all d.global hd.1 x h2).1
          · rw [List.mem_singleton] at h2
            subst h2
            decide
        · rw [if_neg hb] at h1
          exact (serializeGlobal_all d.global hd.1 x h1).1
      · exact formatTracksGo_all _ _ _ (noNL_effIndent _ hio) hd.2 true x h1
    · intro z hz
      unfold formatLines at hz
      rcases htr : d.tracks with - | ⟨t, ts⟩
      · rw [htr] at hz
        have hgo : formatTracksGo (effIndent indentOpt) (effSpacing trackSpacingOpt) true [] = [] :=
          rfl
        rw [hgo, List.append_nil] at hz
        rcases hcond with hc | hc | hc
        · exact absurd htr hc
        · rw [hc] at hz
          simp at hz
        · rw [hc] at hz
          have : effSpacing (some false) = false := rfl
          rw [this] at hz
          simp only [Bool.and_false] at hz
          rw [if_neg (by simp)] at hz
          exact (serializeGlobal_all d.global hd.1 z (List.mem_of_mem_getLast? hz)).2
      · rw [htr] at hz
        rw [List.getLast?_append_of_ne_nil _
          (formatTracksGo_ne_nil (effIndent indentOpt) (effSpacing trackSpacingOpt) true t ts)]
          at hz
        refine formatTracksGo_getLast _ _ (effIndent_ne indentOpt) ts t true ?_ z hz
        intro u hu
        apply hd.2
        rw [htr]
        exact hu

theorem noNLGlobal_empty : noNLGlobal emptyGlobal := by
  refine ⟨?_, ?_, ?_, ?_, ?_, ?_, ?_, ?_, ?_, ?_, ?_, ?_, ?_⟩ <;> exact fun v h => nomatch h

theorem noNLTrack_blank (n : Nat) (m : TrackMode) (ln : Nat) :
    noNLTrack (blankTrack n m ln) := by
  refine ⟨?_, ?_, ?_, ?_, ?_, ?_, ?_, ?_, ?_⟩ <;> exact fun v h => nomatch h

theorem noNLDoc_nil : noNLDoc ⟨emptyGlobal, []⟩ :=
  ⟨noNLGlobal_empty, fun t ht => absurd ht (by simp)⟩

/-! ## Claim C6: track-only commands outside a track -/

/-- C6.  When no track is open, a line whose command word upper-cases to
INDEX, PREGAP, POSTGAP, FLAGS or ISRC makes the handler throw before any
mutation; the `parse` loop catches the throw and records it as an error
diagnostic (never a warning) carrying the line number and the raw line,
and the state — global record, track list, open track, warnings — is
otherwise unchanged. -/
theorem claim_C6_track_only_commands (s : PState) (line : String) (n : Nat)
    (hcur : s.currentTrack = none)
    (hcmd : jsUpper (CueParser.parseCommand (jsTrim line)).1 ∈
      (["INDEX", "PREGAP", "POSTGAP", "FLAGS", "ISRC"] : List String)) :
    CueParser.step s line n =
      { s with errors := s.errors ++
          [⟨n, noTrackMsg (jsUpper (CueParser.parseCommand (jsTrim line)).1), line⟩] } := by
  by_cases h0 : jsTrim line = ""
  · exfalso
    rw [h0] at hcmd
    exact absurd hcmd (by decide)
  · have hcne : (CueParser.parseCommand (jsTrim line)).1 ≠ "" := by
      intro he
      rw [he] at hcmd
      exact absurd hcmd (by decide)
    unfold CueParser.step CueParser.parseLineRaw
    rw [if_neg h0]
    unfold CueParser.dispatch
    rw [if_neg hcne]
    simp only [List.mem_cons, List.not_mem_nil, or_false] at hcmd
    rcases hcmd with hu | hu | hu | hu | hu
    · rw [hu]
      rw [if_neg (by decide), if_neg (by decide), if_neg (by decide), if_neg (by decide),
        if_neg (by decide), if_pos rfl]
      have hh : CueParser.handleIndex s (CueParser.parseCommand (jsTrim line)).2 =
          (s, some "INDEX command must be inside a TRACK") := by
        unfold CueParser.handleIndex
        rw [hcur]
      rw [hh]
      rfl
    · rw [hu]
      rw [if_neg (by decide), if_neg (by decide), if_neg (by decide), if_neg (by decide),
        if_neg (by decide), if_neg (by decide), if_pos rfl]
      have hh : CueParser.handlePregap s (CueParser.parseCommand (jsTrim line)).2 =
          (s, some "PREGAP command must be inside a TRACK") := by
        unfold CueParser.handlePregap
        rw [hcur]
      rw [hh]
      rfl
    · rw [hu]
      rw [if_neg (by decide), if_neg (by decide), if_neg (by decide), if_neg (by decide),
        if_neg (by decide), if_neg (by decide), if_neg (by decide), if_pos rfl]
      have hh : CueParser.handlePostgap s (CueParser.parseCommand (jsTrim line)).2 =
          (s, some "POSTGAP command must be inside a TRACK") := by
        unfold CueParser.handlePostgap
        rw [hcur]
      rw [hh]
      rfl
    · rw [hu]
      rw [if_neg (by decide), if_neg (by decide), if_neg (by decide), if_neg (by decide),
        if_neg (by decide), if_neg (by decide), if_neg (by decide), if_neg (by decide),
        if_pos rfl]
      have hh : CueParser.handleFlags s (CueParser.parseCommand (jsTrim line)).2 =
          (s, some "FLAGS command must be inside a TRACK") := by
        unfold CueParser.handleFlags
        rw [hcur]
      rw [hh]
      rfl
    · rw [hu]
      rw [if_neg (by decide), if_neg (by decide), if_neg (by decide), if_neg (by decide),
        if_neg (by decide), if_neg (by decide), if_neg (by decide), if_neg (by decide),
        if_neg (by decide), if_pos rfl]
      have hh : CueParser.handleIsrc s (CueParser.parseCommand (jsTrim line)).2 n =
          (s, some "ISRC command must be inside a TRACK") := by
        unfold CueParser.handleIsrc
        rw [hcur]
      rw [hh]
      rfl

/-- Witness for C6: a bare `INDEX` line fed to a fresh parser state. -/
theorem claim_C6_witness :
    CueParser.step initState "INDEX 01 00:00:00" 1 =
      { initState with errors :=
          [⟨1, "INDEX command must be inside a TRACK", "INDEX 01 00:00:00"⟩] } :=
  claim_C6_track_only_commands initState "INDEX 01 00:00:00" 1 rfl (by decide)

/-! ## Claim C3: track commitment and no duplicated track objects -/

theorem commitCurrent_tracks (s : PState) :
    (CueParser.commitCurrent s).tracks = s.tracks ++ s.currentTrack.toList := by
  obtain ⟨cur, g, tr, e, w⟩ := s
  cases cur <;> simp [CueParser.commitCurrent, Option.toList]

theorem commitCurrent_errors (s : PState) :
    (CueParser.commitCurrent s).errors = s.errors := by
  obtain ⟨cur, g, tr, e, w⟩ := s
  cases cur <;> rfl

theorem tagsOf_setCur (s : PState) (t t2 : Track) (hc : s.currentTrack = some t)
    (ht : t2.srcLine = t.srcLine) :
    tagsOf { s with currentTrack := some t2 } = tagsOf s := by
  unfold tagsOf
  rw [hc]
  simp [Option.toList, ht]

theorem handleRemark_pres (s : PState) (args : String) :
    (CueParser.handleRemark s args).errors = s.errors ∧
      tagsOf (CueParser.handleRemark s args) = tagsOf s := by
  unfold CueParser.handleRemark
  split
  case _ t heq => exact ⟨rfl, tagsOf_setCur s t _ heq rfl⟩
  case _ heq => exact ⟨rfl, rfl⟩

theorem handleTitle_pres (s : PState) (args : String) :
    (CueParser.handleTitle s args).errors = s.errors ∧
      tagsOf (CueParser.handleTitle s args) = tagsOf s := by
  unfold CueParser.handleTitle
  split
  case _ t heq => exact ⟨rfl, tagsOf_setCur s t _ heq rfl⟩
  case _ heq => exact ⟨rfl, rfl⟩

theorem handlePerformer_pres (s : PState) (args : String) :
    (CueParser.handlePerformer s args).errors = s.errors ∧
      tagsOf (CueParser.handlePerformer s args) = tagsOf s := by
  unfold CueParser.handlePerformer
  split
  case _ t heq => exact ⟨rfl, tagsOf_setCur s t _ heq rfl⟩
  case _ heq => exact ⟨rfl, rfl⟩

theorem handleSongwriter_pres (s : PState) (args : String) :
    (CueParser.handleSongwriter s args).errors = s.errors ∧
      tagsOf (CueParser.handleSongwriter s args) = tagsOf s := by
  unfold CueParser.handleSongwriter
  split
  case _ t heq => exact ⟨rfl, tagsOf_setCur s t _ heq rfl⟩
  case _ heq => exact ⟨rfl, rfl⟩

theorem handleComposer_pres (s : PState) (args : String) :
    (CueParser.handleComposer s args).errors = s.errors ∧
      tagsOf (CueParser.handleComposer s args) = tagsOf s := by
  unfold CueParser.handleComposer
  split
  case _ t heq => exact ⟨rfl, tagsOf_setCur s t _ heq rfl⟩
  case _ heq => exact ⟨rfl, rfl⟩

theorem handleArranger_pres (s : PState) (args : String) :
    (CueParser.handleArranger s args).errors = s.errors ∧
      tagsOf (CueParser.handleArranger s args) = tagsOf s := by
  unfold CueParser.handleArranger
  split
  case _ t heq => exact ⟨rfl, tagsOf_setCur s t _ heq rfl⟩
  case _ heq => exact ⟨rfl, rfl⟩

theorem handleMessage_pres (s : PState) (args : String) :
    (CueParser.handleMessage s args).errors = s.errors ∧
      tagsOf (CueParser.handleMessage s args) = tagsOf s := by
  unfold CueParser.handleMessage
  split
  case _ t heq => exact ⟨rfl, tagsOf_setCur s t _ heq rfl⟩
  case _ heq => exact ⟨rfl, rfl⟩

theorem handleCatalog_none (s : PState) (args : String) (s1 : PState)
    (h : CueParser.handleCatalog s args = (s1, none)) :
    s1.errors = s.errors ∧ tagsOf s1 = tagsOf s := by
  unfold CueParser.handleCatalog at h
  split at h
  · injection h with h1 h2
    subst h1
    exact ⟨rfl, rfl⟩
  · injection h with h1 h2
    exact nomatch h2

theorem handleFile_none (s : PState) (args : String) (n : Nat) (s1 : PState)
    (h : CueParser.handleFile s args n = (s1, none)) :
    s1.errors = s.errors ∧ tagsOf s1 = tagsOf s := by
  unfold CueParser.handleFile at h
  split at h
  · injection h with h1 h2
    exact nomatch h2
  · split at h
    case _ t heq =>
      injection h with h1 h2
      subst h1
      exact ⟨rfl, tagsOf_setCur s t _ heq rfl⟩
    case _ heq =>
      injection h with h1 h2
      subst h1
      exact ⟨rfl, rfl⟩

theorem handleTrack_none (s : PState) (args : String) (n : Nat) (s1 : PState)
    (h : CueParser.handleTrack s args n = (s1, none)) :
    s1.errors = s.errors ∧ tagsOf s1 = tagsOf s ++ [n] := by
  unfold CueParser.handleTrack at h
  split at h
  · split at h
    · injection h with h1 h2
      exact nomatch h2
    · split at h
      · injection h with h1 h2
        exact nomatch h2
      · split at h
        · injection h with h1 h2
          exact nomatch h2
        · injection h with h1 h2
          subst h1
          constructor
          · exact commitCurrent_errors s
          · unfold tagsOf
            rw [show ({ CueParser.commitCurrent s with
                currentTrack := some (blankTrack _ _ n) } : PState).tracks =
              (CueParser.commitCurrent s).tracks from rfl]
            rw [commitCurrent_tracks s]
            simp [Option.toList, blankTrack]
  · injection h with h1 h2
    exact nomatch h2

theorem handleIndex_none (s : PState) (args : String) (s1 : PState)
    (h : CueParser.handleIndex s args = (s1, none)) :
    s1.errors = s.errors ∧ tagsOf s1 = tagsOf s := by
  unfold CueParser.handleIndex at h
  split at h
  · injection h with h1 h2
    exact nomatch h2
  case _ t heq =>
    split at h
    · split at h
      · injection h with h1 h2
        exact nomatch h2
      · split at h
        · injection h with h1 h2
          exact nomatch h2
        · split at h
          · injection h with h1 h2
            exact nomatch h2
          · injection h with h1 h2
            subst h1
            exact ⟨rfl, tagsOf_setCur s t _ heq rfl⟩
    · injection h with h1 h2
      exact nomatch h2

theorem handlePregap_none (s : PState) (args : String) (s1 : PState)
    (h : CueParser.handlePregap s args = (s1, none)) :
    s1.errors = s.errors ∧ tagsOf s1 = tagsOf s := by
  unfold CueParser.handlePregap at h
  split at h
  · injection h with h1 h2
    exact nomatch h2
  case _ t heq =>
    split at h
    · injection h with h1 h2
      exact nomatch h2
    · injection h with h1 h2
      subst h1
      exact ⟨rfl, tagsOf_setCur s t _ heq rfl⟩

theorem handlePostgap_none (s : PState) (args : String) (s1 : PState)
    (h : CueParser.handlePostgap s args = (s1, none)) :
    s1.errors = s.errors ∧ tagsOf s1 = tagsOf s := by
  unfold CueParser.handlePostgap at h
  split at h
  · injection h with h1 h2
    exact nomatch h2
  case _ t heq =>
    split at h
    · injection h with h1 h2
      exact nomatch h2
    · injection h with h1 h2
      subst h1
      exact ⟨rfl, tagsOf_setCur s t _ heq rfl⟩

theorem handleFlags_none (s : PState) (args : String) (s1 : PState)
    (h : CueParser.handleFlags s args = (s1, none)) :
    s1.errors = s.errors ∧ tagsOf s1 = tagsOf s := by
  unfold CueParser.handleFlags at h
  split at h
  · injection h with h1 h2
    exact nomatch h2
  case _ t heq =>
    split at h
    · injection h with h1 h2
      exact nomatch h2
    · injection h with h1 h2
      subst h1
      exact ⟨rfl, tagsOf_setCur s t _ heq rfl⟩

theorem handleIsrc_none (s : PState) (args : String) (n : Nat) (s1 : PState)
    (h : CueParser.handleIsrc s args n = (s1, none)) :
    s1.errors = s.errors ∧ tagsOf s1 = tagsOf s := by
  unfold CueParser.handleIsrc at h
  split at h
  · injection h with h1 h2
    exact nomatch h2
  case _ t heq =>
    split at h
    · injection h with h1 h2
      subst h1
      exact ⟨rfl, tagsOf_setCur s t _ heq rfl⟩
    · injection h with h1 h2
      subst h1
      exact ⟨rfl, tagsOf_setCur s t _ heq rfl⟩

theorem dispatch_none (s : PState) (c a l : String) (n : Nat) (s1 : PState)
    (h : CueParser.dispatch s c a l n = (s1, none)) :
    s1.errors = s.errors ∧ (tagsOf s1 = tagsOf s ∨ tagsOf s1 = tagsOf s ++ [n]) := by
  unfold CueParser.dispatch at h
  by_cases hc0 : c = ""
  · rw [if_pos hc0] at h
    injection h with ha hb
    subst ha
    exact ⟨rfl, Or.inl rfl⟩
  rw [if_neg hc0] at h
  by_cases hc1 : jsUpper c = "REM"
  · rw [if_pos hc1] at h
    injection h with ha hb
    subst ha
    obtain ⟨he, ht⟩ := handleRemark_pres s a
    exact ⟨he, Or.inl ht⟩
  rw [if_neg hc1] at h
  by_cases hc2 : jsUpper c = "CATALOG"
  · rw [if_pos hc2] at h
    obtain ⟨he, ht⟩ := handleCatalog_none s a s1 h
    exact ⟨he, Or.inl ht⟩
  rw [if_neg hc2] at h
  by_cases hc3 : jsUpper c = "CDTEXTFILE"
  · rw [if_pos hc3] at h
    injection h with ha hb
    subst ha
    exact ⟨rfl, Or.inl rfl⟩
  rw [if_neg hc3] at h
  by_cases hc4 : jsUpper c = "FILE"
  · rw [if_pos hc4] at h
    obtain ⟨he, ht⟩ := handleFile_none s a n s1 h
    exact ⟨he, Or.inl ht⟩
  rw [if_neg hc4] at h
  by_cases hc5 : jsUpper c = "TRACK"
  · rw [if_pos hc5] at h
    obtain ⟨he, ht⟩ := handleTrack_none s a n s1 h
    exact ⟨he, Or.inr ht⟩
  rw [if_neg hc5] at h
  by_cases hc6 : jsUpper c = "INDEX"
  · rw [if_pos hc6] at h
    obtain ⟨he, ht⟩ := handleIndex_none s a s1 h
    exact ⟨he, Or.inl ht⟩
  rw [if_neg hc6] at h
  by_cases hc7 : jsUpper c = "PREGAP"
  · rw [if_pos hc7] at h
    obtain ⟨he, ht⟩ := handlePregap_none s a s1 h
    exact ⟨he, Or.inl ht⟩
  rw [if_neg hc7] at h
  by_cases hc8 : jsUpper c = "POSTGAP"
  · rw [if_pos hc8] at h
    obtain ⟨he, ht⟩ := handlePostgap_none s a s1 h
    exact ⟨he, Or.inl ht⟩
  rw [if_neg hc8] at h
  by_cases hc9 : jsUpper c = "FLAGS"
  · rw [if_pos hc9] at h
    obtain ⟨he, ht⟩ := handleFlags_none s a s1 h
    exact ⟨he, Or.inl ht⟩
  rw [if_neg hc9] at h
  by_cases hc10 : jsUpper c = "ISRC"
  · rw [if_pos hc10] at h
    obtain ⟨he, ht⟩ := handleIsrc_none s a n s1 h
    exact ⟨he, Or.inl ht⟩
  rw [if_neg hc10] at h
  by_cases hc11 : jsUpper c = "TITLE"
  · rw [if_pos hc11] at h
    injection h with ha hb
    subst ha
    obtain ⟨he, ht⟩ := handleTitle_pres s a
    exact ⟨he, Or.inl ht⟩
  rw [if_neg hc11] at h
  by_cases hc12 : jsUpper c = "PERFORMER"
  · rw [if_pos hc12] at h
    injection h with ha hb
    subst ha
    obtain ⟨he, ht⟩ := handlePerformer_pres s a
    exact ⟨he, Or.inl ht⟩
  rw [if_neg hc12] at h
  by_cases hc13 : jsUpper c = "SONGWRITER"
  · rw [if_pos hc13] at h
    injection h with ha hb
    subst ha
    obtain ⟨he, ht⟩ := handleSongwriter_pres s a
    exact ⟨he, Or.inl ht⟩
  rw [if_neg hc13] at h
  by_cases hc14 : jsUpper c = "COMPOSER"
  · rw [if_pos hc14] at h
    injection h with ha hb
    subst ha
    obtain ⟨he, ht⟩ := handleComposer_pres s a
    exact ⟨he, Or.inl ht⟩
  rw [if_neg hc14] at h
  by_cases hc15 : jsUpper c = "ARRANGER"
  · rw [if_pos hc15] at h
    injection h with ha hb
    subst ha
    obtain ⟨he, ht⟩ := handleArranger_pres s a
    exact ⟨he, Or.inl ht⟩
  rw [if_neg hc15] at h
  by_cases hc16 : jsUpper c = "MESSAGE"
  · rw [if_pos hc16] at h
    injection h with ha hb
    subst ha
    obtain ⟨he, ht⟩ := handleMessage_pres s a
    exact ⟨he, Or.inl ht⟩
  rw [if_neg hc16] at h
  by_cases hc17 : jsUpper c = "DISC_ID"
  · rw [if_pos hc17] at h
    injection h with ha hb
    subst ha
    exact ⟨rfl, Or.inl rfl⟩
  rw [if_neg hc17] at h
  by_cases hc18 : jsUpper c = "GENRE"
  · rw [if_pos hc18] at h
    injection h with ha hb
    subst ha
    exact ⟨rfl, Or.inl rfl⟩
  rw [if_neg hc18] at h
  by_cases hc19 : jsUpper c = "UPC_EAN"
  · rw [if_pos hc19] at h
    injection h with ha hb
    subst ha
    exact ⟨rfl, Or.inl rfl⟩
  rw [if_neg hc19] at h
  injection h with ha hb
  subst ha
  exact ⟨rfl, Or.inl rfl⟩

theorem parseLineRaw_none (s : PState) (line : String) (n : Nat) (s1 : PState)
    (h : CueParser.parseLineRaw s line n = (s1, none)) :
    s1.errors = s.errors ∧ (tagsOf s1 = tagsOf s ∨ tagsOf s1 = tagsOf s ++ [n]) := by
  unfold CueParser.parseLineRaw at h
  split at h
  · injection h with ha hb
    subst ha
    exact ⟨rfl, Or.inl rfl⟩
  · exact dispatch_none s _ _ line n s1 h

/-- Invariant for C3: in an error-free state the ghost creation lines of
all held track objects are strictly increasing and below the next line
number. -/
def TagInv (s : PState) (n : Nat) : Prop :=
  s.errors = [] → (tagsOf s).Chain' (· < ·) ∧ ∀ x ∈ tagsOf s, x < n

theorem step_tagInv (s : PState) (line : String) (n : Nat) (h : TagInv s n) :
    TagInv (CueParser.step s line n) (n + 1) := by
  intro he
  rcases hr : CueParser.parseLineRaw s line n with ⟨s1, msg⟩
  cases msg with
  | some m =>
    have hstep : CueParser.step s line n =
        { s1 with errors := s1.errors ++ [⟨n, m, line⟩] } := by
      unfold CueParser.step
      rw [hr]
    rw [hstep] at he
    simp at he
  | none =>
    have hstep : CueParser.step s line n = s1 := by
      unfold CueParser.step
      rw [hr]
    rw [hstep] at he ⊢
    obtain ⟨he1, ht⟩ := parseLineRaw_none s line n s1 hr
    have hs : s.errors = [] := by rw [← he1]; exact he
    obtain ⟨hchain, hbound⟩ := h hs
    rcases ht with ht | ht
    · rw [ht]
      exact ⟨hchain, fun x hx => Nat.lt_succ_of_lt (hbound x hx)⟩
    · rw [ht]
      constructor
      · rw [List.chain'_append]
        refine ⟨hchain, List.chain'_singleton n, ?_⟩
        intro x hx y hy
        rw [List.head?_cons, Option.mem_def, Option.some.injEq] at hy
        subst hy
        exact hbound x (List.mem_of_mem_getLast? hx)
      · intro x hx
        rcases List.mem_append.mp hx with h1 | h1
        · exact Nat.lt_succ_of_lt (hbound x h1)
        · rw [List.mem_singleton] at h1
          subst h1
          exact Nat.lt_succ_self _

theorem runFrom_tagInv (ls : List String) :
    ∀ (s : PState) (n : Nat), TagInv s n → TagInv (CueParser.runFrom s n ls) (n + ls.length) := by
  induction ls with
  | nil => intro s n h; exact h
  | cons l ls ih =>
    intro s n h
    have := ih (CueParser.step s l n) (n + 1) (step_tagInv s l n h)
    unfold CueParser.runFrom
    have harith : n + 1 + ls.length = n + (l :: ls).length := by simp; omega
    rw [← harith]
    exact this

/-- C3.  (a) A TRACK command commits the currently open track (if any)
by appending it to the track list before opening the new one — in every
outcome of `handleTrack`, including validation failures.  (b) At end of
input the still-open track is appended exactly once.  (c) Consequently,
in a successful parse the ghost creation lines of the document's tracks
are strictly increasing: every track object in the list stems from a
distinct TRACK command, so no track object appears twice. -/
theorem claim_C3_track_commit :
    (∀ (s : PState) (args : String) (n : Nat),
        (CueParser.handleTrack s args n).1.tracks = s.tracks ++ s.currentTrack.toList) ∧
      (∀ s : PState, (CueParser.finalize s).tracks = s.tracks ++ s.currentTrack.toList) ∧
      (∀ (content : String) (d : CueSheet),
        (CueParser.parse content).cueSheet = some d →
          (d.tracks.map Track.srcLine).Pairwise (· < ·)) := by
  refine ⟨?_, ?_, ?_⟩
  · intro s args n
    unfold CueParser.handleTrack
    split
    · split
      · exact commitCurrent_tracks s
      · split
        · exact commitCurrent_tracks s
        · split
          · exact commitCurrent_tracks s
          · exact commitCurrent_tracks s
    · exact commitCurrent_tracks s
  · intro s
    exact commitCurrent_tracks s
  · intro content d hd
    unfold CueParser.parse CueParser.mkResult at hd
    split at hd
    case _ hlen =>
      injection hd with hd
      subst hd
      have hinv := runFrom_tagInv (CueParser.linesOf content) initState 1 (fun _ => by
        exact ⟨List.chain'_nil, fun x hx => absurd hx (by simp [tagsOf, initState])⟩)
      have herr : (CueParser.runFrom initState 1 (CueParser.linesOf content)).errors = [] := by
        have : (CueParser.finalize
            (CueParser.runFrom initState 1 (CueParser.linesOf content))).errors =
            (CueParser.runFrom initState 1 (CueParser.linesOf content)).errors :=
          commitCurrent_errors _
        rw [← this]
        exact List.length_eq_zero.mp hlen
      obtain ⟨hchain, -⟩ := hinv herr
      have htr : (CueParser.finalize
          (CueParser.runFrom initState 1 (CueParser.linesOf content))).tracks.map Track.srcLine
          = tagsOf (CueParser.runFrom initState 1 (CueParser.linesOf content)) := by
        unfold tagsOf CueParser.finalize
        rw [commitCurrent_tracks]
      rw [show (⟨(CueParser.finalize
            (CueParser.runFrom initState 1 (CueParser.linesOf content))).global,
          (CueParser.finalize
            (CueParser.runFrom initState 1 (CueParser.linesOf content))).tracks⟩ :
            CueSheet).tracks =
          (CueParser.finalize
            (CueParser.runFrom initState 1 (CueParser.linesOf content))).tracks from rfl]
      rw [htr]
      exact List.chain'_iff_pairwise.mp hchain
    · exact nomatch hd

/-- Witness for C3: the duplication-freedom part applied to a concrete
two-track input. -/
theorem claim_C3_witness :
    (((⟨emptyGlobal, [blankTrack 1 .audio 1, blankTrack 2 .audio 2]⟩ : CueSheet)).tracks.map
      Track.srcLine).Pairwise (· < ·) :=
  claim_C3_track_commit.2.2 "TRACK 01 AUDIO\nTRACK 02 AUDIO"
    ⟨emptyGlobal, [blankTrack 1 .audio 1, blankTrack 2 .audio 2]⟩ rfl


/-! ## Claim C1: string lemmas for the reparse of serialized output -/

theorem head_of_dropWhile {p : Char → Bool} : ∀ (l : List Char) (c : Char),
    (l.dropWhile p).head? = some c → p c = false := by
  intro l
  induction l with
  | nil => intro c h; exact absurd h (by simp)
  | cons x xs ih =>
    intro c h
    by_cases hx : p x = true
    · rw [List.dropWhile_cons_of_pos hx] at h
      exact ih c h
    · rw [List.dropWhile_cons_of_neg hx] at h
      rw [List.head?_cons, Option.some.injEq] at h
      subst h
      exact Bool.eq_false_iff.mpr hx

theorem trimL_wsPre (w l : List Char) (hw : ∀ c ∈ w, jsWs c = true) :
    trimL (w ++ l) = trimL l := by
  unfold trimL
  rw [List.dropWhile_append, if_pos]
  rw [List.isEmpty_iff]
  exact List.dropWhile_eq_nil_iff.mpr hw

theorem trimL_eq_self (l : List Char)
    (hh : ∀ c, l.head? = some c → jsWs c = false)
    (hl : ∀ c, l.getLast? = some c → jsWs c = false) : trimL l = l := by
  unfold trimL
  cases l with
  | nil => rfl
  | cons c rest =>
    rw [List.dropWhile_cons_of_neg (by simp [hh c rfl])]
    rcases hrev : (c :: rest).reverse with - | ⟨d, rs⟩
    · exact absurd hrev (by simp)
    · have hd : (c :: rest).getLast? = some d := by
        rw [← List.head?_reverse, hrev]
        rfl
      rw [List.dropWhile_cons_of_neg (by simp [hl d hd]), ← hrev, List.reverse_reverse]

theorem trimL_ends_nonws (l : List Char) :
    (∀ c, (trimL l).head? = some c → jsWs c = false) ∧
      (∀ c, (trimL l).getLast? = some c → jsWs c = false) := by
  constructor
  · intro c hc
    unfold trimL at hc
    rw [List.head?_reverse] at hc
    obtain ⟨t, ht⟩ := List.dropWhile_suffix (l := (l.dropWhile jsWs).reverse) jsWs
    by_cases hX : ((l.dropWhile jsWs).reverse.dropWhile jsWs) = []
    · rw [hX] at hc
      exact absurd hc (by simp)
    · rw [← List.getLast?_append_of_ne_nil t hX, ht, List.getLast?_reverse] at hc
      exact head_of_dropWhile l c hc
  · intro c hc
    unfold trimL at hc
    rw [List.getLast?_reverse] at hc
    exact head_of_dropWhile _ c hc

theorem trimL_idem (l : List Char) : trimL (trimL l) = trimL l :=
  trimL_eq_self _ (trimL_ends_nonws l).1 (trimL_ends_nonws l).2

theorem splitCh_cons (sep x : Char) (xs : List Char) :
    splitCh sep (x :: xs) =
      match splitCh sep xs with
      | [] => [[]]
      | r :: rs => if x = sep then [] :: r :: rs else (x :: r) :: rs := rfl

theorem splitCh_ne_nil (sep : Char) : ∀ l : List Char, splitCh sep l ≠ [] := by
  intro l
  induction l with
  | nil => exact by simp [splitCh]
  | cons x xs ih =>
    rw [splitCh_cons]
    rcases h : splitCh sep xs with - | ⟨r, rs⟩
    · exact absurd h ih
    · show (if x = sep then [] :: r :: rs else (x :: r) :: rs) ≠ []
      by_cases hx : x = sep
      · rw [if_pos hx]
        exact by simp
      · rw [if_neg hx]
        exact by simp

theorem splitCh_nosep (sep : Char) (l : List Char) (h : ∀ c ∈ l, c ≠ sep) :
    splitCh sep l = [l] := by
  induction l with
  | nil => rfl
  | cons x xs ih =>
    rw [splitCh_cons, ih (fun c hc => h c (List.mem_cons_of_mem _ hc))]
    show (if x = sep then [] :: xs :: [] else (x :: xs) :: []) = [x :: xs]
    rw [if_neg (h x (List.mem_cons_self x xs))]

theorem splitCh_sep (sep : Char) (a rest : List Char) (h : ∀ c ∈ a, c ≠ sep) :
    splitCh sep (a ++ sep :: rest) = a :: splitCh sep rest := by
  induction a with
  | nil =>
    rw [List.nil_append, splitCh_cons]
    rcases hr : splitCh sep rest with - | ⟨r, rs⟩
    · exact absurd hr (splitCh_ne_nil sep rest)
    · show (if sep = sep then [] :: r :: rs else (sep :: r) :: rs) = [] :: r :: rs
      rw [if_pos rfl]
  | cons x a2 ih =>
    rw [List.cons_append, splitCh_cons, ih (fun c hc => h c (List.mem_cons_of_mem _ hc))]
    show (if x = sep then [] :: a2 :: splitCh sep rest else (x :: a2) :: splitCh sep rest) =
      (x :: a2) :: splitCh sep rest
    rw [if_neg (h x (List.mem_cons_self x a2))]

theorem splitWs_nows (l : List Char) (h : ∀ c ∈ l, jsWs c = false) : splitWs l = [l] := by
  induction l with
  | nil => rfl
  | cons x xs ih =>
    simp only [splitWs]
    rw [ih (fun c hc => h c (List.mem_cons_of_mem _ hc))]
    rw [if_neg (by simp [h x (List.mem_cons_self x xs)])]

theorem splitWs_sep (a rest : List Char) (ha : ∀ c ∈ a, jsWs c = false)
    (hne : rest ≠ []) (hh : ∀ c, rest.head? = some c → jsWs c = false) :
    splitWs (a ++ ' ' :: rest) = a :: splitWs rest := by
  induction a with
  | nil =>
    rw [List.nil_append]
    simp only [splitWs]
    rw [if_pos (by decide)]
    rcases rest with - | ⟨y, t⟩
    · exact absurd rfl hne
    · show (if jsWs y = true then splitWs (y :: t) else [] :: splitWs (y :: t)) =
        [] :: splitWs (y :: t)
      rw [if_neg (by simp [hh y rfl])]
  | cons x a2 ih =>
    rw [List.cons_append]
    simp only [splitWs]
    rw [if_neg (by simp [ha x (List.mem_cons_self x a2)])]
    rw [ih (fun c hc => ha c (List.mem_cons_of_mem _ hc))]

theorem dVal_dChar (d : Nat) (h : d < 10) : dVal (dChar d) = d := by
  interval_cases d <;> rfl

theorem decVal_append_digit (a : List Char) (c : Char) :
    decVal (a ++ [c]) = decVal a * 10 + dVal c := by
  unfold decVal
  rw [List.foldl_append]
  rfl

theorem decVal_cons_zero (l : List Char) : decVal ('0' :: l) = decVal l := by
  unfold decVal
  rfl

theorem decVal_natToDecAux : ∀ (fuel n : Nat), n ≤ fuel → decVal (natToDecAux fuel n) = n := by
  intro fuel
  induction fuel with
  | zero =>
    intro n hn
    interval_cases n
    rfl
  | succ f ih =>
    intro n hn
    unfold natToDecAux
    by_cases h10 : n < 10
    · rw [if_pos h10]
      have : decVal [dChar n] = dVal (dChar n) := by
        unfold decVal
        simp [dVal]
      rw [this, dVal_dChar n h10]
    · rw [if_neg h10]
      rw [decVal_append_digit]
      have hdiv : n / 10 ≤ f := by
        have := Nat.div_lt_self (by omega : 0 < n) (by omega : 1 < 10)
        omega
      rw [ih (n / 10) hdiv, dVal_dChar (n % 10) (Nat.mod_lt n (by omega))]
      omega

theorem decVal_natToDec (n : Nat) : decVal (natToDec n) = n :=
  decVal_natToDecAux n n (Nat.le_refl n)

theorem jsWs_of_digit (c : Char) (h : c.isDigit = true) : jsWs c = false := by
  unfold jsWs
  simp only [Bool.or_eq_false_iff, decide_eq_false_iff_not]
  refine ⟨⟨⟨⟨⟨?_, ?_⟩, ?_⟩, ?_⟩, ?_⟩, ?_⟩ <;>
    (intro he; subst he; exact absurd h (by decide))

theorem digit_ne_colon (c : Char) (h : c.isDigit = true) : c ≠ ':' := by
  intro he
  subst he
  exact absurd h (by decide)

theorem takeWhile_all {p : Char → Bool} (l : List Char) (h : ∀ c ∈ l, p c = true) :
    l.takeWhile p = l :=
  List.takeWhile_eq_self_iff.mpr h

theorem parseIntL_digits (l : List Char) (hne : l ≠ []) (h : ∀ c ∈ l, c.isDigit = true) :
    parseIntL l = some ((decVal l : Nat) : Int) := by
  rcases l with - | ⟨c, rest⟩
  · exact absurd rfl hne
  have hdw : (c :: rest).dropWhile jsWs = c :: rest :=
    List.dropWhile_cons_of_neg (by simp [jsWs_of_digit c (h c (List.mem_cons_self c rest))])
  unfold parseIntL
  rw [hdw]
  split
  case _ r heq =>
    exfalso
    have : c = '-' := (List.cons.injEq _ _ _ _ ▸ heq).1
    subst this
    exact absurd (h '-' (List.mem_cons_self _ _)) (by decide)
  case _ r heq =>
    exfalso
    have : c = '+' := (List.cons.injEq _ _ _ _ ▸ heq).1
    subst this
    exact absurd (h '+' (List.mem_cons_self _ _)) (by decide)
  case _ =>
    rw [takeWhile_all (c :: rest) h]
    rw [if_neg (by simp)]


theorem dropWhile_head_nonws {p : Char → Bool} (l : List Char)
    (h : ∀ c, l.head? = some c → p c = false) : l.dropWhile p = l := by
  cases l with
  | nil => rfl
  | cons c cl => exact List.dropWhile_cons_of_neg (by simp [h c rfl])

theorem mem_dropWhile_of_neg {p : Char → Bool} (l : List Char) (c : Char)
    (hc : c ∈ l) (hp : p c = false) : c ∈ l.dropWhile p := by
  rw [← List.takeWhile_append_dropWhile (p := p) (l := l)] at hc
  rcases List.mem_append.mp hc with h1 | h1
  · exact absurd (List.mem_takeWhile_imp h1) (by simp [hp])
  · exact h1

theorem trimL_ne_nil (l : List Char) (c : Char) (hc : c ∈ l) (hp : jsWs c = false) :
    trimL l ≠ [] := by
  unfold trimL
  intro h
  rw [List.reverse_eq_nil_iff] at h
  have h1 : c ∈ l.dropWhile jsWs := mem_dropWhile_of_neg l c hc hp
  have h2 : c ∈ (l.dropWhile jsWs).reverse := List.mem_reverse.mpr h1
  have h3 : c ∈ (l.dropWhile jsWs).reverse.dropWhile jsWs := mem_dropWhile_of_neg _ c h2 hp
  rw [h] at h3
  exact absurd h3 (List.not_mem_nil c)

theorem dropWhileR_eq_self (l : List Char)
    (hl : ∀ c, l.getLast? = some c → jsWs c = false) :
    (l.reverse.dropWhile jsWs).reverse = l := by
  rcases hrev : l.reverse with - | ⟨d, rs⟩
  · rw [List.reverse_eq_nil_iff] at hrev
    subst hrev
    rfl
  · have hd : l.getLast? = some d := by
      rw [← List.head?_reverse, hrev]
      rfl
    rw [List.dropWhile_cons_of_neg (by simp [hl d hd]), ← hrev, List.reverse_reverse]

theorem trimL_lastNonWs (l : List Char)
    (hl : ∀ c, l.getLast? = some c → jsWs c = false) :
    trimL l = l.dropWhile jsWs := by
  unfold trimL
  rcases hR : l.dropWhile jsWs with - | ⟨d, rs⟩
  · rfl
  · apply dropWhileR_eq_self
    intro c hc
    obtain ⟨t, ht⟩ := List.dropWhile_suffix (l := l) jsWs
    rw [hR] at ht
    apply hl
    rw [← ht, List.getLast?_append_of_ne_nil t (by simp)]
    exact hc

theorem takeWhile_until {p : Char → Bool} :
    ∀ (a : List Char) (b : Char) (r : List Char),
      (∀ c ∈ a, p c = true) → p b = false → ((a ++ b :: r).takeWhile p) = a := by
  intro a
  induction a with
  | nil =>
    intro b r _ hb
    rw [List.nil_append]
    exact List.takeWhile_cons_of_neg (by simp [hb])
  | cons x a2 ih =>
    intro b r ha hb
    rw [List.cons_append,
      List.takeWhile_cons_of_pos (ha x (List.mem_cons_self x a2)),
      ih b r (fun c hc => ha c (List.mem_cons_of_mem _ hc)) hb]

theorem dropWhile_until {p : Char → Bool} :
    ∀ (a : List Char) (b : Char) (r : List Char),
      (∀ c ∈ a, p c = true) → p b = false → ((a ++ b :: r).dropWhile p) = b :: r := by
  intro a
  induction a with
  | nil =>
    intro b r _ hb
    rw [List.nil_append]
    exact List.dropWhile_cons_of_neg (by simp [hb])
  | cons x a2 ih =>
    intro b r ha hb
    rw [List.cons_append,
      List.dropWhile_cons_of_pos (ha x (List.mem_cons_self x a2)),
      ih b r (fun c hc => ha c (List.mem_cons_of_mem _ hc)) hb]

theorem cmd_nonws_ne_space (cmdL : List Char) (hcmd : ∀ c ∈ cmdL, jsWs c = false) :
    ∀ c ∈ cmdL, (c != ' ') = true := by
  intro c hc
  have := hcmd c hc
  simp only [bne_iff_ne, ne_eq]
  intro he
  subst he
  exact absurd this (by decide)

theorem parseCommand_split (cmdL restL : List Char) (hne : cmdL ≠ [])
    (hcmd : ∀ c ∈ cmdL, jsWs c = false)
    (hlast : ∀ c, restL.getLast? = some c → jsWs c = false) :
    CueParser.parseCommand (String.mk (cmdL ++ ' ' :: restL)) =
      (String.mk cmdL, String.mk (restL.dropWhile jsWs)) := by
  rcases cmdL with - | ⟨c0, cl⟩
  · exact absurd rfl hne
  rcases restL with - | ⟨r0, rt⟩
  · have htr : trimL ((c0 :: cl) ++ [' ']) = c0 :: cl := by
      unfold trimL
      rw [List.cons_append,
        List.dropWhile_cons_of_neg (by simp [hcmd c0 (List.mem_cons_self c0 cl)]),
        ← List.cons_append, List.reverse_append]
      show (([' '] ++ (c0 :: cl).reverse).dropWhile jsWs).reverse = c0 :: cl
      rw [List.singleton_append, List.dropWhile_cons_of_pos (by decide)]
      apply dropWhileR_eq_self
      intro c hc
      exact hcmd c (List.mem_of_mem_getLast? hc)
    have hspan : (trimL ((c0 :: cl) ++ [' '])).span (fun c => c != ' ') = (c0 :: cl, []) := by
      rw [htr, List.span_eq_take_drop]
      rw [takeWhile_all _ (cmd_nonws_ne_space _ hcmd),
        List.dropWhile_eq_nil_iff.mpr (cmd_nonws_ne_space _ hcmd)]
    show (match (trimL ((c0 :: cl) ++ ' ' :: ([] : List Char))).span (fun c => c != ' ') with
      | (cmd, []) => (String.mk cmd, "")
      | (cmd, _ :: rest) => (String.mk cmd, String.mk (trimL rest))) =
      (String.mk (c0 :: cl), String.mk (([] : List Char).dropWhile jsWs))
    rw [hspan]
    rfl
  · have htr : trimL ((c0 :: cl) ++ ' ' :: r0 :: rt) = (c0 :: cl) ++ ' ' :: r0 :: rt := by
      apply trimL_eq_self
      · intro c hc
        rw [List.cons_append, List.head?_cons, Option.some.injEq] at hc
        subst hc
        exact hcmd _ (List.mem_cons_self _ cl)
      · intro c hc
        rw [List.getLast?_append_of_ne_nil _ (by simp)] at hc
        apply hlast
        rw [← hc]
        rfl
    have hspan : (trimL ((c0 :: cl) ++ ' ' :: r0 :: rt)).span (fun c => c != ' ') =
        (c0 :: cl, ' ' :: r0 :: rt) := by
      rw [htr, List.span_eq_take_drop,
        takeWhile_until _ _ _ (cmd_nonws_ne_space _ hcmd) (by decide),
        dropWhile_until _ _ _ (cmd_nonws_ne_space _ hcmd) (by decide)]
    show (match (trimL ((c0 :: cl) ++ ' ' :: r0 :: rt)).span (fun c => c != ' ') with
      | (cmd, []) => (String.mk cmd, "")
      | (cmd, _ :: rest) => (String.mk cmd, String.mk (trimL rest))) =
      (String.mk (c0 :: cl), String.mk ((r0 :: rt).dropWhile jsWs))
    rw [hspan]
    show (String.mk (c0 :: cl), String.mk (trimL (r0 :: rt))) = _
    rw [trimL_lastNonWs (r0 :: rt) hlast]

theorem parseCommand_wsPre (w l : List Char) (hw : ∀ c ∈ w, jsWs c = true) :
    CueParser.parseCommand (String.mk (w ++ l)) = CueParser.parseCommand (String.mk l) := by
  show (match (trimL (w ++ l)).span (fun c => c != ' ') with
      | (cmd, []) => (String.mk cmd, "")
      | (cmd, _ :: rest) => (String.mk cmd, String.mk (trimL rest))) =
    (match (trimL l).span (fun c => c != ' ') with
      | (cmd, []) => (String.mk cmd, "")
      | (cmd, _ :: rest) => (String.mk cmd, String.mk (trimL rest)))
  rw [trimL_wsPre w l hw]

theorem parseCommand_trim (l : List Char) :
    CueParser.parseCommand (String.mk (trimL l)) = CueParser.parseCommand (String.mk l) := by
  show (match (trimL (trimL l)).span (fun c => c != ' ') with
      | (cmd, []) => (String.mk cmd, "")
      | (cmd, _ :: rest) => (String.mk cmd, String.mk (trimL rest))) =
    (match (trimL l).span (fun c => c != ' ') with
      | (cmd, []) => (String.mk cmd, "")
      | (cmd, _ :: rest) => (String.mk cmd, String.mk (trimL rest)))
  rw [trimL_idem]

theorem escL_id (l : List Char) (h : ∀ c ∈ l, c ≠ '"') : escL l = l := by
  induction l with
  | nil => rfl
  | cons x xs ih =>
    unfold escL
    rw [if_neg (h x (List.mem_cons_self x xs)), ih (fun c hc => h c (List.mem_cons_of_mem _ hc))]

theorem parseQuotedString_quoted (v : List Char) :
    CueParser.parseQuotedString (String.mk ('"' :: (v ++ ['"']))) = String.mk v := by
  have ht : (jsTrim (String.mk ('"' :: (v ++ ['"'])))).data = '"' :: (v ++ ['"']) :=
    trimL_of_ends '"' v '"' (by decide) (by decide)
  simp only [CueParser.parseQuotedString]
  rw [ht]
  rw [if_pos ⟨by simp, rfl, by rw [← List.cons_append]; exact List.getLast?_concat _⟩]
  rw [List.drop_one, List.tail_cons, List.dropLast_concat]


theorem natToDecAux_ne_nil (fuel n : Nat) : natToDecAux fuel n ≠ [] := by
  cases fuel with
  | zero => simp [natToDecAux]
  | succ f =>
    unfold natToDecAux
    by_cases h : n < 10
    · rw [if_pos h]
      simp
    · rw [if_neg h]
      simp

theorem natToDec_ne_nil (n : Nat) : natToDec n ≠ [] := natToDecAux_ne_nil n n

theorem padStart2_data_nil (s : String) (hd : s.data = []) :
    (padStart2 s).data = ['0', '0'] := by
  unfold padStart2
  rw [hd]

theorem padStart2_data_one (s : String) (c1 : Char) (hd : s.data = [c1]) :
    (padStart2 s).data = ['0', c1] := by
  unfold padStart2
  rw [hd]

theorem padStart2_data_big (s : String) (c1 c2 : Char) (r : List Char)
    (hd : s.data = c1 :: c2 :: r) : (padStart2 s).data = s.data := by
  unfold padStart2
  rw [hd]
  exact hd

theorem padStart2_ne_nil (s : String) : (padStart2 s).data ≠ [] := by
  rcases hd : s.data with - | ⟨c1, - | ⟨c2, r⟩⟩
  · rw [padStart2_data_nil s hd]
    simp
  · rw [padStart2_data_one s c1 hd]
    simp
  · rw [padStart2_data_big s c1 c2 r hd, hd]
    simp

theorem padStart2_digits (s : String) (h : ∀ c ∈ s.data, c.isDigit = true) :
    ∀ c ∈ (padStart2 s).data, c.isDigit = true := by
  intro c hc
  rcases hd : s.data with - | ⟨c1, - | ⟨c2, r⟩⟩
  · rw [padStart2_data_nil s hd] at hc
    rcases List.mem_cons.mp hc with h1 | h1
    · subst h1
      decide
    · rcases List.mem_cons.mp h1 with h2 | h2
      · subst h2
        decide
      · exact absurd h2 (List.not_mem_nil c)
  · rw [padStart2_data_one s c1 hd] at hc
    rcases List.mem_cons.mp hc with h1 | h1
    · subst h1
      decide
    · rcases List.mem_cons.mp h1 with h2 | h2
      · subst h2
        apply h
        rw [hd]
        exact List.mem_cons_self _ _
      · exact absurd h2 (List.not_mem_nil c)
  · rw [padStart2_data_big s c1 c2 r hd] at hc
    exact h c hc

theorem decVal_padStart2 (s : String) : decVal (padStart2 s).data = decVal s.data := by
  rcases hd : s.data with - | ⟨c1, - | ⟨c2, r⟩⟩
  · rw [padStart2_data_nil s hd]
    decide
  · rw [padStart2_data_one s c1 hd, decVal_cons_zero]
  · rw [padStart2_data_big s c1 c2 r hd, hd]

theorem parseIntL_pad (n : Nat) :
    parseIntL (padStart2 (natToString n)).data = some ((n : Nat) : Int) := by
  rw [parseIntL_digits (padStart2 (natToString n)).data (padStart2_ne_nil (natToString n))
    (padStart2_digits (natToString n) (fun c hc => natToDec_digits n c hc))]
  rw [decVal_padStart2]
  rw [show (natToString n).data = natToDec n from rfl, decVal_natToDec]

theorem fmtTrackTime_data (t : MSFTime) :
    (fmtTrackTime t).data =
      (padStart2 (natToString t.minutes)).data ++ ':' ::
        ((padStart2 (natToString t.seconds)).data ++ ':' ::
          (padStart2 (natToString t.frames)).data) := by
  show (padStart2 (natToString t.minutes) ++ ":" ++ padStart2 (natToString t.seconds) ++ ":" ++
      padStart2 (natToString t.frames)).data = _
  simp only [String.data_append]
  show _ ++ [':'] ++ _ ++ [':'] ++ _ = _
  simp [List.append_assoc]

theorem fmtTrackTime_digit_colon (t : MSFTime) :
    ∀ c ∈ (fmtTrackTime t).data, c.isDigit = true ∨ c = ':' := by
  intro c hc
  rw [fmtTrackTime_data] at hc
  rcases List.mem_append.mp hc with h1 | h1
  · exact Or.inl (padStart2_digits _ (natToDec_digits _) c h1)
  · rcases List.mem_cons.mp h1 with h2 | h2
    · exact Or.inr h2
    · rcases List.mem_append.mp h2 with h3 | h3
      · exact Or.inl (padStart2_digits _ (natToDec_digits _) c h3)
      · rcases List.mem_cons.mp h3 with h4 | h4
        · exact Or.inr h4
        · exact Or.inl (padStart2_digits _ (natToDec_digits _) c h4)

theorem jsTrim_fmtTrackTime (t : MSFTime) :
    (jsTrim (fmtTrackTime t)).data = (fmtTrackTime t).data := by
  show trimL (fmtTrackTime t).data = (fmtTrackTime t).data
  apply trimL_eq_self
  · intro c hc
    have hm : c ∈ (fmtTrackTime t).data := by
      rcases hl : (fmtTrackTime t).data with - | ⟨a0, ar⟩
      · rw [hl] at hc
        exact absurd hc (by simp)
      · rw [hl] at hc
        rw [List.head?_cons, Option.some.injEq] at hc
        subst hc
        exact List.mem_cons_self _ _
    rcases fmtTrackTime_digit_colon t c hm with h1 | h1
    · exact jsWs_of_digit c h1
    · subst h1
      decide
  · intro c hc
    have hm : c ∈ (fmtTrackTime t).data := List.mem_of_mem_getLast? hc
    rcases fmtTrackTime_digit_colon t c hm with h1 | h1
    · exact jsWs_of_digit c h1
    · exfalso
      rw [fmtTrackTime_data] at hc
      rw [List.getLast?_append_of_ne_nil _ (by simp)] at hc
      rw [← List.singleton_append, List.getLast?_append_of_ne_nil _ (by simp)] at hc
      rw [List.getLast?_append_of_ne_nil _ (by simp)] at hc
      rw [← List.singleton_append,
        List.getLast?_append_of_ne_nil _ (padStart2_ne_nil (natToString t.frames))] at hc
      have := List.mem_of_mem_getLast? hc
      have hdig := padStart2_digits _ (natToDec_digits t.frames) c this
      subst h1
      exact absurd hdig (by decide)

theorem splitCh_fmtTrackTime (t : MSFTime) :
    splitCh ':' (fmtTrackTime t).data =
      [(padStart2 (natToString t.minutes)).data, (padStart2 (natToString t.seconds)).data,
        (padStart2 (natToString t.frames)).data] := by
  have d1 : ∀ c ∈ (padStart2 (natToString t.minutes)).data, c ≠ ':' := fun c hc =>
    digit_ne_colon c (padStart2_digits (natToString t.minutes)
      (fun c2 hc2 => natToDec_digits t.minutes c2 hc2) c hc)
  have d2 : ∀ c ∈ (padStart2 (natToString t.seconds)).data, c ≠ ':' := fun c hc =>
    digit_ne_colon c (padStart2_digits (natToString t.seconds)
      (fun c2 hc2 => natToDec_digits t.seconds c2 hc2) c hc)
  have d3 : ∀ c ∈ (padStart2 (natToString t.frames)).data, c ≠ ':' := fun c hc =>
    digit_ne_colon c (padStart2_digits (natToString t.frames)
      (fun c2 hc2 => natToDec_digits t.frames c2 hc2) c hc)
  rw [fmtTrackTime_data,
    splitCh_sep ':' (padStart2 (natToString t.minutes)).data _ d1,
    splitCh_sep ':' (padStart2 (natToString t.seconds)).data _ d2,
    splitCh_nosep ':' (padStart2 (natToString t.frames)).data d3]

theorem parseMSFTime_fmt (t : MSFTime) (hs : t.seconds < 60) (hf : t.frames < 75) :
    parseMSFTime (fmtTrackTime t) = Except.ok t := by
  rw [parseMSFTime_ok_iff]
  refine ⟨(padStart2 (natToString t.minutes)).data, (padStart2 (natToString t.seconds)).data,
    (padStart2 (natToString t.frames)).data, ?_, padStart2_ne_nil _, padStart2_ne_nil _,
    padStart2_ne_nil _, (t.minutes : Int), (t.seconds : Int), (t.frames : Int),
    parseIntL_pad _, parseIntL_pad _, parseIntL_pad _, Int.natCast_nonneg _,
    Int.natCast_nonneg _, Int.natCast_nonneg _, by exact_mod_cast hs, by exact_mod_cast hf, ?_⟩
  · rw [jsTrim_fmtTrackTime]
    exact splitCh_fmtTrackTime t
  · simp

theorem trackModeOf?_str (m : TrackMode) :
    trackModeOf? (String.mk (upperL m.str.data)) = some m := by
  cases m <;> rfl

theorem trackFlagOf?_str (f : TrackFlag) :
    trackFlagOf? (String.mk (upperL f.str.data)) = some f := by
  cases f <;> rfl

theorem parseFileFormat_str (f : FileFormat) :
    CueParser.parseFileFormat (String.mk f.str.data) = Except.ok f := by
  cases f <;> rfl


theorem mem_of_dropWhile {p : Char → Bool} {l : List Char} {c : Char}
    (h : c ∈ l.dropWhile p) : c ∈ l :=
  (List.dropWhile_suffix p).subset h

theorem mem_of_takeWhile {p : Char → Bool} {l : List Char} {c : Char}
    (h : c ∈ l.takeWhile p) : c ∈ l :=
  (List.takeWhile_sublist p).subset h

theorem mem_of_trimL {l : List Char} {c : Char} (h : c ∈ trimL l) : c ∈ l := by
  unfold trimL at h
  rw [List.mem_reverse] at h
  have h1 := mem_of_dropWhile h
  rw [List.mem_reverse] at h1
  exact mem_of_dropWhile h1

theorem noNL_jsTrim (s : String) (h : noNL s) : noNL (jsTrim s) := by
  intro hc
  exact h (mem_of_trimL hc)

theorem parseCommand_snd_subset (s : String) :
    ∀ c ∈ ((CueParser.parseCommand s).2).data, c ∈ s.data := by
  intro c hc
  have hpc : CueParser.parseCommand s =
      match (trimL s.data).span (fun c => c != ' ') with
      | (cmd, []) => (String.mk cmd, "")
      | (cmd, _ :: rest) => (String.mk cmd, String.mk (trimL rest)) := rfl
  rw [List.span_eq_take_drop] at hpc
  rcases hdw : (trimL s.data).dropWhile (fun c => c != ' ') with - | ⟨x, rest⟩
  · rw [hdw] at hpc
    rw [hpc] at hc
    exact absurd hc (by simp)
  · rw [hdw] at hpc
    rw [hpc] at hc
    have h1 : c ∈ rest := mem_of_trimL hc
    have h2 : c ∈ (trimL s.data).dropWhile (fun c => c != ' ') := by
      rw [hdw]
      exact List.mem_cons_of_mem _ h1
    exact mem_of_trimL (mem_of_dropWhile h2)

theorem parseQuotedString_subset (s : String) :
    ∀ c ∈ (CueParser.parseQuotedString s).data, c ∈ s.data := by
  intro c hc
  simp only [CueParser.parseQuotedString] at hc
  split at hc
  · have h1 : c ∈ ((jsTrim s).data.drop 1).dropLast := hc
    have h2 := (List.dropLast_sublist _).subset h1
    have h3 := (List.drop_sublist 1 (jsTrim s).data).subset h2
    exact mem_of_trimL h3
  · exact mem_of_trimL hc

theorem mem_splitCh_subset (sep : Char) :
    ∀ (l : List Char) (p : List Char), p ∈ splitCh sep l → ∀ c ∈ p, c ∈ l := by
  intro l
  induction l with
  | nil =>
    intro p hp c hc
    have : p = [] := by
      have h1 : splitCh sep [] = [[]] := rfl
      rw [h1, List.mem_singleton] at hp
      exact hp
    subst this
    exact absurd hc (List.not_mem_nil c)
  | cons x xs ih =>
    intro p hp c hc
    rw [splitCh_cons] at hp
    rcases hr : splitCh sep xs with - | ⟨r, rs⟩
    · exact absurd hr (splitCh_ne_nil sep xs)
    · rw [hr] at hp
      have hp2 : p ∈ (if x = sep then [] :: r :: rs else (x :: r) :: rs) := hp
      by_cases hx : x = sep
      · rw [if_pos hx] at hp2
        rcases List.mem_cons.mp hp2 with h1 | h1
        · subst h1
          exact absurd hc (List.not_mem_nil c)
        · exact List.mem_cons_of_mem _ (ih p (by rw [hr]; exact h1) c hc)
      · rw [if_neg hx] at hp2
        rcases List.mem_cons.mp hp2 with h1 | h1
        · subst h1
          rcases List.mem_cons.mp hc with h2 | h2
          · subst h2
            exact List.mem_cons_self _ _
          · exact List.mem_cons_of_mem _
              (ih r (by rw [hr]; exact List.mem_cons_self _ _) c h2)
        · exact List.mem_cons_of_mem _
            (ih p (by rw [hr]; exact List.mem_cons_of_mem _ h1) c hc)

theorem mem_splitWs_subset :
    ∀ (l : List Char) (p : List Char), p ∈ splitWs l → ∀ c ∈ p, c ∈ l := by
  intro l
  induction l with
  | nil =>
    intro p hp c hc
    have : p = [] := by
      have h1 : splitWs [] = [[]] := rfl
      rw [h1, List.mem_singleton] at hp
      exact hp
    subst this
    exact absurd hc (List.not_mem_nil c)
  | cons x xs ih =>
    intro p hp c hc
    simp only [splitWs] at hp
    by_cases hx : jsWs x = true
    · rw [if_pos hx] at hp
      rcases xs with - | ⟨y, t⟩
      · rcases List.mem_cons.mp hp with h1 | h1
        · subst h1
          exact absurd hc (List.not_mem_nil c)
        · have : p = [] := by
            have h2 : splitWs ([] : List Char) = [[]] := rfl
            rw [h2, List.mem_singleton] at h1
            exact h1
          subst this
          exact absurd hc (List.not_mem_nil c)
      · have hp2 : p ∈ (if jsWs y = true then splitWs (y :: t) else [] :: splitWs (y :: t)) := hp
        by_cases hy : jsWs y = true
        · rw [if_pos hy] at hp2
          exact List.mem_cons_of_mem _ (ih p hp2 c hc)
        · rw [if_neg hy] at hp2
          rcases List.mem_cons.mp hp2 with h1 | h1
          · subst h1
            exact absurd hc (List.not_mem_nil c)
          · exact List.mem_cons_of_mem _ (ih p h1 c hc)
    · rw [if_neg hx] at hp
      rcases hr : splitWs xs with - | ⟨r, rs⟩
      · rw [hr] at hp
        rw [List.mem_singleton] at hp
        subst hp
        exact absurd hc (List.not_mem_nil c)
      · rw [hr] at hp
        rcases List.mem_cons.mp hp with h1 | h1
        · subst h1
          rcases List.mem_cons.mp hc with h2 | h2
          · subst h2
            exact List.mem_cons_self _ _
          · exact List.mem_cons_of_mem _
              (ih r (by rw [hr]; exact List.mem_cons_self _ _) c h2)
        · exact List.mem_cons_of_mem _
            (ih p (by rw [hr]; exact List.mem_cons_of_mem _ h1) c hc)

theorem getLastD_mem : ∀ (l : List (List Char)) (d : List Char), l ≠ [] → l.getLastD d ∈ l := by
  intro l
  induction l with
  | nil => intro d h; exact absurd rfl h
  | cons x xs ih =>
    intro d h
    rcases xs with - | ⟨y, t⟩
    · exact List.mem_singleton.mpr rfl
    · have h2 := ih d (by simp)
      rw [List.getLastD_cons]
      exact List.mem_cons_of_mem _ h2

theorem parseFileArgs_subset (args fn : String) (fmt : Option FileFormat)
    (h : CueParser.parseFileArgs args = Except.ok (fn, fmt)) :
    ∀ c ∈ fn.data, c ∈ args.data := by
  intro c hc
  simp only [CueParser.parseFileArgs] at h
  split at h
  case _ rest heq =>
    have heq2 : trimL args.data = '"' :: rest := heq
    have hrest : ∀ x ∈ rest, x ∈ args.data := by
      intro x hx
      apply mem_of_trimL
      rw [heq2]
      exact List.mem_cons_of_mem _ hx
    rw [List.span_eq_take_drop] at h
    split at h
    · exact absurd h (by simp)
    case _ fn2 o after heq3 =>
      have hfn2 : fn2 = rest.takeWhile (fun c => c != '"') := by
        injection heq3 with ha hb
        exact ha.symm
      split at h
      · injection h with h2
        injection h2 with h3 h4
        subst h3
        exact hrest c (mem_of_takeWhile (hfn2 ▸ hc))
      · split at h
        · exact absurd h (by simp)
        · injection h with h2
          injection h2 with h3 h4
          subst h3
          exact hrest c (mem_of_takeWhile (hfn2 ▸ hc))
  case _ heq =>
    split at h
    case _ heq2 =>
      injection h with h2
      injection h2 with h3 h4
      subst h3
      exact absurd hc (by simp)
    case _ p0 rest heq2 =>
      have heq4 : splitWs (trimL args.data) = p0 :: rest := heq2
      have hp0 : ∀ x ∈ p0, x ∈ args.data := by
        intro x hx
        apply mem_of_trimL
        exact mem_splitWs_subset _ p0 (by rw [heq4]; exact List.mem_cons_self _ _) x hx
      split at h
      · injection h with h2
        injection h2 with h3 h4
        subst h3
        exact hp0 c hc
      case _ p1 rest2 heq3 =>
        split at h
        · injection h with h2
          injection h2 with h3 h4
          subst h3
          exact hp0 c hc
        · split at h
          · exact absurd h (by simp)
          · injection h with h2
            injection h2 with h3 h4
            subst h3
            exact hp0 c hc


/-! ### The parser invariant: parsed documents are `GoodDoc` -/

theorem noNLo_some (v : String) (hv : noNL v) : noNLo (some v) := by
  intro w hw
  injection hw with h2
  subst h2
  exact hv

theorem noNLlist_some (l : List String) (hl : ∀ v ∈ l, noNL v) : noNLlist (some l) := by
  intro l2 hl2 v hv
  injection hl2 with h2
  subst h2
  exact hl v hv

theorem noNL_parseQuoted (args : String) (ha : noNL args) :
    noNL (CueParser.parseQuotedString args) := by
  intro hc
  exact ha (parseQuotedString_subset args '\n' hc)

theorem noNL_of_digits (s : String) (h : ∀ c ∈ s.data, c.isDigit = true) : noNL s := by
  intro hc
  exact absurd (h '\n' hc) (by decide)

theorem parseMSFTime_good (s : String) (t : MSFTime) (h : parseMSFTime s = Except.ok t) :
    GoodTime t := by
  rw [parseMSFTime_ok_iff] at h
  obtain ⟨p1, p2, p3, -, -, -, -, m, sec, f, -, -, -, -, -, -, hs60, hf75, ht⟩ := h
  subst ht
  constructor
  · show sec.toNat < 60
    omega
  · show f.toNat < 75
    omega

theorem GoodTrack_set_title (t : Track) (v : String) (h : GoodTrack t) (hv : noNL v) :
    GoodTrack { t with title := some v } := by
  obtain ⟨h1, h2, ⟨n1, n2, n3, n4, n5, n6, n7, n8, n9⟩, h4, h5, h6⟩ := h
  exact ⟨h1, h2, ⟨n1, noNLo_some v hv, n3, n4, n5, n6, n7, n8, n9⟩, h4, h5, h6⟩

theorem GoodTrack_set_performer (t : Track) (v : String) (h : GoodTrack t) (hv : noNL v) :
    GoodTrack { t with performer := some v } := by
  obtain ⟨h1, h2, ⟨n1, n2, n3, n4, n5, n6, n7, n8, n9⟩, h4, h5, h6⟩ := h
  exact ⟨h1, h2, ⟨n1, n2, noNLo_some v hv, n4, n5, n6, n7, n8, n9⟩, h4, h5, h6⟩

theorem GoodTrack_set_songwriter (t : Track) (v : String) (h : GoodTrack t) (hv : noNL v) :
    GoodTrack { t with songwriter := some v } := by
  obtain ⟨h1, h2, ⟨n1, n2, n3, n4, n5, n6, n7, n8, n9⟩, h4, h5, h6⟩ := h
  exact ⟨h1, h2, ⟨n1, n2, n3, noNLo_some v hv, n5, n6, n7, n8, n9⟩, h4, h5, h6⟩

theorem GoodTrack_set_composer (t : Track) (v : String) (h : GoodTrack t) (hv : noNL v) :
    GoodTrack { t with composer := some v } := by
  obtain ⟨h1, h2, ⟨n1, n2, n3, n4, n5, n6, n7, n8, n9⟩, h4, h5, h6⟩ := h
  exact ⟨h1, h2, ⟨n1, n2, n3, n4, noNLo_some v hv, n6, n7, n8, n9⟩, h4, h5, h6⟩

theorem GoodTrack_set_arranger (t : Track) (v : String) (h : GoodTrack t) (hv : noNL v) :
    GoodTrack { t with arranger := some v } := by
  obtain ⟨h1, h2, ⟨n1, n2, n3, n4, n5, n6, n7, n8, n9⟩, h4, h5, h6⟩ := h
  exact ⟨h1, h2, ⟨n1, n2, n3, n4, n5, noNLo_some v hv, n7, n8, n9⟩, h4, h5, h6⟩

theorem GoodTrack_set_message (t : Track) (v : String) (h : GoodTrack t) (hv : noNL v) :
    GoodTrack { t with message := some v } := by
  obtain ⟨h1, h2, ⟨n1, n2, n3, n4, n5, n6, n7, n8, n9⟩, h4, h5, h6⟩ := h
  exact ⟨h1, h2, ⟨n1, n2, n3, n4, n5, n6, noNLo_some v hv, n8, n9⟩, h4, h5, h6⟩

theorem GoodTrack_set_isrc (t : Track) (v : String) (h : GoodTrack t) (hv : noNL v) :
    GoodTrack { t with isrc := some v } := by
  obtain ⟨h1, h2, ⟨n1, n2, n3, n4, n5, n6, n7, n8, n9⟩, h4, h5, h6⟩ := h
  exact ⟨h1, h2, ⟨n1, n2, n3, n4, n5, n6, n7, noNLo_some v hv, n9⟩, h4, h5, h6⟩

theorem GoodTrack_set_file (t : Track) (f : FileInfo) (h : GoodTrack t)
    (hf : noNL f.filename) : GoodTrack { t with file := some f } := by
  obtain ⟨h1, h2, ⟨n1, n2, n3, n4, n5, n6, n7, n8, n9⟩, h4, h5, h6⟩ := h
  refine ⟨h1, h2, ⟨?_, n2, n3, n4, n5, n6, n7, n8, n9⟩, h4, h5, h6⟩
  intro f2 hf2
  injection hf2 with h7
  subst h7
  exact hf

theorem GoodTrack_set_flags (t : Track) (fl : List TrackFlag) (h : GoodTrack t) :
    GoodTrack { t with flags := some fl } := by
  obtain ⟨h1, h2, h3, h4, h5, h6⟩ := h
  exact ⟨h1, h2, h3, h4, h5, h6⟩

theorem GoodTrack_set_pregap (t : Track) (p : MSFTime) (h : GoodTrack t) (hp : GoodTime p) :
    GoodTrack { t with pregap := some p } := by
  obtain ⟨h1, h2, h3, h4, h5, h6⟩ := h
  refine ⟨h1, h2, h3, h4, ?_, h6⟩
  intro p2 hp2
  injection hp2 with h7
  subst h7
  exact hp

theorem GoodTrack_set_postgap (t : Track) (p : MSFTime) (h : GoodTrack t) (hp : GoodTime p) :
    GoodTrack { t with postgap := some p } := by
  obtain ⟨h1, h2, h3, h4, h5, h6⟩ := h
  refine ⟨h1, h2, h3, h4, h5, ?_⟩
  intro p2 hp2
  injection hp2 with h7
  subst h7
  exact hp

theorem GoodTrack_add_remark (t : Track) (r : String) (h : GoodTrack t) (hr : noNL r) :
    GoodTrack { t with remarks := some (t.remarks.getD [] ++ [r]) } := by
  obtain ⟨h1, h2, ⟨n1, n2, n3, n4, n5, n6, n7, n8, n9⟩, h4, h5, h6⟩ := h
  refine ⟨h1, h2, ⟨n1, n2, n3, n4, n5, n6, n7, n8, ?_⟩, h4, h5, h6⟩
  apply noNLlist_some
  intro v hv
  rcases List.mem_append.mp hv with hm | hm
  · rcases ho : t.remarks with - | ⟨rl⟩
    · rw [ho] at hm
      exact absurd hm (by simp)
    · rw [ho] at hm
      exact n9 rl ho v hm
  · rw [List.mem_singleton] at hm
    subst hm
    exact hr

theorem GoodTrack_add_index (t : Track) (e : TrackIndex) (h : GoodTrack t) (he : GoodIdx e) :
    GoodTrack { t with indexes := some (t.indexes.getD [] ++ [e]) } := by
  obtain ⟨h1, h2, h3, h4, h5, h6⟩ := h
  refine ⟨h1, h2, h3, ?_, h5, h6⟩
  intro l hl
  injection hl with h7
  subst h7
  constructor
  · simp
  · intro i hi
    rcases List.mem_append.mp hi with h8 | h8
    · rcases ho : t.indexes with - | ⟨idl⟩
      · rw [ho] at h8
        exact absurd h8 (by simp)
      · rw [ho] at h8
        exact (h4 idl ho).2 i h8
    · rw [List.mem_singleton] at h8
      subst h8
      exact he

theorem GoodTrack_blank (n : Nat) (m : TrackMode) (ln : Nat) (h1 : 1 ≤ n) (h2 : n ≤ 99) :
    GoodTrack (blankTrack n m ln) := by
  refine ⟨h1, h2, noNLTrack_blank n m ln, ?_, ?_, ?_⟩
  · intro l hl
    exact absurd hl (by simp [blankTrack])
  · intro p hp
    exact absurd hp (by simp [blankTrack])
  · intro p hp
    exact absurd hp (by simp [blankTrack])

theorem GoodState_setCur (s : PState) (u : Track) (hs : GoodState s) (hu : GoodTrack u) :
    GoodState { s with currentTrack := some u } :=
  ⟨hs.1, hs.2.1, fun v hv => by injection hv with h2; subst h2; exact hu⟩

theorem GoodState_setGlobal (s : PState) (g2 : CueGlobal) (hs : GoodState s)
    (hg : GoodGlobal g2) : GoodState { s with global := g2 } :=
  ⟨hg, hs.2.1, hs.2.2⟩

theorem GoodState_warn (s : PState) (w : List ParseError) (hs : GoodState s) :
    GoodState { s with warnings := w } :=
  ⟨hs.1, hs.2.1, hs.2.2⟩

theorem GoodState_commit (s : PState) (hs : GoodState s) :
    GoodState (CueParser.commitCurrent s) := by
  unfold CueParser.commitCurrent
  split
  case _ t heq =>
    refine ⟨hs.1, ?_, hs.2.2⟩
    rw [List.forall_mem_append]
    exact ⟨hs.2.1, fun u hu => by rw [List.mem_singleton] at hu; subst hu; exact hs.2.2 _ heq⟩
  case _ heq => exact hs


theorem GoodGlobal_set_catalog (g : CueGlobal) (c : String) (h : GoodGlobal g)
    (hc : CueParser.is13Digits c = true) : GoodGlobal { g with catalog := some c } := by
  obtain ⟨⟨m1, m2, m3, m4, m5, m6, m7, m8, m9, m10, m11, m12, m13⟩, h2⟩ := h
  refine ⟨⟨noNLo_some c ?_, m2, m3, m4, m5, m6, m7, m8, m9, m10, m11, m12, m13⟩, ?_⟩
  · apply noNL_of_digits
    unfold CueParser.is13Digits at hc
    rw [Bool.and_eq_true] at hc
    exact List.all_eq_true.mp hc.2
  · intro c2 hc2
    injection hc2 with h3
    subst h3
    exact hc

theorem GoodGlobal_set_cdTextFile (g : CueGlobal) (v : String) (h : GoodGlobal g)
    (hv : noNL v) : GoodGlobal { g with cdTextFile := some v } := by
  obtain ⟨⟨m1, m2, m3, m4, m5, m6, m7, m8, m9, m10, m11, m12, m13⟩, h2⟩ := h
  exact ⟨⟨m1, noNLo_some v hv, m3, m4, m5, m6, m7, m8, m9, m10, m11, m12, m13⟩, h2⟩

theorem GoodGlobal_set_title (g : CueGlobal) (v : String) (h : GoodGlobal g)
    (hv : noNL v) : GoodGlobal { g with title := some v } := by
  obtain ⟨⟨m1, m2, m3, m4, m5, m6, m7, m8, m9, m10, m11, m12, m13⟩, h2⟩ := h
  exact ⟨⟨m1, m2, m3, noNLo_some v hv, m5, m6, m7, m8, m9, m10, m11, m12, m13⟩, h2⟩

theorem GoodGlobal_set_performer (g : CueGlobal) (v : String) (h : GoodGlobal g)
    (hv : noNL v) : GoodGlobal { g with performer := some v } := by
  obtain ⟨⟨m1, m2, m3, m4, m5, m6, m7, m8, m9, m10, m11, m12, m13⟩, h2⟩ := h
  exact ⟨⟨m1, m2, m3, m4, noNLo_some v hv, m6, m7, m8, m9, m10, m11, m12, m13⟩, h2⟩

theorem GoodGlobal_set_songwriter (g : CueGlobal) (v : String) (h : GoodGlobal g)
    (hv : noNL v) : GoodGlobal { g with songwriter := some v } := by
  obtain ⟨⟨m1, m2, m3, m4, m5, m6, m7, m8, m9, m10, m11, m12, m13⟩, h2⟩ := h
  exact ⟨⟨m1, m2, m3, m4, m5, noNLo_some v hv, m7, m8, m9, m10, m11, m12, m13⟩, h2⟩

theorem GoodGlobal_set_composer (g : CueGlobal) (v : String) (h : GoodGlobal g)
    (hv : noNL v) : GoodGlobal { g with composer := some v } := by
  obtain ⟨⟨m1, m2, m3, m4, m5, m6, m7, m8, m9, m10, m11, m12, m13⟩, h2⟩ := h
  exact ⟨⟨m1, m2, m3, m4, m5, m6, noNLo_some v hv, m8, m9, m10, m11, m12, m13⟩, h2⟩

theorem GoodGlobal_set_arranger (g : CueGlobal) (v : String) (h : GoodGlobal g)
    (hv : noNL v) : GoodGlobal { g with arranger := some v } := by
  obtain ⟨⟨m1, m2, m3, m4, m5, m6, m7, m8, m9, m10, m11, m12, m13⟩, h2⟩ := h
  exact ⟨⟨m1, m2, m3, m4, m5, m6, m7, noNLo_some v hv, m9, m10, m11, m12, m13⟩, h2⟩

theorem GoodGlobal_set_message (g : CueGlobal) (v : String) (h : GoodGlobal g)
    (hv : noNL v) : GoodGlobal { g with message := some v } := by
  obtain ⟨⟨m1, m2, m3, m4, m5, m6, m7, m8, m9, m10, m11, m12, m13⟩, h2⟩ := h
  exact ⟨⟨m1, m2, m3, m4, m5, m6, m7, m8, noNLo_some v hv, m10, m11, m12, m13⟩, h2⟩

theorem GoodGlobal_set_discId (g : CueGlobal) (v : String) (h : GoodGlobal g)
    (hv : noNL v) : GoodGlobal { g with discId := some v } := by
  obtain ⟨⟨m1, m2, m3, m4, m5, m6, m7, m8, m9, m10, m11, m12, m13⟩, h2⟩ := h
  exact ⟨⟨m1, m2, m3, m4, m5, m6, m7, m8, m9, noNLo_some v hv, m11, m12, m13⟩, h2⟩

theorem GoodGlobal_set_genre (g : CueGlobal) (v : String) (h : GoodGlobal g)
    (hv : noNL v) : GoodGlobal { g with genre := some v } := by
  obtain ⟨⟨m1, m2, m3, m4, m5, m6, m7, m8, m9, m10, m11, m12, m13⟩, h2⟩ := h
  exact ⟨⟨m1, m2, m3, m4, m5, m6, m7, m8, m9, m10, noNLo_some v hv, m12, m13⟩, h2⟩

theorem GoodGlobal_set_upcEan (g : CueGlobal) (v : String) (h : GoodGlobal g)
    (hv : noNL v) : GoodGlobal { g with upcEan := some v } := by
  obtain ⟨⟨m1, m2, m3, m4, m5, m6, m7, m8, m9, m10, m11, m12, m13⟩, h2⟩ := h
  exact ⟨⟨m1, m2, m3, m4, m5, m6, m7, m8, m9, m10, m11, noNLo_some v hv, m13⟩, h2⟩

theorem GoodGlobal_add_remark (g : CueGlobal) (r : String) (h : GoodGlobal g)
    (hr : noNL r) : GoodGlobal { g with remarks := some (g.remarks.getD [] ++ [r]) } := by
  obtain ⟨⟨m1, m2, m3, m4, m5, m6, m7, m8, m9, m10, m11, m12, m13⟩, h2⟩ := h
  refine ⟨⟨m1, m2, m3, m4, m5, m6, m7, m8, m9, m10, m11, m12, ?_⟩, h2⟩
  apply noNLlist_some
  intro v hv
  rcases List.mem_append.mp hv with hm | hm
  · rcases ho : g.remarks with - | ⟨rl⟩
    · rw [ho] at hm
      exact absurd hm (by simp)
    · rw [ho] at hm
      exact m13 rl ho v hm
  · rw [List.mem_singleton] at hm
    subst hm
    exact hr

theorem handleRemark_good (s : PState) (args : String) (hs : GoodState s) (ha : noNL args) :
    GoodState (CueParser.handleRemark s args) := by
  unfold CueParser.handleRemark
  split
  case _ t heq =>
    exact GoodState_setCur _ _ hs (GoodTrack_add_remark t args (hs.2.2 t heq) ha)
  case _ heq =>
    exact GoodState_setGlobal _ _ hs (GoodGlobal_add_remark _ args hs.1 ha)

theorem handleCatalog_good (s : PState) (args : String) (hs : GoodState s) :
    GoodState (CueParser.handleCatalog s args).1 := by
  unfold CueParser.handleCatalog
  split
  case _ hc => exact GoodState_setGlobal _ _ hs (GoodGlobal_set_catalog _ _ hs.1 hc)
  case _ => exact hs

theorem handleCdTextFile_good (s : PState) (args : String) (hs : GoodState s) (ha : noNL args) :
    GoodState (CueParser.handleCdTextFile s args) :=
  GoodState_setGlobal _ _ hs (GoodGlobal_set_cdTextFile _ _ hs.1 (noNL_parseQuoted args ha))

theorem handleFile_good (s : PState) (args : String) (n : Nat) (hs : GoodState s)
    (ha : noNL args) : GoodState (CueParser.handleFile s args n).1 := by
  unfold CueParser.handleFile
  split
  case _ e heq => exact hs
  case _ filename format heq =>
    split
    case _ t heq2 =>
      refine GoodState_setCur _ _ hs (GoodTrack_set_file t _ (hs.2.2 t heq2) ?_)
      intro hc
      have h1 : '\n' ∈ filename.data :=
        mem_splitCh_subset '/' filename.data _
          (getLastD_mem _ [] (splitCh_ne_nil '/' filename.data)) '\n' hc
      exact ha (parseFileArgs_subset args filename format heq '\n' h1)
    case _ heq2 => exact ⟨hs.1, hs.2.1, hs.2.2⟩

theorem handleTrack_good (s : PState) (args : String) (n : Nat) (hs : GoodState s) :
    GoodState (CueParser.handleTrack s args n).1 := by
  unfold CueParser.handleTrack
  split
  case _ p0 p1 rest heq =>
    split
    case _ => exact GoodState_commit s hs
    case _ tn heq2 =>
      split
      case _ => exact GoodState_commit s hs
      case _ hguard =>
        split
        case _ => exact GoodState_commit s hs
        case _ mode heq3 =>
          refine GoodState_setCur _ _ (GoodState_commit s hs) (GoodTrack_blank _ _ _ ?_ ?_)
          · simp only [Bool.or_eq_true, decide_eq_true_eq, not_or] at hguard
            omega
          · simp only [Bool.or_eq_true, decide_eq_true_eq, not_or] at hguard
            omega
  case _ => exact GoodState_commit s hs

theorem handleIndex_good (s : PState) (args : String) (hs : GoodState s) :
    GoodState (CueParser.handleIndex s args).1 := by
  unfold CueParser.handleIndex
  split
  case _ => exact hs
  case _ t heq =>
    split
    case _ p0 p1 rest heq2 =>
      split
      case _ => exact hs
      case _ idx heq3 =>
        split
        case _ => exact hs
        case _ hguard =>
          split
          case _ => exact hs
          case _ time heq4 =>
            refine GoodState_setCur _ _ hs
              (GoodTrack_add_index t ⟨idx.toNat, time⟩ (hs.2.2 t heq) ⟨?_, ?_⟩)
            · simp only [Bool.or_eq_true, decide_eq_true_eq, not_or] at hguard
              show idx.toNat ≤ 99
              omega
            · exact parseMSFTime_good _ _ heq4
    case _ => exact hs

theorem handlePregap_good (s : PState) (args : String) (hs : GoodState s) :
    GoodState (CueParser.handlePregap s args).1 := by
  unfold CueParser.handlePregap
  split
  case _ => exact hs
  case _ t heq =>
    split
    case _ => exact hs
    case _ time heq2 =>
      exact GoodState_setCur _ _ hs
        (GoodTrack_set_pregap t time (hs.2.2 t heq) (parseMSFTime_good _ _ heq2))

theorem handlePostgap_good (s : PState) (args : String) (hs : GoodState s) :
    GoodState (CueParser.handlePostgap s args).1 := by
  unfold CueParser.handlePostgap
  split
  case _ => exact hs
  case _ t heq =>
    split
    case _ => exact hs
    case _ time heq2 =>
      exact GoodState_setCur _ _ hs
        (GoodTrack_set_postgap t time (hs.2.2 t heq) (parseMSFTime_good _ _ heq2))

theorem handleFlags_good (s : PState) (args : String) (hs : GoodState s) :
    GoodState (CueParser.handleFlags s args).1 := by
  unfold CueParser.handleFlags
  split
  case _ => exact hs
  case _ t heq =>
    split
    case _ => exact hs
    case _ flags heq2 =>
      exact GoodState_setCur _ _ hs (GoodTrack_set_flags t flags (hs.2.2 t heq))

theorem handleIsrc_good (s : PState) (args : String) (n : Nat) (hs : GoodState s)
    (ha : noNL args) : GoodState (CueParser.handleIsrc s args n).1 := by
  unfold CueParser.handleIsrc
  split
  case _ => exact hs
  case _ t heq =>
    split
    case _ =>
      exact GoodState_setCur _ _ hs
        (GoodTrack_set_isrc t _ (hs.2.2 t heq) (noNL_jsTrim args ha))
    case _ =>
      refine ⟨hs.1, hs.2.1, ?_⟩
      intro v hv
      injection hv with h2
      subst h2
      exact GoodTrack_set_isrc t _ (hs.2.2 t heq) (noNL_jsTrim args ha)

theorem handleTitle_good (s : PState) (args : String) (hs : GoodState s) (ha : noNL args) :
    GoodState (CueParser.handleTitle s args) := by
  unfold CueParser.handleTitle
  split
  case _ t heq =>
    exact GoodState_setCur _ _ hs
      (GoodTrack_set_title t _ (hs.2.2 t heq) (noNL_parseQuoted args ha))
  case _ heq =>
    exact GoodState_setGlobal _ _ hs (GoodGlobal_set_title _ _ hs.1 (noNL_parseQuoted args ha))

theorem handlePerformer_good (s : PState) (args : String) (hs : GoodState s) (ha : noNL args) :
    GoodState (CueParser.handlePerformer s args) := by
  unfold CueParser.handlePerformer
  split
  case _ t heq =>
    exact GoodState_setCur _ _ hs
      (GoodTrack_set_performer t _ (hs.2.2 t heq) (noNL_parseQuoted args ha))
  case _ heq =>
    exact GoodState_setGlobal _ _ hs (GoodGlobal_set_performer _ _ hs.1 (noNL_parseQuoted args ha))

theorem handleSongwriter_good (s : PState) (args : String) (hs : GoodState s) (ha : noNL args) :
    GoodState (CueParser.handleSongwriter s args) := by
  unfold CueParser.handleSongwriter
  split
  case _ t heq =>
    exact GoodState_setCur _ _ hs
      (GoodTrack_set_songwriter t _ (hs.2.2 t heq) (noNL_parseQuoted args ha))
  case _ heq =>
    exact GoodState_setGlobal _ _ hs (GoodGlobal_set_songwriter _ _ hs.1 (noNL_parseQuoted args ha))

theorem handleComposer_good (s : PState) (args : String) (hs : GoodState s) (ha : noNL args) :
    GoodState (CueParser.handleComposer s args) := by
  unfold CueParser.handleComposer
  split
  case _ t heq =>
    exact GoodState_setCur _ _ hs
      (GoodTrack_set_composer t _ (hs.2.2 t heq) (noNL_parseQuoted args ha))
  case _ heq =>
    exact GoodState_setGlobal _ _ hs (GoodGlobal_set_composer _ _ hs.1 (noNL_parseQuoted args ha))

theorem handleArranger_good (s : PState) (args : String) (hs : GoodState s) (ha : noNL args) :
    GoodState (CueParser.handleArranger s args) := by
  unfold CueParser.handleArranger
  split
  case _ t heq =>
    exact GoodState_setCur _ _ hs
      (GoodTrack_set_arranger t _ (hs.2.2 t heq) (noNL_parseQuoted args ha))
  case _ heq =>
    exact GoodState_setGlobal _ _ hs (GoodGlobal_set_arranger _ _ hs.1 (noNL_parseQuoted args ha))

theorem handleMessage_good (s : PState) (args : String) (hs : GoodState s) (ha : noNL args) :
    GoodState (CueParser.handleMessage s args) := by
  unfold CueParser.handleMessage
  split
  case _ t heq =>
    exact GoodState_setCur _ _ hs
      (GoodTrack_set_message t _ (hs.2.2 t heq) (noNL_parseQuoted args ha))
  case _ heq =>
    exact GoodState_setGlobal _ _ hs (GoodGlobal_set_message _ _ hs.1 (noNL_parseQuoted args ha))

theorem handleDiscId_good (s : PState) (args : String) (hs : GoodState s) (ha : noNL args) :
    GoodState (CueParser.handleDiscId s args) :=
  GoodState_setGlobal _ _ hs (GoodGlobal_set_discId _ _ hs.1 (noNL_parseQuoted args ha))

theorem handleGenre_good (s : PState) (args : String) (hs : GoodState s) (ha : noNL args) :
    GoodState (CueParser.handleGenre s args) :=
  GoodState_setGlobal _ _ hs (GoodGlobal_set_genre _ _ hs.1 (noNL_parseQuoted args ha))

theorem handleUpcEan_good (s : PState) (args : String) (hs : GoodState s) (ha : noNL args) :
    GoodState (CueParser.handleUpcEan s args) :=
  GoodState_setGlobal _ _ hs (GoodGlobal_set_upcEan _ _ hs.1 (noNL_parseQuoted args ha))


theorem dispatch_good (s : PState) (c a l : String) (n : Nat) (hs : GoodState s)
    (ha : noNL a) : GoodState (CueParser.dispatch s c a l n).1 := by
  unfold CueParser.dispatch
  by_cases hc0 : c = ""
  · rw [if_pos hc0]
    exact hs
  rw [if_neg hc0]
  by_cases hc1 : jsUpper c = "REM"
  · rw [if_pos hc1]
    exact handleRemark_good s a hs ha
  rw [if_neg hc1]
  by_cases hc2 : jsUpper c = "CATALOG"
  · rw [if_pos hc2]
    exact handleCatalog_good s a hs
  rw [if_neg hc2]
  by_cases hc3 : jsUpper c = "CDTEXTFILE"
  · rw [if_pos hc3]
    exact handleCdTextFile_good s a hs ha
  rw [if_neg hc3]
  by_cases hc4 : jsUpper c = "FILE"
  · rw [if_pos hc4]
    exact handleFile_good s a n hs ha
  rw [if_neg hc4]
  by_cases hc5 : jsUpper c = "TRACK"
  · rw [if_pos hc5]
    exact handleTrack_good s a n hs
  rw [if_neg hc5]
  by_cases hc6 : jsUpper c = "INDEX"
  · rw [if_pos hc6]
    exact handleIndex_good s a hs
  rw [if_neg hc6]
  by_cases hc7 : jsUpper c = "PREGAP"
  · rw [if_pos hc7]
    exact handlePregap_good s a hs
  rw [if_neg hc7]
  by_cases hc8 : jsUpper c = "POSTGAP"
  · rw [if_pos hc8]
    exact handlePostgap_good s a hs
  rw [if_neg hc8]
  by_cases hc9 : jsUpper c = "FLAGS"
  · rw [if_pos hc9]
    exact handleFlags_good s a hs
  rw [if_neg hc9]
  by_cases hc10 : jsUpper c = "ISRC"
  · rw [if_pos hc10]
    exact handleIsrc_good s a n hs ha
  rw [if_neg hc10]
  by_cases hc11 : jsUpper c = "TITLE"
  · rw [if_pos hc11]
    exact handleTitle_good s a hs ha
  rw [if_neg hc11]
  by_cases hc12 : jsUpper c = "PERFORMER"
  · rw [if_pos hc12]
    exact handlePerformer_good s a hs ha
  rw [if_neg hc12]
  by_cases hc13 : jsUpper c = "SONGWRITER"
  · rw [if_pos hc13]
    exact handleSongwriter_good s a hs ha
  rw [if_neg hc13]
  by_cases hc14 : jsUpper c = "COMPOSER"
  · rw [if_pos hc14]
    exact handleComposer_good s a hs ha
  rw [if_neg hc14]
  by_cases hc15 : jsUpper c = "ARRANGER"
  · rw [if_pos hc15]
    exact handleArranger_good s a hs ha
  rw [if_neg hc15]
  by_cases hc16 : jsUpper c = "MESSAGE"
  · rw [if_pos hc16]
    exact handleMessage_good s a hs ha
  rw [if_neg hc16]
  by_cases hc17 : jsUpper c = "DISC_ID"
  · rw [if_pos hc17]
    exact handleDiscId_good s a hs ha
  rw [if_neg hc17]
  by_cases hc18 : jsUpper c = "GENRE"
  · rw [if_pos hc18]
    exact handleGenre_good s a hs ha
  rw [if_neg hc18]
  by_cases hc19 : jsUpper c = "UPC_EAN"
  · rw [if_pos hc19]
    exact handleUpcEan_good s a hs ha
  rw [if_neg hc19]
  exact ⟨hs.1, hs.2.1, hs.2.2⟩

theorem parseLineRaw_good (s : PState) (line : String) (n : Nat) (hs : GoodState s)
    (hl : noNL line) : GoodState (CueParser.parseLineRaw s line n).1 := by
  unfold CueParser.parseLineRaw
  split
  · exact hs
  · apply dispatch_good s _ _ line n hs
    intro hc
    exact hl (mem_of_trimL (parseCommand_snd_subset (jsTrim line) '\n' hc))

theorem step_good (s : PState) (line : String) (n : Nat) (hs : GoodState s)
    (hl : noNL line) : GoodState (CueParser.step s line n) := by
  have hg := parseLineRaw_good s line n hs hl
  unfold CueParser.step
  rcases hr : CueParser.parseLineRaw s line n with ⟨s1, msg⟩
  rw [hr] at hg
  cases msg with
  | none => exact hg
  | some m => exact ⟨hg.1, hg.2.1, hg.2.2⟩

theorem runFrom_good (ls : List String) :
    ∀ (s : PState) (n : Nat), GoodState s → (∀ l ∈ ls, noNL l) →
      GoodState (CueParser.runFrom s n ls) := by
  induction ls with
  | nil => intro s n hs _; exact hs
  | cons l ls ih =>
    intro s n hs hl
    exact ih _ _ (step_good s l n hs (hl l (List.mem_cons_self _ _)))
      (fun x hx => hl x (List.mem_cons_of_mem _ hx))

theorem splitCh_piece_no_sep (sep : Char) :
    ∀ (l : List Char) (p : List Char), p ∈ splitCh sep l → sep ∉ p := by
  intro l
  induction l with
  | nil =>
    intro p hp
    have : p = [] := by
      have h1 : splitCh sep [] = [[]] := rfl
      rw [h1, List.mem_singleton] at hp
      exact hp
    subst this
    exact List.not_mem_nil sep
  | cons x xs ih =>
    intro p hp
    rw [splitCh_cons] at hp
    rcases hr : splitCh sep xs with - | ⟨r, rs⟩
    · exact absurd hr (splitCh_ne_nil sep xs)
    · rw [hr] at hp
      have hp2 : p ∈ (if x = sep then [] :: r :: rs else (x :: r) :: rs) := hp
      by_cases hx : x = sep
      · rw [if_pos hx] at hp2
        rcases List.mem_cons.mp hp2 with h1 | h1
        · subst h1
          exact List.not_mem_nil sep
        · exact ih p (by rw [hr]; exact h1)
      · rw [if_neg hx] at hp2
        rcases List.mem_cons.mp hp2 with h1 | h1
        · subst h1
          intro hmem
          rcases List.mem_cons.mp hmem with h2 | h2
          · exact hx h2.symm
          · exact ih r (by rw [hr]; exact List.mem_cons_self _ _) h2
        · exact ih p (by rw [hr]; exact List.mem_cons_of_mem _ h1)

theorem linesOf_noNL (content : String) : ∀ l ∈ CueParser.linesOf content, noNL l := by
  intro l hl
  unfold CueParser.linesOf at hl
  rw [List.mem_map] at hl
  obtain ⟨p, hp, hlp⟩ := hl
  subst hlp
  intro hc
  exact splitCh_piece_no_sep '\n' content.data p hp hc

theorem GoodState_init : GoodState initState := by
  refine ⟨⟨noNLGlobal_empty, ?_⟩, ?_, ?_⟩
  · intro c hc
    exact absurd hc (by simp [initState, emptyGlobal])
  · intro t ht
    exact absurd ht (by simp [initState])
  · intro t ht
    exact absurd ht (by simp [initState])

theorem parse_good (content : String) (d : CueSheet)
    (h : (CueParser.parse content).cueSheet = some d) : GoodDoc d := by
  unfold CueParser.parse CueParser.mkResult at h
  split at h
  case _ hlen =>
    injection h with h2
    subst h2
    have hg : GoodState (CueParser.finalize (CueParser.runFrom initState 1
        (CueParser.linesOf content))) := by
      apply GoodState_commit
      exact runFrom_good _ _ _ GoodState_init (linesOf_noNL content)
    exact ⟨hg.1, hg.2.1⟩
  · exact nomatch h

theorem GoodDoc_noNL (d : CueSheet) (h : GoodDoc d) : noNLDoc d :=
  ⟨h.1.1, fun t ht => (h.2 t ht).2.2.1⟩


/-! ### Reparse simulation: line splitting of serialized output -/

theorem runFrom_nil (s : PState) (n : Nat) : CueParser.runFrom s n [] = s := rfl

theorem runFrom_cons (s : PState) (n : Nat) (l : String) (ls : List String) :
    CueParser.runFrom s n (l :: ls) = CueParser.runFrom (CueParser.step s l n) (n + 1) ls := rfl

theorem runFrom_append (l1 l2 : List String) :
    ∀ (s : PState) (n : Nat), CueParser.runFrom s n (l1 ++ l2) =
      CueParser.runFrom (CueParser.runFrom s n l1) (n + l1.length) l2 := by
  induction l1 with
  | nil =>
    intro s n
    rw [List.nil_append, runFrom_nil]
    simp
  | cons l l1 ih =>
    intro s n
    rw [List.cons_append, runFrom_cons, ih, runFrom_cons]
    have harith : n + 1 + l1.length = n + (l :: l1).length := by
      simp
      omega
    rw [harith]

theorem step_blank (s : PState) (n : Nat) : CueParser.step s "" n = s := rfl

theorem linesOf_eq (s : String) :
    CueParser.linesOf s = (splitCh '\n' s.data).map String.mk := rfl

theorem linesOf_cons_line (x : String) (rest : List Char) (hx : noNL x) :
    (splitCh '\n' (x.data ++ '\n' :: rest)).map String.mk =
      x :: (splitCh '\n' rest).map String.mk := by
  rw [splitCh_sep '\n' x.data rest (fun c hc hce => hx (hce ▸ hc))]
  rw [List.map_cons, mk_data_eq]

theorem linesOf_join : ∀ (L : List String), L ≠ [] → (∀ l ∈ L, noNL l) →
    CueParser.linesOf (joinSep "\n" L ++ "\n") = L ++ [""] := by
  intro L
  induction L with
  | nil => intro h; exact absurd rfl h
  | cons x xs ih =>
    intro hne0 hnl
    rcases xs with - | ⟨y, ys⟩
    · show CueParser.linesOf (joinSep "\n" [x] ++ "\n") = [x, ""]
      rw [linesOf_eq]
      have hd : (joinSep "\n" [x] ++ "\n").data = x.data ++ '\n' :: [] := by
        show (x ++ "\n").data = _
        rw [String.data_append]
      rw [hd, linesOf_cons_line x [] (hnl x (List.mem_cons_self _ _))]
      rfl
    · have hd : (joinSep "\n" (x :: y :: ys) ++ "\n").data =
          x.data ++ '\n' :: (joinSep "\n" (y :: ys) ++ "\n").data := by
        show ((x ++ "\n" ++ joinSep "\n" (y :: ys)) ++ "\n").data = _
        simp only [String.data_append]
        show (x.data ++ ['\n'] ++ (joinSep "\n" (y :: ys)).data) ++ ['\n'] = _
        simp [List.append_assoc]
      rw [linesOf_eq, hd, linesOf_cons_line x _ (hnl x (List.mem_cons_self _ _))]
      rw [← linesOf_eq, ih (by simp) (fun l hl => hnl l (List.mem_cons_of_mem _ hl))]
      rfl


/-! ### Reparse simulation: one emitted line at a time -/

theorem str_ext (a b : String) (h : a.data = b.data) : a = b := by
  cases a
  cases b
  exact congrArg String.mk h

theorem modeStr_nonws (m : TrackMode) : ∀ c ∈ m.str.data, jsWs c = false := by
  cases m <;> decide

theorem modeStr_ne_nil (m : TrackMode) : m.str.data ≠ [] := by
  cases m <;> decide

theorem flagStr_nonws (f : TrackFlag) : ∀ c ∈ f.str.data, jsWs c = false := by
  cases f <;> decide

theorem flagStr_ne_nil (f : TrackFlag) : f.str.data ≠ [] := by
  cases f <;> decide

theorem fmtStr_nonws (f : FileFormat) : ∀ c ∈ f.str.data, jsWs c = false := by
  cases f <;> decide

theorem fmtStr_ne_nil (f : FileFormat) : f.str.data ≠ [] := by
  cases f <;> decide

theorem dispatch_REM (s : PState) (a l : String) (n : Nat) :
    CueParser.dispatch s "REM" a l n = (CueParser.handleRemark s a, none) := rfl

theorem dispatch_CATALOG (s : PState) (a l : String) (n : Nat) :
    CueParser.dispatch s "CATALOG" a l n = CueParser.handleCatalog s a := rfl

theorem dispatch_CDTEXTFILE (s : PState) (a l : String) (n : Nat) :
    CueParser.dispatch s "CDTEXTFILE" a l n = (CueParser.handleCdTextFile s a, none) := rfl

theorem dispatch_FILE (s : PState) (a l : String) (n : Nat) :
    CueParser.dispatch s "FILE" a l n = CueParser.handleFile s a n := rfl

theorem dispatch_TRACK (s : PState) (a l : String) (n : Nat) :
    CueParser.dispatch s "TRACK" a l n = CueParser.handleTrack s a n := rfl

theorem dispatch_INDEX (s : PState) (a l : String) (n : Nat) :
    CueParser.dispatch s "INDEX" a l n = CueParser.handleIndex s a := rfl

theorem dispatch_PREGAP (s : PState) (a l : String) (n : Nat) :
    CueParser.dispatch s "PREGAP" a l n = CueParser.handlePregap s a := rfl

theorem dispatch_POSTGAP (s : PState) (a l : String) (n : Nat) :
    CueParser.dispatch s "POSTGAP" a l n = CueParser.handlePostgap s a := rfl

theorem dispatch_FLAGS (s : PState) (a l : String) (n : Nat) :
    CueParser.dispatch s "FLAGS" a l n = CueParser.handleFlags s a := rfl

theorem dispatch_ISRC (s : PState) (a l : String) (n : Nat) :
    CueParser.dispatch s "ISRC" a l n = CueParser.handleIsrc s a n := rfl

theorem dispatch_TITLE (s : PState) (a l : String) (n : Nat) :
    CueParser.dispatch s "TITLE" a l n = (CueParser.handleTitle s a, none) := rfl

theorem dispatch_PERFORMER (s : PState) (a l : String) (n : Nat) :
    CueParser.dispatch s "PERFORMER" a l n = (CueParser.handlePerformer s a, none) := rfl

theorem dispatch_SONGWRITER (s : PState) (a l : String) (n : Nat) :
    CueParser.dispatch s "SONGWRITER" a l n = (CueParser.handleSongwriter s a, none) := rfl

theorem dispatch_COMPOSER (s : PState) (a l : String) (n : Nat) :
    CueParser.dispatch s "COMPOSER" a l n = (CueParser.handleComposer s a, none) := rfl

theorem dispatch_ARRANGER (s : PState) (a l : String) (n : Nat) :
    CueParser.dispatch s "ARRANGER" a l n = (CueParser.handleArranger s a, none) := rfl

theorem dispatch_MESSAGE (s : PState) (a l : String) (n : Nat) :
    CueParser.dispatch s "MESSAGE" a l n = (CueParser.handleMessage s a, none) := rfl

theorem dispatch_DISCID (s : PState) (a l : String) (n : Nat) :
    CueParser.dispatch s "DISC_ID" a l n = (CueParser.handleDiscId s a, none) := rfl

theorem dispatch_GENRE (s : PState) (a l : String) (n : Nat) :
    CueParser.dispatch s "GENRE" a l n = (CueParser.handleGenre s a, none) := rfl

theorem dispatch_UPCEAN (s : PState) (a l : String) (n : Nat) :
    CueParser.dispatch s "UPC_EAN" a l n = (CueParser.handleUpcEan s a, none) := rfl

theorem step_of_parseLineRaw (s : PState) (line : String) (n : Nat) (s1 : PState)
    (h : CueParser.parseLineRaw s line n = (s1, none)) : CueParser.step s line n = s1 := by
  unfold CueParser.step
  rw [h]

theorem parseLineRaw_build (s : PState) (w cmdL restL : List Char) (n : Nat)
    (hw : ∀ c ∈ w, jsWs c = true) (hne : cmdL ≠ []) (hcmd : ∀ c ∈ cmdL, jsWs c = false)
    (hlast : ∀ c, restL.getLast? = some c → jsWs c = false) :
    CueParser.parseLineRaw s (String.mk (w ++ (cmdL ++ ' ' :: restL))) n =
      CueParser.dispatch s (String.mk cmdL) (String.mk (restL.dropWhile jsWs))
        (String.mk (w ++ (cmdL ++ ' ' :: restL))) n := by
  unfold CueParser.parseLineRaw
  have hnemp : ¬ jsTrim (String.mk (w ++ (cmdL ++ ' ' :: restL))) = "" := by
    intro he
    rw [str_eq_empty_iff] at he
    have he2 : trimL (w ++ (cmdL ++ ' ' :: restL)) = [] := he
    rcases cmdL with - | ⟨c0, cl⟩
    · exact absurd rfl hne
    · exact trimL_ne_nil _ c0 (by simp) (hcmd c0 (List.mem_cons_self _ _)) he2
  rw [if_neg hnemp]
  have hpc : CueParser.parseCommand (jsTrim (String.mk (w ++ (cmdL ++ ' ' :: restL)))) =
      (String.mk cmdL, String.mk (restL.dropWhile jsWs)) := by
    have h1 : jsTrim (String.mk (w ++ (cmdL ++ ' ' :: restL))) =
        String.mk (trimL (w ++ (cmdL ++ ' ' :: restL))) := rfl
    rw [h1, parseCommand_trim, parseCommand_wsPre w _ hw,
      parseCommand_split cmdL restL hne hcmd hlast]
  rw [hpc]

theorem parseCommand_fst (cmdL restL : List Char) (hne : cmdL ≠ [])
    (hcmd : ∀ c ∈ cmdL, jsWs c = false) :
    ∃ a, CueParser.parseCommand (String.mk (cmdL ++ ' ' :: restL)) = (String.mk cmdL, a) := by
  have hdw1 : (cmdL ++ ' ' :: restL).dropWhile jsWs = cmdL ++ ' ' :: restL := by
    apply dropWhile_head_nonws
    intro c hc
    rcases cmdL with - | ⟨c0, cl⟩
    · exact absurd rfl hne
    · rw [List.cons_append, List.head?_cons, Option.some.injEq] at hc
      subst hc
      exact hcmd _ (List.mem_cons_self _ _)
  have hrev : (cmdL ++ ' ' :: restL).reverse = (restL.reverse ++ [' ']) ++ cmdL.reverse := by
    rw [List.reverse_append]
    congr 1
    rw [show (' ' :: restL) = [' '] ++ restL from rfl, List.reverse_append]
    rfl
  have hlastcmd : ∀ c, cmdL.reverse.head? = some c → jsWs c = false := by
    intro c hc
    rw [List.head?_reverse] at hc
    exact hcmd c (List.mem_of_mem_getLast? hc)
  by_cases hD : ((restL.reverse ++ [' ']).dropWhile jsWs).isEmpty = true
  · have htr : trimL (cmdL ++ ' ' :: restL) = cmdL := by
      unfold trimL
      rw [hdw1, hrev, List.dropWhile_append, if_pos hD,
        dropWhile_head_nonws cmdL.reverse hlastcmd, List.reverse_reverse]
    refine ⟨"", ?_⟩
    show (match (trimL (cmdL ++ ' ' :: restL)).span (fun c => c != ' ') with
      | (cmd, []) => (String.mk cmd, "")
      | (cmd, _ :: rest) => (String.mk cmd, String.mk (trimL rest))) = (String.mk cmdL, "")
    rw [htr, List.span_eq_take_drop, takeWhile_all _ (cmd_nonws_ne_space _ hcmd),
      List.dropWhile_eq_nil_iff.mpr (cmd_nonws_ne_space _ hcmd)]
  · have hDne : (restL.reverse ++ [' ']).dropWhile jsWs ≠ [] := by
      intro he
      rw [he] at hD
      exact hD rfl
    have hDlast : ((restL.reverse ++ [' ']).dropWhile jsWs).getLast? = some ' ' := by
      obtain ⟨t, ht⟩ := List.dropWhile_suffix (l := restL.reverse ++ [' ']) jsWs
      rw [← List.getLast?_append_of_ne_nil t hDne, ht, List.getLast?_concat]
    rcases hDrev : ((restL.reverse ++ [' ']).dropWhile jsWs).reverse with - | ⟨d, ds⟩
    · rw [List.reverse_eq_nil_iff] at hDrev
      exact absurd hDrev hDne
    · have hd : d = ' ' := by
        have h3 := List.head?_reverse ((restL.reverse ++ [' ']).dropWhile jsWs)
        rw [hDrev, hDlast] at h3
        rw [List.head?_cons, Option.some.injEq] at h3
        exact h3
      subst hd
      have htr : trimL (cmdL ++ ' ' :: restL) = cmdL ++ ' ' :: ds := by
        unfold trimL
        rw [hdw1, hrev, List.dropWhile_append, if_neg hD, List.reverse_append, hDrev,
          List.reverse_reverse]
      refine ⟨String.mk (trimL ds), ?_⟩
      show (match (trimL (cmdL ++ ' ' :: restL)).span (fun c => c != ' ') with
        | (cmd, []) => (String.mk cmd, "")
        | (cmd, _ :: rest) => (String.mk cmd, String.mk (trimL rest))) =
        (String.mk cmdL, String.mk (trimL ds))
      rw [htr, List.span_eq_take_drop,
        takeWhile_until _ _ _ (cmd_nonws_ne_space _ hcmd) (by decide),
        dropWhile_until _ _ _ (cmd_nonws_ne_space _ hcmd) (by decide)]

theorem parseLineRaw_fst (s : PState) (w cmdL restL : List Char) (n : Nat)
    (hw : ∀ c ∈ w, jsWs c = true) (hne : cmdL ≠ []) (hcmd : ∀ c ∈ cmdL, jsWs c = false) :
    ∃ a, CueParser.parseLineRaw s (String.mk (w ++ (cmdL ++ ' ' :: restL))) n =
      CueParser.dispatch s (String.mk cmdL) a
        (String.mk (w ++ (cmdL ++ ' ' :: restL))) n := by
  unfold CueParser.parseLineRaw
  have hnemp : ¬ jsTrim (String.mk (w ++ (cmdL ++ ' ' :: restL))) = "" := by
    intro he
    rw [str_eq_empty_iff] at he
    have he2 : trimL (w ++ (cmdL ++ ' ' :: restL)) = [] := he
    rcases cmdL with - | ⟨c0, cl⟩
    · exact absurd rfl hne
    · exact trimL_ne_nil _ c0 (by simp) (hcmd c0 (List.mem_cons_self _ _)) he2
  rw [if_neg hnemp]
  obtain ⟨a, ha⟩ := parseCommand_fst cmdL restL hne hcmd
  have hpc : CueParser.parseCommand (jsTrim (String.mk (w ++ (cmdL ++ ' ' :: restL)))) =
      (String.mk cmdL, a) := by
    have h1 : jsTrim (String.mk (w ++ (cmdL ++ ' ' :: restL))) =
        String.mk (trimL (w ++ (cmdL ++ ' ' :: restL))) := rfl
    rw [h1, parseCommand_trim, parseCommand_wsPre w _ hw, ha]
  rw [hpc]
  exact ⟨a, rfl⟩


theorem mem_of_head? {l : List Char} {c : Char} (h : l.head? = some c) : c ∈ l := by
  rcases l with - | ⟨x, xs⟩
  · exact absurd h (by simp)
  · rw [List.head?_cons, Option.some.injEq] at h
    subst h
    exact List.mem_cons_self _ _

theorem head_nonws_of_append (A B : List Char) (hA : ∀ c ∈ A, jsWs c = false) (hne : A ≠ []) :
    ∀ c, (A ++ B).head? = some c → jsWs c = false := by
  intro c hc
  rcases A with - | ⟨a, as⟩
  · exact absurd rfl hne
  · rw [List.cons_append, List.head?_cons, Option.some.injEq] at hc
    subst hc
    exact hA _ (List.mem_cons_self _ _)

theorem pad_nonws (num : Nat) : ∀ c ∈ (padStart2 (natToString num)).data, jsWs c = false :=
  fun c hc => jsWs_of_digit c
    (padStart2_digits (natToString num) (fun c2 hc2 => natToDec_digits num c2 hc2) c hc)

theorem step_trackLine (s : PState) (num : Nat) (m : TrackMode) (n : Nat)
    (h1 : 1 ≤ num) (h2 : num ≤ 99) :
    CueParser.step s ("\t\tTRACK " ++ padStart2 (natToString num) ++ " " ++ m.str) n =
      { CueParser.commitCurrent s with currentTrack := some (blankTrack num m n) } := by
  have hAnws := pad_nonws num
  have hlast : ∀ c,
      ((padStart2 (natToString num)).data ++ ' ' :: m.str.data).getLast? = some c →
      jsWs c = false := by
    intro c hc
    rw [List.getLast?_append_of_ne_nil _ (by simp)] at hc
    rw [← List.singleton_append, List.getLast?_append_of_ne_nil _ (modeStr_ne_nil m)] at hc
    exact modeStr_nonws m c (List.mem_of_mem_getLast? hc)
  have hline : "\t\tTRACK " ++ padStart2 (natToString num) ++ " " ++ m.str =
      String.mk (['\t', '\t'] ++ ("TRACK".data ++ ' ' ::
        ((padStart2 (natToString num)).data ++ ' ' :: m.str.data))) := by
    apply str_ext
    show ((['\t', '\t', 'T', 'R', 'A', 'C', 'K', ' '] ++ (padStart2 (natToString num)).data) ++
        [' ']) ++ m.str.data =
      ['\t', '\t'] ++ (['T', 'R', 'A', 'C', 'K'] ++ ' ' ::
        ((padStart2 (natToString num)).data ++ ' ' :: m.str.data))
    simp [List.append_assoc]
  rw [hline]
  apply step_of_parseLineRaw
  rw [parseLineRaw_build s ['\t', '\t'] "TRACK".data _ n (by decide) (by decide) (by decide)
    hlast]
  rw [show String.mk "TRACK".data = "TRACK" from rfl, dispatch_TRACK]
  have hdw : ((padStart2 (natToString num)).data ++ ' ' :: m.str.data).dropWhile jsWs =
      (padStart2 (natToString num)).data ++ ' ' :: m.str.data :=
    dropWhile_head_nonws _ (head_nonws_of_append _ _ hAnws (padStart2_ne_nil _))
  rw [hdw]
  unfold CueParser.handleTrack
  have hjt : (jsTrim (String.mk ((padStart2 (natToString num)).data ++ ' ' :: m.str.data))).data =
      (padStart2 (natToString num)).data ++ ' ' :: m.str.data := by
    show trimL _ = _
    apply trimL_eq_self
    · exact head_nonws_of_append _ _ hAnws (padStart2_ne_nil _)
    · exact hlast
  rw [hjt]
  have hsw : splitWs ((padStart2 (natToString num)).data ++ ' ' :: m.str.data) =
      [(padStart2 (natToString num)).data, m.str.data] := by
    rw [splitWs_sep _ _ hAnws (modeStr_ne_nil m)
      (fun c hc => modeStr_nonws m c (mem_of_head? hc))]
    rw [splitWs_nows _ (modeStr_nonws m)]
  rw [hsw]
  split
  case _ p0 p1 rest heq =>
    injection heq with e1 e2
    injection e2 with e2 e3
    subst e1
    subst e2
    split
    case _ heq2 =>
      rw [parseIntL_pad num] at heq2
      exact nomatch heq2
    case _ tn heq2 =>
      rw [parseIntL_pad num] at heq2
      injection heq2 with e4
      subst e4
      rw [if_neg (by simp only [Bool.or_eq_true, decide_eq_true_eq]; omega)]
      split
      case _ heq3 =>
        rw [trackModeOf?_str m] at heq3
        exact nomatch heq3
      case _ mode2 heq3 =>
        rw [trackModeOf?_str m] at heq3
        injection heq3 with e5
        subst e5
        rw [show ((num : Int)).toNat = num from Int.toNat_natCast num]
  case _ hne =>
    exfalso
    exact hne (padStart2 (natToString num)).data m.str.data [] rfl


theorem qrest_last (v : String) :
    ∀ c, (('"' :: ((escapeString v).data ++ ['"'])) : List Char).getLast? = some c →
      jsWs c = false := by
  intro c hc
  rw [← List.cons_append, List.getLast?_concat] at hc
  injection hc with e
  subst e
  decide

theorem qrest_dropWhile (v : String) :
    (('"' :: ((escapeString v).data ++ ['"'])) : List Char).dropWhile jsWs =
      '"' :: ((escapeString v).data ++ ['"']) :=
  dropWhile_head_nonws _ (by
    intro c hc
    rw [List.head?_cons, Option.some.injEq] at hc
    subst hc
    decide)

theorem parseLineRaw_qline (s : PState) (w cmdL : List Char) (v : String) (n : Nat)
    (hw : ∀ c ∈ w, jsWs c = true) (hne : cmdL ≠ []) (hcmd : ∀ c ∈ cmdL, jsWs c = false) :
    CueParser.parseLineRaw s
        (String.mk (w ++ (cmdL ++ ' ' :: ('"' :: ((escapeString v).data ++ ['"']))))) n =
      CueParser.dispatch s (String.mk cmdL)
        (String.mk ('"' :: ((escapeString v).data ++ ['"'])))
        (String.mk (w ++ (cmdL ++ ' ' :: ('"' :: ((escapeString v).data ++ ['"']))))) n := by
  rw [parseLineRaw_build s w cmdL _ n hw hne hcmd (qrest_last v), qrest_dropWhile v]

theorem parseQuoted_escaped (v : String) (hq : ∀ c ∈ v.data, c ≠ '"') :
    CueParser.parseQuotedString (String.mk ('"' :: ((escapeString v).data ++ ['"']))) = v := by
  rw [parseQuotedString_quoted]
  show String.mk (escL v.data) = v
  rw [escL_id v.data hq]

theorem line_q3_ARRANGER (v : String) :
    ("\t\t\tARRANGER" ++ " \"" ++ escapeString v ++ "\"") =
      String.mk (['\t', '\t', '\t'] ++ ("ARRANGER".data ++ ' ' ::
        ('"' :: ((escapeString v).data ++ ['"'])))) := by
  apply str_ext
  show ((['\t', '\t', '\t', 'A', 'R', 'R', 'A', 'N', 'G', 'E', 'R', ' ', '"'] ++ (escapeString v).data) ++ ['"']) =
    ['\t', '\t', '\t'] ++ (['A', 'R', 'R', 'A', 'N', 'G', 'E', 'R'] ++ ' ' :: ('"' :: ((escapeString v).data ++ ['"'])))
  simp [List.append_assoc]

theorem line_q3_COMPOSER (v : String) :
    ("\t\t\tCOMPOSER" ++ " \"" ++ escapeString v ++ "\"") =
      String.mk (['\t', '\t', '\t'] ++ ("COMPOSER".data ++ ' ' ::
        ('"' :: ((escapeString v).data ++ ['"'])))) := by
  apply str_ext
  show ((['\t', '\t', '\t', 'C', 'O', 'M', 'P', 'O', 'S', 'E', 'R', ' ', '"'] ++ (escapeString v).data) ++ ['"']) =
    ['\t', '\t', '\t'] ++ (['C', 'O', 'M', 'P', 'O', 'S', 'E', 'R'] ++ ' ' :: ('"' :: ((escapeString v).data ++ ['"'])))
  simp [List.append_assoc]

theorem line_q3_MESSAGE (v : String) :
    ("\t\t\tMESSAGE" ++ " \"" ++ escapeString v ++ "\"") =
      String.mk (['\t', '\t', '\t'] ++ ("MESSAGE".data ++ ' ' ::
        ('"' :: ((escapeString v).data ++ ['"'])))) := by
  apply str_ext
  show ((['\t', '\t', '\t', 'M', 'E', 'S', 'S', 'A', 'G', 'E', ' ', '"'] ++ (escapeString v).data) ++ ['"']) =
    ['\t', '\t', '\t'] ++ (['M', 'E', 'S', 'S', 'A', 'G', 'E'] ++ ' ' :: ('"' :: ((escapeString v).data ++ ['"'])))
  simp [List.append_assoc]

theorem line_q3_PERFORMER (v : String) :
    ("\t\t\tPERFORMER" ++ " \"" ++ escapeString v ++ "\"") =
      String.mk (['\t', '\t', '\t'] ++ ("PERFORMER".data ++ ' ' ::
        ('"' :: ((escapeString v).data ++ ['"'])))) := by
  apply str_ext
  show ((['\t', '\t', '\t', 'P', 'E', 'R', 'F', 'O', 'R', 'M', 'E', 'R', ' ', '"'] ++ (escapeString v).data) ++ ['"']) =
    ['\t', '\t', '\t'] ++ (['P', 'E', 'R', 'F', 'O', 'R', 'M', 'E', 'R'] ++ ' ' :: ('"' :: ((escapeString v).data ++ ['"'])))
  simp [List.append_assoc]

theorem line_q3_SONGWRITER (v : String) :
    ("\t\t\tSONGWRITER" ++ " \"" ++ escapeString v ++ "\"") =
      String.mk (['\t', '\t', '\t'] ++ ("SONGWRITER".data ++ ' ' ::
        ('"' :: ((escapeString v).data ++ ['"'])))) := by
  apply str_ext
  show ((['\t', '\t', '\t', 'S', 'O', 'N', 'G', 'W', 'R', 'I', 'T', 'E', 'R', ' ', '"'] ++ (escapeString v).data) ++ ['"']) =
    ['\t', '\t', '\t'] ++ (['S', 'O', 'N', 'G', 'W', 'R', 'I', 'T', 'E', 'R'] ++ ' ' :: ('"' :: ((escapeString v).data ++ ['"'])))
  simp [List.append_assoc]

theorem line_q3_TITLE (v : String) :
    ("\t\t\tTITLE" ++ " \"" ++ escapeString v ++ "\"") =
      String.mk (['\t', '\t', '\t'] ++ ("TITLE".data ++ ' ' ::
        ('"' :: ((escapeString v).data ++ ['"'])))) := by
  apply str_ext
  show ((['\t', '\t', '\t', 'T', 'I', 'T', 'L', 'E', ' ', '"'] ++ (escapeString v).data) ++ ['"']) =
    ['\t', '\t', '\t'] ++ (['T', 'I', 'T', 'L', 'E'] ++ ' ' :: ('"' :: ((escapeString v).data ++ ['"'])))
  simp [List.append_assoc]

theorem line_q0_TITLE (v : String) :
    ("TITLE" ++ " \"" ++ escapeString v ++ "\"") =
      String.mk (([] : List Char) ++ ("TITLE".data ++ ' ' ::
        ('"' :: ((escapeString v).data ++ ['"'])))) := by
  apply str_ext
  show ((['T', 'I', 'T', 'L', 'E', ' ', '"'] ++ (escapeString v).data) ++ ['"']) =
    ([] : List Char) ++ (['T', 'I', 'T', 'L', 'E'] ++ ' ' :: ('"' :: ((escapeString v).data ++ ['"'])))
  simp [List.append_assoc]

theorem line_q0_PERFORMER (v : String) :
    ("PERFORMER" ++ " \"" ++ escapeString v ++ "\"") =
      String.mk (([] : List Char) ++ ("PERFORMER".data ++ ' ' ::
        ('"' :: ((escapeString v).data ++ ['"'])))) := by
  apply str_ext
  show ((['P', 'E', 'R', 'F', 'O', 'R', 'M', 'E', 'R', ' ', '"'] ++ (escapeString v).data) ++ ['"']) =
    ([] : List Char) ++ (['P', 'E', 'R', 'F', 'O', 'R', 'M', 'E', 'R'] ++ ' ' :: ('"' :: ((escapeString v).data ++ ['"'])))
  simp [List.append_assoc]

theorem line_q0_SONGWRITER (v : String) :
    ("SONGWRITER" ++ " \"" ++ escapeString v ++ "\"") =
      String.mk (([] : List Char) ++ ("SONGWRITER".data ++ ' ' ::
        ('"' :: ((escapeString v).data ++ ['"'])))) := by
  apply str_ext
  show ((['S', 'O', 'N', 'G', 'W', 'R', 'I', 'T', 'E', 'R', ' ', '"'] ++ (escapeString v).data) ++ ['"']) =
    ([] : List Char) ++ (['S', 'O', 'N', 'G', 'W', 'R', 'I', 'T', 'E', 'R'] ++ ' ' :: ('"' :: ((escapeString v).data ++ ['"'])))
  simp [List.append_assoc]

theorem line_q0_COMPOSER (v : String) :
    ("COMPOSER" ++ " \"" ++ escapeString v ++ "\"") =
      String.mk (([] : List Char) ++ ("COMPOSER".data ++ ' ' ::
        ('"' :: ((escapeString v).data ++ ['"'])))) := by
  apply str_ext
  show ((['C', 'O', 'M', 'P', 'O', 'S', 'E', 'R', ' ', '"'] ++ (escapeString v).data) ++ ['"']) =
    ([] : List Char) ++ (['C', 'O', 'M', 'P', 'O', 'S', 'E', 'R'] ++ ' ' :: ('"' :: ((escapeString v).data ++ ['"'])))
  simp [List.append_assoc]

theorem line_q0_ARRANGER (v : String) :
    ("ARRANGER" ++ " \"" ++ escapeString v ++ "\"") =
      String.mk (([] : List Char) ++ ("ARRANGER".data ++ ' ' ::
        ('"' :: ((escapeString v).data ++ ['"'])))) := by
  apply str_ext
  show ((['A', 'R', 'R', 'A', 'N', 'G', 'E', 'R', ' ', '"'] ++ (escapeString v).data) ++ ['"']) =
    ([] : List Char) ++ (['A', 'R', 'R', 'A', 'N', 'G', 'E', 'R'] ++ ' ' :: ('"' :: ((escapeString v).data ++ ['"'])))
  simp [List.append_assoc]

theorem line_q0_MESSAGE (v : String) :
    ("MESSAGE" ++ " \"" ++ escapeString v ++ "\"") =
      String.mk (([] : List Char) ++ ("MESSAGE".data ++ ' ' ::
        ('"' :: ((escapeString v).data ++ ['"'])))) := by
  apply str_ext
  show ((['M', 'E', 'S', 'S', 'A', 'G', 'E', ' ', '"'] ++ (escapeString v).data) ++ ['"']) =
    ([] : List Char) ++ (['M', 'E', 'S', 'S', 'A', 'G', 'E'] ++ ' ' :: ('"' :: ((escapeString v).data ++ ['"'])))
  simp [List.append_assoc]

theorem line_q0_DISCID (v : String) :
    ("DISC_ID" ++ " \"" ++ escapeString v ++ "\"") =
      String.mk (([] : List Char) ++ ("DISC_ID".data ++ ' ' ::
        ('"' :: ((escapeString v).data ++ ['"'])))) := by
  apply str_ext
  show ((['D', 'I', 'S', 'C', '_', 'I', 'D', ' ', '"'] ++ (escapeString v).data) ++ ['"']) =
    ([] : List Char) ++ (['D', 'I', 'S', 'C', '_', 'I', 'D'] ++ ' ' :: ('"' :: ((escapeString v).data ++ ['"'])))
  simp [List.append_assoc]

theorem line_q0_GENRE (v : String) :
    ("GENRE" ++ " \"" ++ escapeString v ++ "\"") =
      String.mk (([] : List Char) ++ ("GENRE".data ++ ' ' ::
        ('"' :: ((escapeString v).data ++ ['"'])))) := by
  apply str_ext
  show ((['G', 'E', 'N', 'R', 'E', ' ', '"'] ++ (escapeString v).data) ++ ['"']) =
    ([] : List Char) ++ (['G', 'E', 'N', 'R', 'E'] ++ ' ' :: ('"' :: ((escapeString v).data ++ ['"'])))
  simp [List.append_assoc]

theorem line_q0_UPCEAN (v : String) :
    ("UPC_EAN" ++ " \"" ++ escapeString v ++ "\"") =
      String.mk (([] : List Char) ++ ("UPC_EAN".data ++ ' ' ::
        ('"' :: ((escapeString v).data ++ ['"'])))) := by
  apply str_ext
  show ((['U', 'P', 'C', '_', 'E', 'A', 'N', ' ', '"'] ++ (escapeString v).data) ++ ['"']) =
    ([] : List Char) ++ (['U', 'P', 'C', '_', 'E', 'A', 'N'] ++ ' ' :: ('"' :: ((escapeString v).data ++ ['"'])))
  simp [List.append_assoc]

theorem step_titleLine (s : PState) (u : Track) (v : String) (n : Nat)
    (hu : s.currentTrack = some u) (hq : ∀ c ∈ v.data, c ≠ '"') :
    CueParser.step s ("\t\t\tTITLE" ++ " \"" ++ escapeString v ++ "\"") n =
      { s with currentTrack := some { u with title := some v } } := by
  rw [line_q3_TITLE v]
  apply step_of_parseLineRaw
  rw [parseLineRaw_qline s ['\t', '\t', '\t'] "TITLE".data v n (by decide) (by decide)
    (by decide)]
  rw [show String.mk "TITLE".data = "TITLE" from rfl, dispatch_TITLE]
  unfold CueParser.handleTitle
  rw [hu]
  rw [parseQuoted_escaped v hq]

theorem step_performerLine (s : PState) (u : Track) (v : String) (n : Nat)
    (hu : s.currentTrack = some u) (hq : ∀ c ∈ v.data, c ≠ '"') :
    CueParser.step s ("\t\t\tPERFORMER" ++ " \"" ++ escapeString v ++ "\"") n =
      { s with currentTrack := some { u with performer := some v } } := by
  rw [line_q3_PERFORMER v]
  apply step_of_parseLineRaw
  rw [parseLineRaw_qline s ['\t', '\t', '\t'] "PERFORMER".data v n (by decide) (by decide)
    (by decide)]
  rw [show String.mk "PERFORMER".data = "PERFORMER" from rfl, dispatch_PERFORMER]
  unfold CueParser.handlePerformer
  rw [hu]
  rw [parseQuoted_escaped v hq]

theorem tstep_songwriterLine (v : String) :
    TStep ("\t\t\tSONGWRITER" ++ " \"" ++ escapeString v ++ "\"") := by
  intro s u n hu
  refine ⟨{ u with songwriter := some (CueParser.parseQuotedString
    (String.mk ('"' :: ((escapeString v).data ++ ['"'])))) }, s.warnings, ?_,
    rfl, rfl, rfl, rfl⟩
  rw [line_q3_SONGWRITER v]
  apply step_of_parseLineRaw
  rw [parseLineRaw_qline s ['\t', '\t', '\t'] "SONGWRITER".data v n (by decide) (by decide)
    (by decide)]
  rw [show String.mk "SONGWRITER".data = "SONGWRITER" from rfl, dispatch_SONGWRITER]
  unfold CueParser.handleSongwriter
  rw [hu]

theorem tstep_composerLine (v : String) :
    TStep ("\t\t\tCOMPOSER" ++ " \"" ++ escapeString v ++ "\"") := by
  intro s u n hu
  refine ⟨{ u with composer := some (CueParser.parseQuotedString
    (String.mk ('"' :: ((escapeString v).data ++ ['"'])))) }, s.warnings, ?_,
    rfl, rfl, rfl, rfl⟩
  rw [line_q3_COMPOSER v]
  apply step_of_parseLineRaw
  rw [parseLineRaw_qline s ['\t', '\t', '\t'] "COMPOSER".data v n (by decide) (by decide)
    (by decide)]
  rw [show String.mk "COMPOSER".data = "COMPOSER" from rfl, dispatch_COMPOSER]
  unfold CueParser.handleComposer
  rw [hu]

theorem tstep_arrangerLine (v : String) :
    TStep ("\t\t\tARRANGER" ++ " \"" ++ escapeString v ++ "\"") := by
  intro s u n hu
  refine ⟨{ u with arranger := some (CueParser.parseQuotedString
    (String.mk ('"' :: ((escapeString v).data ++ ['"'])))) }, s.warnings, ?_,
    rfl, rfl, rfl, rfl⟩
  rw [line_q3_ARRANGER v]
  apply step_of_parseLineRaw
  rw [parseLineRaw_qline s ['\t', '\t', '\t'] "ARRANGER".data v n (by decide) (by decide)
    (by decide)]
  rw [show String.mk "ARRANGER".data = "ARRANGER" from rfl, dispatch_ARRANGER]
  unfold CueParser.handleArranger
  rw [hu]

theorem tstep_messageLine (v : String) :
    TStep ("\t\t\tMESSAGE" ++ " \"" ++ escapeString v ++ "\"") := by
  intro s u n hu
  refine ⟨{ u with message := some (CueParser.parseQuotedString
    (String.mk ('"' :: ((escapeString v).data ++ ['"'])))) }, s.warnings, ?_,
    rfl, rfl, rfl, rfl⟩
  rw [line_q3_MESSAGE v]
  apply step_of_parseLineRaw
  rw [parseLineRaw_qline s ['\t', '\t', '\t'] "MESSAGE".data v n (by decide) (by decide)
    (by decide)]
  rw [show String.mk "MESSAGE".data = "MESSAGE" from rfl, dispatch_MESSAGE]
  unfold CueParser.handleMessage
  rw [hu]

theorem gstep_titleLine (v : String) :
    GStep ("TITLE" ++ " \"" ++ escapeString v ++ "\"") := by
  intro s n hcur
  refine ⟨{ s.global with title := some (CueParser.parseQuotedString
    (String.mk ('"' :: ((escapeString v).data ++ ['"'])))) }, s.warnings, ?_⟩
  rw [line_q0_TITLE v]
  apply step_of_parseLineRaw
  rw [parseLineRaw_qline s [] "TITLE".data v n (by simp) (by decide) (by decide)]
  rw [show String.mk "TITLE".data = "TITLE" from rfl, dispatch_TITLE]
  unfold CueParser.handleTitle
  rw [hcur]

theorem gstep_performerLine (v : String) :
    GStep ("PERFORMER" ++ " \"" ++ escapeString v ++ "\"") := by
  intro s n hcur
  refine ⟨{ s.global with performer := some (CueParser.parseQuotedString
    (String.mk ('"' :: ((escapeString v).data ++ ['"'])))) }, s.warnings, ?_⟩
  rw [line_q0_PERFORMER v]
  apply step_of_parseLineRaw
  rw [parseLineRaw_qline s [] "PERFORMER".data v n (by simp) (by decide) (by decide)]
  rw [show String.mk "PERFORMER".data = "PERFORMER" from rfl, dispatch_PERFORMER]
  unfold CueParser.handlePerformer
  rw [hcur]

theorem gstep_songwriterLine (v : String) :
    GStep ("SONGWRITER" ++ " \"" ++ escapeString v ++ "\"") := by
  intro s n hcur
  refine ⟨{ s.global with songwriter := some (CueParser.parseQuotedString
    (String.mk ('"' :: ((escapeString v).data ++ ['"'])))) }, s.warnings, ?_⟩
  rw [line_q0_SONGWRITER v]
  apply step_of_parseLineRaw
  rw [parseLineRaw_qline s [] "SONGWRITER".data v n (by simp) (by decide) (by decide)]
  rw [show String.mk "SONGWRITER".data = "SONGWRITER" from rfl, dispatch_SONGWRITER]
  unfold CueParser.handleSongwriter
  rw [hcur]

theorem gstep_composerLine (v : String) :
    GStep ("COMPOSER" ++ " \"" ++ escapeString v ++ "\"") := by
  intro s n hcur
  refine ⟨{ s.global with composer := some (CueParser.parseQuotedString
    (String.mk ('"' :: ((escapeString v).data ++ ['"'])))) }, s.warnings, ?_⟩
  rw [line_q0_COMPOSER v]
  apply step_of_parseLineRaw
  rw [parseLineRaw_qline s [] "COMPOSER".data v n (by simp) (by decide) (by decide)]
  rw [show String.mk "COMPOSER".data = "COMPOSER" from rfl, dispatch_COMPOSER]
  unfold CueParser.handleComposer
  rw [hcur]

theorem gstep_arrangerLine (v : String) :
    GStep ("ARRANGER" ++ " \"" ++ escapeString v ++ "\"") := by
  intro s n hcur
  refine ⟨{ s.global with arranger := some (CueParser.parseQuotedString
    (String.mk ('"' :: ((escapeString v).data ++ ['"'])))) }, s.warnings, ?_⟩
  rw [line_q0_ARRANGER v]
  apply step_of_parseLineRaw
  rw [parseLineRaw_qline s [] "ARRANGER".data v n (by simp) (by decide) (by decide)]
  rw [show String.mk "ARRANGER".data = "ARRANGER" from rfl, dispatch_ARRANGER]
  unfold CueParser.handleArranger
  rw [hcur]

theorem gstep_messageLine (v : String) :
    GStep ("MESSAGE" ++ " \"" ++ escapeString v ++ "\"") := by
  intro s n hcur
  refine ⟨{ s.global with message := some (CueParser.parseQuotedString
    (String.mk ('"' :: ((escapeString v).data ++ ['"'])))) }, s.warnings, ?_⟩
  rw [line_q0_MESSAGE v]
  apply step_of_parseLineRaw
  rw [parseLineRaw_qline s [] "MESSAGE".data v n (by simp) (by decide) (by decide)]
  rw [show String.mk "MESSAGE".data = "MESSAGE" from rfl, dispatch_MESSAGE]
  unfold CueParser.handleMessage
  rw [hcur]

theorem gstep_discIdLine (v : String) :
    GStep ("DISC_ID" ++ " \"" ++ escapeString v ++ "\"") := by
  intro s n hcur
  refine ⟨{ s.global with discId := some (CueParser.parseQuotedString
    (String.mk ('"' :: ((escapeString v).data ++ ['"'])))) }, s.warnings, ?_⟩
  rw [line_q0_DISCID v]
  apply step_of_parseLineRaw
  rw [parseLineRaw_qline s [] "DISC_ID".data v n (by simp) (by decide) (by decide)]
  rw [show String.mk "DISC_ID".data = "DISC_ID" from rfl, dispatch_DISCID]
  rw [← hcur]
  rfl

theorem gstep_genreLine (v : String) :
    GStep ("GENRE" ++ " \"" ++ escapeString v ++ "\"") := by
  intro s n hcur
  refine ⟨{ s.global with genre := some (CueParser.parseQuotedString
    (String.mk ('"' :: ((escapeString v).data ++ ['"'])))) }, s.warnings, ?_⟩
  rw [line_q0_GENRE v]
  apply step_of_parseLineRaw
  rw [parseLineRaw_qline s [] "GENRE".data v n (by simp) (by decide) (by decide)]
  rw [show String.mk "GENRE".data = "GENRE" from rfl, dispatch_GENRE]
  rw [← hcur]
  rfl

theorem gstep_upcEanLine (v : String) :
    GStep ("UPC_EAN" ++ " \"" ++ escapeString v ++ "\"") := by
  intro s n hcur
  refine ⟨{ s.global with upcEan := some (CueParser.parseQuotedString
    (String.mk ('"' :: ((escapeString v).data ++ ['"'])))) }, s.warnings, ?_⟩
  rw [line_q0_UPCEAN v]
  apply step_of_parseLineRaw
  rw [parseLineRaw_qline s [] "UPC_EAN".data v n (by simp) (by decide) (by decide)]
  rw [show String.mk "UPC_EAN".data = "UPC_EAN" from rfl, dispatch_UPCEAN]
  rw [← hcur]
  rfl



theorem tstep_remLine (r : String) : TStep ("\t\t\tREM " ++ r) := by
  intro s u n hu
  have hline : ("\t\t\tREM " ++ r) =
      String.mk (['\t', '\t', '\t'] ++ ("REM".data ++ ' ' :: r.data)) := by
    apply str_ext
    show ['\t', '\t', '\t', 'R', 'E', 'M', ' '] ++ r.data =
      ['\t', '\t', '\t'] ++ (['R', 'E', 'M'] ++ ' ' :: r.data)
    simp
  obtain ⟨a, ha⟩ := parseLineRaw_fst s ['\t', '\t', '\t'] "REM".data r.data n
    (by decide) (by decide) (by decide)
  refine ⟨{ u with remarks := some (u.remarks.getD [] ++ [a]) }, s.warnings, ?_,
    rfl, rfl, rfl, rfl⟩
  rw [hline]
  apply step_of_parseLineRaw
  rw [ha, show String.mk "REM".data = "REM" from rfl, dispatch_REM]
  unfold CueParser.handleRemark
  rw [hu]

theorem gstep_remLine (r : String) : GStep ("REM " ++ r) := by
  intro s n hcur
  have hline : ("REM " ++ r) = String.mk (([] : List Char) ++ ("REM".data ++ ' ' :: r.data)) := by
    apply str_ext
    show ['R', 'E', 'M', ' '] ++ r.data = ([] : List Char) ++ (['R', 'E', 'M'] ++ ' ' :: r.data)
    simp
  obtain ⟨a, ha⟩ := parseLineRaw_fst s [] "REM".data r.data n (by simp) (by decide) (by decide)
  refine ⟨{ s.global with remarks := some (s.global.remarks.getD [] ++ [a]) }, s.warnings, ?_⟩
  rw [hline]
  apply step_of_parseLineRaw
  rw [ha, show String.mk "REM".data = "REM" from rfl, dispatch_REM]
  unfold CueParser.handleRemark
  rw [hcur]

theorem tstep_isrcLine (i : String) : TStep ("\t\t\tISRC " ++ i) := by
  intro s u n hu
  have hline : ("\t\t\tISRC " ++ i) =
      String.mk (['\t', '\t', '\t'] ++ ("ISRC".data ++ ' ' :: i.data)) := by
    apply str_ext
    show ['\t', '\t', '\t', 'I', 'S', 'R', 'C', ' '] ++ i.data =
      ['\t', '\t', '\t'] ++ (['I', 'S', 'R', 'C'] ++ ' ' :: i.data)
    simp
  obtain ⟨a, ha⟩ := parseLineRaw_fst s ['\t', '\t', '\t'] "ISRC".data i.data n
    (by decide) (by decide) (by decide)
  by_cases hsh : CueParser.isIsrcShape (jsTrim a) = true
  · refine ⟨{ u with isrc := some (jsTrim a) }, s.warnings, ?_, rfl, rfl, rfl, rfl⟩
    rw [hline]
    apply step_of_parseLineRaw
    rw [ha, show String.mk "ISRC".data = "ISRC" from rfl, dispatch_ISRC]
    unfold CueParser.handleIsrc
    rw [hu]
    split
    case _ heq => exact nomatch heq
    case _ t heq =>
      injection heq with e
      subst e
      rw [if_pos hsh]
  · refine ⟨{ u with isrc := some (jsTrim a) }, s.warnings ++
      [⟨n, "ISRC format may be invalid: " ++ jsTrim a ++ ". Expected format: CCOOOOYYSSSSS",
        "ISRC " ++ a⟩], ?_, rfl, rfl, rfl, rfl⟩
    rw [hline]
    apply step_of_parseLineRaw
    rw [ha, show String.mk "ISRC".data = "ISRC" from rfl, dispatch_ISRC]
    unfold CueParser.handleIsrc
    rw [hu]
    split
    case _ heq => exact nomatch heq
    case _ t heq =>
      injection heq with e
      subst e
      rw [if_neg hsh]

theorem fmt_last_nonws (t : MSFTime) :
    ∀ c, (fmtTrackTime t).data.getLast? = some c → jsWs c = false := by
  intro c hc
  rw [fmtTrackTime_data] at hc
  rw [List.getLast?_append_of_ne_nil _ (by simp)] at hc
  rw [← List.singleton_append, List.getLast?_append_of_ne_nil _ (by simp)] at hc
  rw [List.getLast?_append_of_ne_nil _ (by simp)] at hc
  rw [← List.singleton_append,
    List.getLast?_append_of_ne_nil _ (padStart2_ne_nil (natToString t.frames))] at hc
  exact jsWs_of_digit c (padStart2_digits _ (fun c2 hc2 => natToDec_digits _ c2 hc2) c
    (List.mem_of_mem_getLast? hc))

theorem fmt_head_nonws (t : MSFTime) :
    ∀ c, (fmtTrackTime t).data.head? = some c → jsWs c = false := by
  intro c hc
  rw [fmtTrackTime_data] at hc
  exact head_nonws_of_append _ _ (pad_nonws t.minutes) (padStart2_ne_nil _) c hc

theorem fmt_dropWhile (t : MSFTime) :
    (fmtTrackTime t).data.dropWhile jsWs = (fmtTrackTime t).data :=
  dropWhile_head_nonws _ (fmt_head_nonws t)

theorem fmt_ne_nil (t : MSFTime) : (fmtTrackTime t).data ≠ [] := by
  rw [fmtTrackTime_data]
  simp

theorem jsTrim_fmt_str (t : MSFTime) :
    jsTrim (String.mk (fmtTrackTime t).data) = fmtTrackTime t := by
  apply str_ext
  show trimL (fmtTrackTime t).data = (fmtTrackTime t).data
  exact jsTrim_fmtTrackTime t

theorem tstep_pregapLine (p : MSFTime) (hp : GoodTime p) :
    TStep ("\t\t\tPREGAP " ++ fmtTrackTime p) := by
  intro s u n hu
  have hline : ("\t\t\tPREGAP " ++ fmtTrackTime p) =
      String.mk (['\t', '\t', '\t'] ++ ("PREGAP".data ++ ' ' :: (fmtTrackTime p).data)) := by
    apply str_ext
    show ['\t', '\t', '\t', 'P', 'R', 'E', 'G', 'A', 'P', ' '] ++ (fmtTrackTime p).data =
      ['\t', '\t', '\t'] ++ (['P', 'R', 'E', 'G', 'A', 'P'] ++ ' ' :: (fmtTrackTime p).data)
    simp
  refine ⟨{ u with pregap := some p }, s.warnings, ?_, rfl, rfl, rfl, rfl⟩
  rw [hline]
  apply step_of_parseLineRaw
  rw [parseLineRaw_build s ['\t', '\t', '\t'] "PREGAP".data _ n (by decide) (by decide)
    (by decide) (fmt_last_nonws p)]
  rw [show String.mk "PREGAP".data = "PREGAP" from rfl, dispatch_PREGAP, fmt_dropWhile p]
  unfold CueParser.handlePregap
  rw [hu, jsTrim_fmt_str p, parseMSFTime_fmt p hp.1 hp.2]

theorem tstep_postgapLine (p : MSFTime) (hp : GoodTime p) :
    TStep ("\t\t\tPOSTGAP " ++ fmtTrackTime p) := by
  intro s u n hu
  have hline : ("\t\t\tPOSTGAP " ++ fmtTrackTime p) =
      String.mk (['\t', '\t', '\t'] ++ ("POSTGAP".data ++ ' ' :: (fmtTrackTime p).data)) := by
    apply str_ext
    show ['\t', '\t', '\t', 'P', 'O', 'S', 'T', 'G', 'A', 'P', ' '] ++ (fmtTrackTime p).data =
      ['\t', '\t', '\t'] ++ (['P', 'O', 'S', 'T', 'G', 'A', 'P'] ++ ' ' ::
        (fmtTrackTime p).data)
    simp
  refine ⟨{ u with postgap := some p }, s.warnings, ?_, rfl, rfl, rfl, rfl⟩
  rw [hline]
  apply step_of_parseLineRaw
  rw [parseLineRaw_build s ['\t', '\t', '\t'] "POSTGAP".data _ n (by decide) (by decide)
    (by decide) (fmt_last_nonws p)]
  rw [show String.mk "POSTGAP".data = "POSTGAP" from rfl, dispatch_POSTGAP, fmt_dropWhile p]
  unfold CueParser.handlePostgap
  rw [hu, jsTrim_fmt_str p, parseMSFTime_fmt p hp.1 hp.2]

theorem step_indexLine (s : PState) (u : Track) (i : TrackIndex) (n : Nat)
    (hu : s.currentTrack = some u) (hn99 : i.number ≤ 99) (ht : GoodTime i.time) :
    CueParser.step s
        ("\t\t\tINDEX " ++ padStart2 (natToString i.number) ++ " " ++ fmtTrackTime i.time) n =
      { s with currentTrack := some { u with indexes := some (u.indexes.getD [] ++ [i]) } } := by
  have hAnws := pad_nonws i.number
  have hlast : ∀ c,
      ((padStart2 (natToString i.number)).data ++ ' ' :: (fmtTrackTime i.time).data).getLast? =
        some c → jsWs c = false := by
    intro c hc
    rw [List.getLast?_append_of_ne_nil _ (by simp)] at hc
    rw [← List.singleton_append, List.getLast?_append_of_ne_nil _ (fmt_ne_nil i.time)] at hc
    exact fmt_last_nonws i.time c hc
  have hline : "\t\t\tINDEX " ++ padStart2 (natToString i.number) ++ " " ++ fmtTrackTime i.time =
      String.mk (['\t', '\t', '\t'] ++ ("INDEX".data ++ ' ' ::
        ((padStart2 (natToString i.number)).data ++ ' ' :: (fmtTrackTime i.time).data))) := by
    apply str_ext
    show ((['\t', '\t', '\t', 'I', 'N', 'D', 'E', 'X', ' '] ++
        (padStart2 (natToString i.number)).data) ++ [' ']) ++ (fmtTrackTime i.time).data =
      ['\t', '\t', '\t'] ++ (['I', 'N', 'D', 'E', 'X'] ++ ' ' ::
        ((padStart2 (natToString i.number)).data ++ ' ' :: (fmtTrackTime i.time).data))
    simp [List.append_assoc]
  rw [hline]
  apply step_of_parseLineRaw
  rw [parseLineRaw_build s ['\t', '\t', '\t'] "INDEX".data _ n (by decide) (by decide)
    (by decide) hlast]
  rw [show String.mk "INDEX".data = "INDEX" from rfl, dispatch_INDEX]
  have hdw : ((padStart2 (natToString i.number)).data ++ ' ' ::
      (fmtTrackTime i.time).data).dropWhile jsWs =
      (padStart2 (natToString i.number)).data ++ ' ' :: (fmtTrackTime i.time).data :=
    dropWhile_head_nonws _ (head_nonws_of_append _ _ hAnws (padStart2_ne_nil _))
  rw [hdw]
  unfold CueParser.handleIndex
  rw [hu]
  have hjt : (jsTrim (String.mk ((padStart2 (natToString i.number)).data ++ ' ' ::
      (fmtTrackTime i.time).data))).data =
      (padStart2 (natToString i.number)).data ++ ' ' :: (fmtTrackTime i.time).data := by
    show trimL _ = _
    apply trimL_eq_self
    · exact head_nonws_of_append _ _ hAnws (padStart2_ne_nil _)
    · exact hlast
  rw [hjt]
  have hsw : splitWs ((padStart2 (natToString i.number)).data ++ ' ' ::
      (fmtTrackTime i.time).data) =
      [(padStart2 (natToString i.number)).data, (fmtTrackTime i.time).data] := by
    rw [splitWs_sep _ _ hAnws (fmt_ne_nil i.time) (fmt_head_nonws i.time)]
    rw [splitWs_nows _ (fun c hc => by
      rcases fmtTrackTime_digit_colon i.time c hc with h1 | h1
      · exact jsWs_of_digit c h1
      · subst h1
        decide)]
  rw [hsw]
  split
  case _ heq => exact nomatch heq
  case _ t heq =>
    injection heq with e0
    subst e0
    split
    case _ p0 p1 rest heq1 =>
      injection heq1 with e1 e2
      injection e2 with e2 e3
      subst e1
      subst e2
      split
      case _ heq2 =>
        rw [parseIntL_pad i.number] at heq2
        exact nomatch heq2
      case _ idx heq2 =>
        rw [parseIntL_pad i.number] at heq2
        injection heq2 with e4
        subst e4
        rw [if_neg (by simp only [Bool.or_eq_true, decide_eq_true_eq]; omega)]
        rw [show String.mk (fmtTrackTime i.time).data = fmtTrackTime i.time from rfl,
          parseMSFTime_fmt i.time ht.1 ht.2]
        rw [show ((i.number : Int)).toNat = i.number from Int.toNat_natCast i.number]
    case _ hne =>
      exfalso
      exact hne (padStart2 (natToString i.number)).data (fmtTrackTime i.time).data [] rfl


theorem joinSep_sp_facts : ∀ (L : List String), L ≠ [] →
    (∀ x ∈ L, x.data ≠ [] ∧ ∀ c ∈ x.data, jsWs c = false) →
    (joinSep " " L).data ≠ [] ∧
      (∀ c, ((joinSep " " L).data).head? = some c → jsWs c = false) ∧
      (∀ c, ((joinSep " " L).data).getLast? = some c → jsWs c = false) := by
  intro L
  induction L with
  | nil => intro h; exact absurd rfl h
  | cons x xs ih =>
    intro hne0 hfacts
    rcases xs with - | ⟨y, ys⟩
    · refine ⟨(hfacts x (List.mem_cons_self _ _)).1, ?_, ?_⟩
      · intro c hc
        exact (hfacts x (List.mem_cons_self _ _)).2 c (mem_of_head? hc)
      · intro c hc
        exact (hfacts x (List.mem_cons_self _ _)).2 c (List.mem_of_mem_getLast? hc)
    · have hd : (joinSep " " (x :: y :: ys)).data =
          x.data ++ ' ' :: (joinSep " " (y :: ys)).data := by
        show (x ++ " " ++ joinSep " " (y :: ys)).data = _
        simp only [String.data_append]
        show (x.data ++ [' ']) ++ (joinSep " " (y :: ys)).data = _
        simp [List.append_assoc]
      obtain ⟨ihne, ihhd, ihlast⟩ := ih (by simp)
        (fun z hz => hfacts z (List.mem_cons_of_mem _ hz))
      refine ⟨by rw [hd]; simp, ?_, ?_⟩
      · intro c hc
        rw [hd] at hc
        exact head_nonws_of_append _ _ (hfacts x (List.mem_cons_self _ _)).2
          (hfacts x (List.mem_cons_self _ _)).1 c hc
      · intro c hc
        rw [hd, List.getLast?_append_of_ne_nil _ (by simp),
          ← List.singleton_append, List.getLast?_append_of_ne_nil _ ihne] at hc
        exact ihlast c hc

theorem splitWs_joinSep : ∀ (L : List String), L ≠ [] →
    (∀ x ∈ L, x.data ≠ [] ∧ ∀ c ∈ x.data, jsWs c = false) →
    splitWs (joinSep " " L).data = L.map String.data := by
  intro L
  induction L with
  | nil => intro h; exact absurd rfl h
  | cons x xs ih =>
    intro hne0 hfacts
    rcases xs with - | ⟨y, ys⟩
    · show splitWs x.data = [x.data]
      exact splitWs_nows _ (hfacts x (List.mem_cons_self _ _)).2
    · have hd : (joinSep " " (x :: y :: ys)).data =
          x.data ++ ' ' :: (joinSep " " (y :: ys)).data := by
        show (x ++ " " ++ joinSep " " (y :: ys)).data = _
        simp only [String.data_append]
        show (x.data ++ [' ']) ++ (joinSep " " (y :: ys)).data = _
        simp [List.append_assoc]
      obtain ⟨ihne, ihhd, -⟩ := joinSep_sp_facts (y :: ys) (by simp)
        (fun z hz => hfacts z (List.mem_cons_of_mem _ hz))
      rw [hd, splitWs_sep _ _ (hfacts x (List.mem_cons_self _ _)).2 ihne ihhd]
      rw [ih (by simp) (fun z hz => hfacts z (List.mem_cons_of_mem _ hz))]
      rfl

theorem parseFlags_strs : ∀ fl : List TrackFlag,
    CueParser.parseFlags (fl.map (fun f => f.str.data)) = Except.ok fl := by
  intro fl
  induction fl with
  | nil => rfl
  | cons f fs ih =>
    show CueParser.parseFlags (f.str.data :: fs.map (fun f => f.str.data)) = _
    unfold CueParser.parseFlags
    rw [trackFlagOf?_str f, ih]

theorem flag_tokens_facts (fl : List TrackFlag) :
    ∀ x ∈ fl.map TrackFlag.str, x.data ≠ [] ∧ ∀ c ∈ x.data, jsWs c = false := by
  intro x hx
  rw [List.mem_map] at hx
  obtain ⟨f, -, hf⟩ := hx
  subst hf
  exact ⟨flagStr_ne_nil f, flagStr_nonws f⟩

theorem tstep_flagsLine (fl : List TrackFlag) (hne : fl ≠ []) :
    TStep ("\t\t\tFLAGS " ++ joinSep " " (fl.map TrackFlag.str)) := by
  intro s u n hu
  have hmapne : fl.map TrackFlag.str ≠ [] := by
    intro h
    rw [List.map_eq_nil_iff] at h
    exact hne h
  obtain ⟨hjne, hjhd, hjlast⟩ := joinSep_sp_facts (fl.map TrackFlag.str) hmapne
    (flag_tokens_facts fl)
  have hline : ("\t\t\tFLAGS " ++ joinSep " " (fl.map TrackFlag.str)) =
      String.mk (['\t', '\t', '\t'] ++ ("FLAGS".data ++ ' ' ::
        (joinSep " " (fl.map TrackFlag.str)).data)) := by
    apply str_ext
    show ['\t', '\t', '\t', 'F', 'L', 'A', 'G', 'S', ' '] ++
        (joinSep " " (fl.map TrackFlag.str)).data =
      ['\t', '\t', '\t'] ++ (['F', 'L', 'A', 'G', 'S'] ++ ' ' ::
        (joinSep " " (fl.map TrackFlag.str)).data)
    simp
  refine ⟨{ u with flags := some fl }, s.warnings, ?_, rfl, rfl, rfl, rfl⟩
  rw [hline]
  apply step_of_parseLineRaw
  rw [parseLineRaw_build s ['\t', '\t', '\t'] "FLAGS".data _ n (by decide) (by decide)
    (by decide) hjlast]
  rw [show String.mk "FLAGS".data = "FLAGS" from rfl, dispatch_FLAGS]
  rw [dropWhile_head_nonws _ hjhd]
  unfold CueParser.handleFlags
  rw [hu]
  have hjt : (jsTrim (String.mk (joinSep " " (fl.map TrackFlag.str)).data)).data =
      (joinSep " " (fl.map TrackFlag.str)).data := by
    show trimL _ = _
    exact trimL_eq_self _ hjhd hjlast
  rw [hjt, splitWs_joinSep (fl.map TrackFlag.str) hmapne (flag_tokens_facts fl)]
  rw [show (fl.map TrackFlag.str).map String.data = fl.map (fun f => f.str.data) from by
    rw [List.map_map]; rfl]
  rw [parseFlags_strs fl]

theorem getLast?_cons_ne (a : Char) (l : List Char) (hne : l ≠ []) :
    (a :: l).getLast? = l.getLast? := by
  rw [← List.singleton_append, List.getLast?_append_of_ne_nil _ hne]

theorem parseFileArgs_quoted (fn : String) (fmt : Option FileFormat)
    (hq : ∀ c ∈ fn.data, c ≠ '"') :
    CueParser.parseFileArgs (String.mk ('"' :: (fn.data ++ '"' :: (fmtSuffix fmt).data))) =
      Except.ok (fn, fmt) := by
  have hfnq : ∀ c ∈ fn.data, (c != '"') = true := by
    intro c hc
    simp only [bne_iff_ne, ne_eq]
    exact hq c hc
  have htr : trimL ('"' :: (fn.data ++ '"' :: (fmtSuffix fmt).data)) =
      '"' :: (fn.data ++ '"' :: (fmtSuffix fmt).data) := by
    apply trimL_eq_self
    · intro c hc
      rw [List.head?_cons, Option.some.injEq] at hc
      subst hc
      decide
    · intro c hc
      rcases fmt with - | ⟨f⟩
      · rw [show (fmtSuffix none).data = [] from rfl] at hc
        rw [← List.cons_append, List.getLast?_concat] at hc
        injection hc with e
        subst e
        decide
      · rw [show (fmtSuffix (some f)).data = ' ' :: f.str.data from rfl] at hc
        rw [getLast?_cons_ne _ _ (by simp)] at hc
        rw [List.getLast?_append_of_ne_nil _ (by simp)] at hc
        rw [getLast?_cons_ne _ _ (by simp)] at hc
        rw [getLast?_cons_ne _ _ (fmtStr_ne_nil f)] at hc
        exact fmtStr_nonws f c (List.mem_of_mem_getLast? hc)
  simp only [CueParser.parseFileArgs]
  rw [show (jsTrim (String.mk ('"' :: (fn.data ++ '"' :: (fmtSuffix fmt).data)))).data =
    trimL ('"' :: (fn.data ++ '"' :: (fmtSuffix fmt).data)) from rfl, htr]
  show (match (fn.data ++ '"' :: (fmtSuffix fmt).data).span (fun c => c != '"') with
    | (_, []) => Except.error "Unterminated quoted filename"
    | (fn2, _ :: after) =>
      if String.mk (trimL after) = "" then Except.ok (String.mk fn2, none)
      else
        match CueParser.parseFileFormat (String.mk (trimL after)) with
        | Except.error e => Except.error e
        | Except.ok f => Except.ok (String.mk fn2, some f)) = Except.ok (fn, fmt)
  rw [List.span_eq_take_drop, takeWhile_until _ _ _ hfnq (by decide),
    dropWhile_until _ _ _ hfnq (by decide)]
  rcases fmt with - | ⟨f⟩
  · show (if String.mk (trimL (fmtSuffix none).data) = "" then
        Except.ok (String.mk fn.data, none)
      else _) = _
    rw [if_pos (by rfl)]
  · show (if String.mk (trimL (fmtSuffix (some f)).data) = "" then
        Except.ok (String.mk fn.data, none)
      else
        match CueParser.parseFileFormat (String.mk (trimL (fmtSuffix (some f)).data)) with
        | Except.error e => Except.error e
        | Except.ok f2 => Except.ok (String.mk fn.data, some f2)) = _
    have htf : trimL (fmtSuffix (some f)).data = f.str.data := by
      rw [show (fmtSuffix (some f)).data = [' '] ++ f.str.data from rfl]
      rw [trimL_wsPre [' '] _ (by decide)]
      exact trimL_eq_self _ (fun c hc => fmtStr_nonws f c (mem_of_head? hc))
        (fun c hc => fmtStr_nonws f c (List.mem_of_mem_getLast? hc))
    rw [htf]
    rw [if_neg (by rw [str_eq_empty_iff]; exact fmtStr_ne_nil f)]
    rw [parseFileFormat_str f]

theorem parseFileArgs_nows (x : String) (hx : ∀ c ∈ x.data, jsWs c = false)
    (hq : ∀ rest, x.data ≠ '"' :: rest) :
    CueParser.parseFileArgs x = Except.ok (x, none) := by
  have htr : trimL x.data = x.data :=
    trimL_eq_self _ (fun c hc => hx c (mem_of_head? hc))
      (fun c hc => hx c (List.mem_of_mem_getLast? hc))
  simp only [CueParser.parseFileArgs]
  rw [show (jsTrim x).data = trimL x.data from rfl, htr]
  split
  case _ rest heq => exact absurd heq (hq rest)
  case _ =>
    rw [splitWs_nows x.data hx]


theorem fmtStr_not_quote (fo : FileFormat) : ∀ rest, fo.str.data ≠ '"' :: rest := by
  intro rest h
  cases fo <;> (injection h with h1 h2; exact absurd h1 (by decide))

theorem parseFileArgs_bare_fmt (fn : String) (fo : FileFormat)
    (hfn : ∀ c ∈ fn.data, jsWs c = false) (hne : fn.data ≠ [])
    (hq : ∀ rest, fn.data ≠ '"' :: rest) :
    CueParser.parseFileArgs (String.mk (fn.data ++ ' ' :: fo.str.data)) =
      Except.ok (fn, some fo) := by
  have htr : trimL (fn.data ++ ' ' :: fo.str.data) = fn.data ++ ' ' :: fo.str.data := by
    apply trimL_eq_self
    · exact head_nonws_of_append _ _ hfn hne
    · intro c hc
      rw [List.getLast?_append_of_ne_nil _ (by simp)] at hc
      rw [getLast?_cons_ne _ _ (fmtStr_ne_nil fo)] at hc
      exact fmtStr_nonws fo c (List.mem_of_mem_getLast? hc)
  simp only [CueParser.parseFileArgs]
  rw [show (jsTrim (String.mk (fn.data ++ ' ' :: fo.str.data))).data =
    trimL (fn.data ++ ' ' :: fo.str.data) from rfl, htr]
  split
  case _ rest heq =>
    exfalso
    rcases hd : fn.data with - | ⟨c0, cs⟩
    · exact hne hd
    · rw [hd, List.cons_append] at heq
      injection heq with h1 h2
      subst h1
      exact hq cs hd
  case _ =>
    have hsw : splitWs (fn.data ++ ' ' :: fo.str.data) = [fn.data, fo.str.data] := by
      rw [splitWs_sep _ _ hfn (fmtStr_ne_nil fo)
        (fun c hc => fmtStr_nonws fo c (mem_of_head? hc))]
      rw [splitWs_nows _ (fmtStr_nonws fo)]
    rw [hsw]
    show (if fo.str.data = [] then Except.ok (String.mk fn.data, none)
      else
        match CueParser.parseFileFormat (String.mk fo.str.data) with
        | Except.error e => Except.error e
        | Except.ok f => Except.ok (String.mk fn.data, some f)) = Except.ok (fn, some fo)
    rw [if_neg (fmtStr_ne_nil fo), parseFileFormat_str fo]

theorem handleFile_some (s : PState) (args : String) (n : Nat) (u : Track) (fn : String)
    (fmt : Option FileFormat) (hu : s.currentTrack = some u)
    (hok : CueParser.parseFileArgs args = Except.ok (fn, fmt)) :
    CueParser.handleFile s args n =
      ({ s with currentTrack :=
                  some { u with
                          file := some ⟨String.mk ((splitCh '/' fn.data).getLastD []), fmt⟩ } },
        none) := by
  unfold CueParser.handleFile
  rw [hok, hu]

theorem handleFile_nocur (s : PState) (args : String) (n : Nat) (fn : String)
    (fmt : Option FileFormat) (hcur : s.currentTrack = none)
    (hok : CueParser.parseFileArgs args = Except.ok (fn, fmt)) :
    CueParser.handleFile s args n =
      ({ s with warnings :=
                  s.warnings ++
                    [⟨n,
                      "Global FILE commands are not recommended. Each TRACK should have its own FILE.",
                      "FILE " ++ args⟩] }, none) := by
  unfold CueParser.handleFile
  rw [hok, hcur]

theorem file_body (f : FileInfo)
    (hf : ∀ c ∈ f.filename.data, c ≠ '"' ∧ (jsWs c = true → c = ' ')) :
    ∃ (restL : List Char) (fn : String) (fmt : Option FileFormat),
      (∀ c, restL.getLast? = some c → jsWs c = false) ∧
      CueParser.parseFileArgs (String.mk (restL.dropWhile jsWs)) = Except.ok (fn, fmt) ∧
      contentFileLine f = String.mk (['\t', '\t', '\t'] ++ ("FILE".data ++ ' ' :: restL)) ∧
      topFileLine f = String.mk (([] : List Char) ++ ("FILE".data ++ ' ' :: restL)) := by
  by_cases hq : needsQuotes f.filename = true
  · have hesc : escapeString f.filename = f.filename := by
      apply str_ext
      show escL f.filename.data = f.filename.data
      exact escL_id _ (fun c hc => (hf c hc).1)
    refine ⟨'"' :: (f.filename.data ++ '"' :: (fmtSuffix f.format).data), f.filename, f.format,
      ?_, ?_, ?_, ?_⟩
    · intro c hc
      rcases hfmt : f.format with - | ⟨fo⟩
      · rw [hfmt] at hc
        rw [show (fmtSuffix none).data = [] from rfl] at hc
        rw [← List.cons_append, List.getLast?_concat] at hc
        injection hc with e
        subst e
        decide
      · rw [hfmt] at hc
        rw [show (fmtSuffix (some fo)).data = ' ' :: fo.str.data from rfl] at hc
        rw [getLast?_cons_ne _ _ (by simp)] at hc
        rw [List.getLast?_append_of_ne_nil _ (by simp)] at hc
        rw [getLast?_cons_ne _ _ (by simp)] at hc
        rw [getLast?_cons_ne _ _ (fmtStr_ne_nil fo)] at hc
        exact fmtStr_nonws fo c (List.mem_of_mem_getLast? hc)
    · rw [show ('"' :: (f.filename.data ++ '"' :: (fmtSuffix f.format).data)).dropWhile jsWs =
        '"' :: (f.filename.data ++ '"' :: (fmtSuffix f.format).data) from
        List.dropWhile_cons_of_neg (by decide)]
      exact parseFileArgs_quoted f.filename f.format (fun c hc => (hf c hc).1)
    · unfold contentFileLine
      rw [if_pos hq, hesc]
      apply str_ext
      show ((['\t', '\t', '\t', 'F', 'I', 'L', 'E', ' ', '"'] ++ f.filename.data) ++ ['"']) ++
          (fmtSuffix f.format).data =
        ['\t', '\t', '\t'] ++ (['F', 'I', 'L', 'E'] ++ ' ' ::
          ('"' :: (f.filename.data ++ '"' :: (fmtSuffix f.format).data)))
      simp [List.append_assoc]
    · unfold topFileLine
      rw [if_pos hq, hesc]
      apply str_ext
      show ((['F', 'I', 'L', 'E', ' ', '"'] ++ f.filename.data) ++ ['"']) ++
          (fmtSuffix f.format).data =
        ([] : List Char) ++ (['F', 'I', 'L', 'E'] ++ ' ' ::
          ('"' :: (f.filename.data ++ '"' :: (fmtSuffix f.format).data)))
      simp [List.append_assoc]
  · have hnsp : ∀ c ∈ f.filename.data, c ≠ ' ' ∧ c ≠ '"' := by
      intro c hc
      have h2 : needsQuotes f.filename = false := Bool.eq_false_iff.mpr hq
      unfold needsQuotes at h2
      rw [List.any_eq_false] at h2
      have h3 := h2 c hc
      simp only [Bool.or_eq_true, decide_eq_true_eq] at h3
      push_neg at h3
      exact h3
    have hnws : ∀ c ∈ f.filename.data, jsWs c = false := by
      intro c hc
      rcases hws : jsWs c with - | -
      · rfl
      · exact absurd ((hf c hc).2 hws) (hnsp c hc).1
    have hq2 : ∀ rest, f.filename.data ≠ '"' :: rest := by
      intro rest h
      exact (hnsp '"' (by rw [h]; exact List.mem_cons_self _ _)).2 rfl
    rcases hdata : f.filename.data with - | ⟨c0, cs⟩
    · have hfe : f.filename = "" := str_ext _ _ hdata
      rcases hfmt : f.format with - | ⟨fo⟩
      · refine ⟨[], "", none, ?_, ?_, ?_, ?_⟩
        · intro c hc
          exact absurd hc (by simp)
        · show CueParser.parseFileArgs "" = Except.ok ("", none)
          exact parseFileArgs_nows "" (by intro c hc; exact absurd hc (by simp))
            (by intro rest h; exact absurd h (by simp))
        · unfold contentFileLine
          rw [if_neg hq, hfe, hfmt]
          apply str_ext
          show ((['\t', '\t', '\t', 'F', 'I', 'L', 'E', ' '] ++ ([] : List Char)) ++
              ([] : List Char)) =
            ['\t', '\t', '\t'] ++ (['F', 'I', 'L', 'E'] ++ ' ' :: ([] : List Char))
          simp
        · unfold topFileLine
          rw [if_neg hq, hfe, hfmt]
          apply str_ext
          show ((['F', 'I', 'L', 'E', ' '] ++ ([] : List Char)) ++ ([] : List Char)) =
            ([] : List Char) ++ (['F', 'I', 'L', 'E'] ++ ' ' :: ([] : List Char))
          simp
      · refine ⟨' ' :: fo.str.data, fo.str, none, ?_, ?_, ?_, ?_⟩
        · intro c hc
          rw [getLast?_cons_ne _ _ (fmtStr_ne_nil fo)] at hc
          exact fmtStr_nonws fo c (List.mem_of_mem_getLast? hc)
        · rw [show (' ' :: fo.str.data).dropWhile jsWs = fo.str.data.dropWhile jsWs from
            List.dropWhile_cons_of_pos (by decide)]
          rw [dropWhile_head_nonws _ (fun c hc => fmtStr_nonws fo c (mem_of_head? hc))]
          show CueParser.parseFileArgs fo.str = Except.ok (fo.str, none)
          exact parseFileArgs_nows fo.str (fmtStr_nonws fo) (fmtStr_not_quote fo)
        · unfold contentFileLine
          rw [if_neg hq, hfe, hfmt]
          apply str_ext
          show ((['\t', '\t', '\t', 'F', 'I', 'L', 'E', ' '] ++ ([] : List Char)) ++
              (' ' :: fo.str.data)) =
            ['\t', '\t', '\t'] ++ (['F', 'I', 'L', 'E'] ++ ' ' :: (' ' :: fo.str.data))
          simp
        · unfold topFileLine
          rw [if_neg hq, hfe, hfmt]
          apply str_ext
          show ((['F', 'I', 'L', 'E', ' '] ++ ([] : List Char)) ++ (' ' :: fo.str.data)) =
            ([] : List Char) ++ (['F', 'I', 'L', 'E'] ++ ' ' :: (' ' :: fo.str.data))
          simp
    · have hdne : f.filename.data ≠ [] := by
        rw [hdata]
        simp
      rcases hfmt : f.format with - | ⟨fo⟩
      · refine ⟨f.filename.data, f.filename, none, ?_, ?_, ?_, ?_⟩
        · intro c hc
          exact hnws c (List.mem_of_mem_getLast? hc)
        · rw [dropWhile_head_nonws _ (fun c hc => hnws c (mem_of_head? hc))]
          show CueParser.parseFileArgs f.filename = Except.ok (f.filename, none)
          exact parseFileArgs_nows f.filename hnws hq2
        · unfold contentFileLine
          rw [if_neg hq, hfmt]
          apply str_ext
          show ((['\t', '\t', '\t', 'F', 'I', 'L', 'E', ' '] ++ f.filename.data) ++
              ([] : List Char)) =
            ['\t', '\t', '\t'] ++ (['F', 'I', 'L', 'E'] ++ ' ' :: f.filename.data)
          simp
        · unfold topFileLine
          rw [if_neg hq, hfmt]
          apply str_ext
          show ((['F', 'I', 'L', 'E', ' '] ++ f.filename.data) ++ ([] : List Char)) =
            ([] : List Char) ++ (['F', 'I', 'L', 'E'] ++ ' ' :: f.filename.data)
          simp
      · refine ⟨f.filename.data ++ ' ' :: fo.str.data, f.filename, some fo, ?_, ?_, ?_, ?_⟩
        · intro c hc
          rw [List.getLast?_append_of_ne_nil _ (by simp)] at hc
          rw [getLast?_cons_ne _ _ (fmtStr_ne_nil fo)] at hc
          exact fmtStr_nonws fo c (List.mem_of_mem_getLast? hc)
        · rw [dropWhile_head_nonws _ (head_nonws_of_append _ _ hnws hdne)]
          exact parseFileArgs_bare_fmt f.filename fo hnws hdne hq2
        · unfold contentFileLine
          rw [if_neg hq, hfmt]
          apply str_ext
          show ((['\t', '\t', '\t', 'F', 'I', 'L', 'E', ' '] ++ f.filename.data) ++
              (' ' :: fo.str.data)) =
            ['\t', '\t', '\t'] ++ (['F', 'I', 'L', 'E'] ++ ' ' ::
              (f.filename.data ++ ' ' :: fo.str.data))
          simp [List.append_assoc]
        · unfold topFileLine
          rw [if_neg hq, hfmt]
          apply str_ext
          show ((['F', 'I', 'L', 'E', ' '] ++ f.filename.data) ++ (' ' :: fo.str.data)) =
            ([] : List Char) ++ (['F', 'I', 'L', 'E'] ++ ' ' ::
              (f.filename.data ++ ' ' :: fo.str.data))
          simp [List.append_assoc]

theorem tstep_contentFileLine (f : FileInfo)
    (hf : ∀ c ∈ f.filename.data, c ≠ '"' ∧ (jsWs c = true → c = ' ')) :
    TStep (contentFileLine f) := by
  intro s u n hu
  obtain ⟨restL, fn, fmt, hlast, hok, hcl, -⟩ := file_body f hf
  refine ⟨{ u with file := some ⟨String.mk ((splitCh '/' fn.data).getLastD []), fmt⟩ },
    s.warnings, ?_, rfl, rfl, rfl, rfl⟩
  rw [hcl]
  apply step_of_parseLineRaw
  rw [parseLineRaw_build s ['\t', '\t', '\t'] "FILE".data restL n (by decide) (by decide)
    (by decide) hlast]
  rw [show String.mk "FILE".data = "FILE" from rfl, dispatch_FILE]
  exact handleFile_some s _ n u fn fmt hu hok

theorem tstep_topFileLine (f : FileInfo)
    (hf : ∀ c ∈ f.filename.data, c ≠ '"' ∧ (jsWs c = true → c = ' ')) :
    TStep (topFileLine f) := by
  intro s u n hu
  obtain ⟨restL, fn, fmt, hlast, hok, -, htl⟩ := file_body f hf
  refine ⟨{ u with file := some ⟨String.mk ((splitCh '/' fn.data).getLastD []), fmt⟩ },
    s.warnings, ?_, rfl, rfl, rfl, rfl⟩
  rw [htl]
  apply step_of_parseLineRaw
  rw [parseLineRaw_build s [] "FILE".data restL n (by simp) (by decide) (by decide) hlast]
  rw [show String.mk "FILE".data = "FILE" from rfl, dispatch_FILE]
  exact handleFile_some s _ n u fn fmt hu hok

theorem gstep_topFileLine (f : FileInfo)
    (hf : ∀ c ∈ f.filename.data, c ≠ '"' ∧ (jsWs c = true → c = ' ')) :
    GStep (topFileLine f) := by
  intro s n hcur
  obtain ⟨restL, fn, fmt, hlast, hok, -, htl⟩ := file_body f hf
  refine ⟨s.global, s.warnings ++
    [⟨n, "Global FILE commands are not recommended. Each TRACK should have its own FILE.",
      "FILE " ++ String.mk (restL.dropWhile jsWs)⟩], ?_⟩
  rw [htl]
  apply step_of_parseLineRaw
  rw [parseLineRaw_build s [] "FILE".data restL n (by simp) (by decide) (by decide) hlast]
  rw [show String.mk "FILE".data = "FILE" from rfl, dispatch_FILE]
  rw [handleFile_nocur s _ n fn fmt hcur hok]
  rw [← hcur]

/-- Witness for C10: the amended statement applied at the empty document
and at a one-track document under `formatCueSheet`. -/
theorem claim_C10_witness :
    endsOneNL (serializeCueSheet ⟨emptyGlobal, []⟩) ∧
      endsOneNL (formatCueSheet ⟨emptyGlobal, [blankTrack 1 .audio 0]⟩ none none) := by
  constructor
  · exact claim_C10_amended.1 ⟨emptyGlobal, []⟩ noNLDoc_nil
  · exact claim_C10_amended.2.2.1 ⟨emptyGlobal, [blankTrack 1 .audio 0]⟩ none none
      ⟨noNLGlobal_empty, fun t ht => by
        rw [List.mem_singleton] at ht
        subst ht
        exact noNLTrack_blank 1 .audio 0⟩
      (fun i h => nomatch h)
      (Or.inl (by simp))

end Cue
